import Mathlib

/-!
# Boat management (`src/boat_management.c`)

A shallow embedding of the marina inventory program and proofs about it.

Modelling conventions.

* A C string is a `List Char`; wherever the C code reads a string it stops at the
  first NUL character, and so do the functions below (`cstr`, `strcasecmp`).
* `int` values are `Int`.  The two places where text becomes an `int`
  (`%d` in `sscanf`, `atoi`) go through `strtol`, which saturates at the range of
  `long` (64 bits), and the result is then truncated to 32 bits (`toInt32`).
* `double` values are IEEE 754 binary64 (`Double`): finite numbers with their sign
  (two zeros), infinities and NaN.  The arithmetic is that of x86-64 (SSE2): every
  operation rounds its exact result to the nearest double, ties to even; a product
  and the sum it enters are rounded one after the other; a NaN operand is passed
  on, and an invalid operation gives the default NaN, whose sign bit is set.  Of a
  NaN only the sign bit is kept.  `%lf` is the conversion of glibc: decimal or
  hexadecimal notation, `inf`, `infinity` and `nan`, correctly rounded; `%.2f`
  prints the exact value of the double rounded to hundredths, ties to even.  The
  magnitude of a finite `Double` is a rational number; the values that a double
  can hold are those that satisfy `Double.wellFormed`, and every operation below
  returns such a value.
* The array `Boat *boats[MAX_BOATS]` together with `boatCount` is the list of the
  first `boatCount` entries.  `loadData` stores `boats[*boatCount]` without
  looking at `MAX_BOATS`; the list simply grows, as `boatCount` does.
* The union `PlaceInfo` remembers which member was written last.  The program
  only ever reads the member that belongs to `place`; the functions below give a
  fixed answer (`false`, nothing printed) where the two disagree.
* Text read from the terminal is an argument of the operation (`none` when
  `scanf` could not read it); `malloc` and `fprintf` are taken to succeed and
  terminal input is taken to fit the buffers it is read into.
* `qsort` is a stable insertion sort by the comparator (C leaves the order of
  elements that compare equal open; statements that depend on it say so).
-/

namespace BoatManagement

/-! ## Binary floating point (`double`) -/

/-- A `double` (IEEE 754 binary64): a finite number with its sign and magnitude (so
that there are two zeros), an infinity, or a NaN with its sign bit. -/
inductive Double where
  | fin (neg : Bool) (mag : ℚ)
  | inf (neg : Bool)
  | nan (neg : Bool)
  deriving DecidableEq

/-- Rounding to the nearest integer, ties to even. -/
def roundHalfEven (x : ℚ) : Int :=
  let f := ⌊x⌋
  if x - f < 1 / 2 then f
  else if 1 / 2 < x - f then f + 1
  else if f % 2 = 0 then f else f + 1

/-- The power `2 ^ k` for an integer `k`. -/
def pow2 (k : Int) : ℚ :=
  if 0 ≤ k then ((2 ^ k.toNat : Nat) : ℚ) else mkRat 1 (2 ^ (-k).toNat)

/-- The position of the highest bit of `n`, found in at most `fuel` halvings. -/
def log2Fuel : Nat → Nat → Nat
  | 0, _ => 0
  | fuel + 1, n => if n < 2 then 0 else log2Fuel fuel (n / 2) + 1

/-- The exponent `k` with `2 ^ k ≤ x < 2 ^ (k + 1)`, for a positive `x`. -/
def ilog2 (x : ℚ) : Int :=
  if pow2 ((log2Fuel x.num.natAbs x.num.natAbs : Int) - (log2Fuel x.den x.den : Int)) ≤ x then
    (log2Fuel x.num.natAbs x.num.natAbs : Int) - (log2Fuel x.den x.den : Int)
  else (log2Fuel x.num.natAbs x.num.natAbs : Int) - (log2Fuel x.den x.den : Int) - 1

/-- The spacing of the doubles around a magnitude `x`: 52 binary places below the
leading bit of `x`, and never less than `2 ^ (-1074)` (subnormal numbers). -/
def quantum (x : ℚ) : ℚ := pow2 (max (ilog2 x) (-1022) - 52)

/-- The magnitude `x` rounded to the nearest multiple of the spacing, ties to even. -/
def roundMag (x : ℚ) : ℚ := (roundHalfEven (x / quantum x) : ℚ) * quantum x

/-- The double nearest to a number given by sign and magnitude; magnitudes that
round to `2 ^ 1024` or more overflow to infinity. -/
def roundSigned (neg : Bool) (mag : ℚ) : Double :=
  if pow2 1024 ≤ roundMag mag then Double.inf neg else Double.fin neg (roundMag mag)

/-- The double nearest to a rational number (a zero result is `+0`). -/
def Double.ofRat (x : ℚ) : Double :=
  if x < 0 then roundSigned true (-x) else roundSigned false x

/-- Conversion of an `int` to `double`. -/
def Double.ofInt (n : Int) : Double := Double.ofRat (n : ℚ)

/-- The number a finite double stands for. -/
def signedValue (neg : Bool) (mag : ℚ) : ℚ := if neg then -mag else mag

/-- The result of an operation whose exact value is `x`: the nearest double, and
when `x` is zero the zero with the sign the operation prescribes. -/
def Double.ofExact (x : ℚ) (zeroNeg : Bool) : Double :=
  if x = 0 then Double.fin zeroNeg 0 else Double.ofRat x

/-- Addition of doubles (`addsd`): a NaN operand is passed on, infinities of
opposite sign give the default NaN, whose sign bit is set on x86-64. -/
def Double.add : Double → Double → Double
  | Double.nan s, _ => Double.nan s
  | _, Double.nan t => Double.nan t
  | Double.inf s, Double.inf t => if s = t then Double.inf s else Double.nan true
  | Double.inf s, Double.fin _ _ => Double.inf s
  | Double.fin _ _, Double.inf t => Double.inf t
  | Double.fin s a, Double.fin t b =>
    Double.ofExact (signedValue s a + signedValue t b) (s && t)

/-- Subtraction of doubles (`subsd`). -/
def Double.sub : Double → Double → Double
  | Double.nan s, _ => Double.nan s
  | _, Double.nan t => Double.nan t
  | Double.inf s, Double.inf t => if s = t then Double.nan true else Double.inf s
  | Double.inf s, Double.fin _ _ => Double.inf s
  | Double.fin _ _, Double.inf t => Double.inf (!t)
  | Double.fin s a, Double.fin t b =>
    Double.ofExact (signedValue s a - signedValue t b) (s && !t)

/-- Multiplication of doubles (`mulsd`). -/
def Double.mul : Double → Double → Double
  | Double.nan s, _ => Double.nan s
  | _, Double.nan t => Double.nan t
  | Double.inf s, Double.inf t => Double.inf (xor s t)
  | Double.inf s, Double.fin t b => if b = 0 then Double.nan true else Double.inf (xor s t)
  | Double.fin s a, Double.inf t => if a = 0 then Double.nan true else Double.inf (xor s t)
  | Double.fin s a, Double.fin t b => roundSigned (xor s t) (a * b)

/-- The comparison `a < b` of doubles: false when either is a NaN. -/
def Double.lt : Double → Double → Bool
  | Double.nan _, _ => false
  | _, Double.nan _ => false
  | Double.inf s, Double.inf t => s && !t
  | Double.inf s, Double.fin _ _ => s
  | Double.fin _ _, Double.inf t => !t
  | Double.fin s a, Double.fin t b => decide (signedValue s a < signedValue t b)

/-- The comparison `a <= b` of doubles: false when either is a NaN. -/
def Double.le : Double → Double → Bool
  | Double.nan _, _ => false
  | _, Double.nan _ => false
  | Double.inf s, Double.inf t => s || !t
  | Double.inf s, Double.fin _ _ => s
  | Double.fin _ _, Double.inf t => !t
  | Double.fin s a, Double.fin t b => decide (signedValue s a ≤ signedValue t b)

/-- The comparison `a > b` of doubles. -/
def Double.gt (a b : Double) : Bool := Double.lt b a

/-- Whole numbers written as literals are the doubles of that value. -/
instance instOfNatDouble (n : Nat) : OfNat Double n := ⟨Double.ofInt (n : Int)⟩

/-- The sign bit flipped. -/
def Double.neg : Double → Double
  | Double.fin s a => Double.fin (!s) a
  | Double.inf s => Double.inf (!s)
  | Double.nan s => Double.nan (!s)

instance instNegDouble : Neg Double := ⟨Double.neg⟩

/-- Whether a double is a number: not a NaN. -/
def Double.isNumber : Double → Bool
  | Double.nan _ => false
  | _ => true

/-- Whether a double is finite: neither a NaN nor an infinity. -/
def Double.isFinite : Double → Bool
  | Double.fin _ _ => true
  | _ => false

/-- A value of the type `Double` that a double can really hold: a finite one has a
magnitude that rounding leaves alone and that is below `2 ^ 1024`. -/
def Double.wellFormed : Double → Prop
  | Double.fin _ a => 0 ≤ a ∧ roundMag a = a ∧ a < pow2 1024
  | _ => True

instance instDecidableWellFormed : DecidablePred Double.wellFormed := fun d =>
  match d with
  | Double.fin _ a => inferInstanceAs (Decidable (0 ≤ a ∧ roundMag a = a ∧ a < pow2 1024))
  | Double.inf _ => isTrue trivial
  | Double.nan _ => isTrue trivial

/-! ## Constants and data model -/

def MAX_BOATS : Nat := 120

def MAX_NAME_LENGTH : Nat := 128

def MAX_trailor_TAG_LENGTH : Nat := 10

/-- The enum `PlaceType`. -/
inductive PlaceType where
  | slip
  | land
  | trailor
  | storage
  | no_place
  deriving DecidableEq, Repr

/-- The union `PlaceInfo`, tagged with the member written last. -/
inductive PlaceInfo where
  | slipNumber (n : Int)
  | bayLetter (c : Char)
  | trailorTag (tag : List Char)
  | storageNumber (n : Int)
  deriving DecidableEq

/-- The struct `Boat`. -/
structure Boat where
  name : List Char
  length : Int
  place : PlaceType
  info : PlaceInfo
  amountOwed : Double
  deriving DecidableEq

/-! ## C library functions used by the program -/

/-- The string terminator. -/
def NUL : Char := Char.ofNat 0

/-- The characters of a buffer that make up the C string stored in it. -/
def cstr (s : List Char) : List Char := s.takeWhile (fun c => c ≠ NUL)

/-- The C function `isspace` in the C locale. -/
def isspace (c : Char) : Bool :=
  c.toNat = 32 || (9 ≤ c.toNat && c.toNat ≤ 13)

/-- The C function `isdigit`. -/
def isdigit (c : Char) : Bool := 48 ≤ c.toNat && c.toNat ≤ 57

/-- The C function `tolower` in the C locale, on character codes. -/
def tolower (c : Nat) : Nat := if 65 ≤ c ∧ c ≤ 90 then c + 32 else c

/-- The C function `strcasecmp`: both strings are walked in step, the loop ends at
the end of the first string or at the first pair of characters that differ after
`tolower`, and the difference of that pair is returned. -/
def strcasecmp : List Char → List Char → Int
  | [], [] => 0
  | [], c2 :: _ => 0 - (tolower c2.toNat : Int)
  | c1 :: _, [] => (tolower c1.toNat : Int) - 0
  | c1 :: s1, c2 :: s2 =>
    if tolower c1.toNat = 0 then 0 - (tolower c2.toNat : Int)
    else if tolower c1.toNat = tolower c2.toNat then strcasecmp s1 s2
    else (tolower c1.toNat : Int) - (tolower c2.toNat : Int)

/-- Saturation of `strtol` at the range of a 64-bit `long`. -/
def clampLong (v : Int) : Int :=
  if v > 9223372036854775807 then 9223372036854775807
  else if v < -9223372036854775808 then -9223372036854775808
  else v

/-- Conversion of a `long` to a 32-bit `int`. -/
def toInt32 (v : Int) : Int := (v + 2147483648) % 4294967296 - 2147483648

/-- Value of a decimal digit character. -/
def digitVal (c : Char) : Nat := c.toNat - 48

/-- Value of a string of decimal digits. -/
def digitsToNat (ds : List Char) : Nat :=
  ds.foldl (fun acc c => acc * 10 + digitVal c) 0

/-- An optional sign in front of a number: whether it is `-`, and the rest. -/
def scanSign : List Char → Bool × List Char
  | [] => (false, [])
  | c :: rest =>
    if c = Char.ofNat 45 then (true, rest)
    else if c = Char.ofNat 43 then (false, rest)
    else (false, c :: rest)

/-- The `sscanf` conversion `%d`: white space is skipped, then an optional sign
and at least one digit are read. -/
def scanInt (s : List Char) : Option (Int × List Char) :=
  let s1 := s.dropWhile isspace
  let sg := scanSign s1
  let ds := sg.2.takeWhile isdigit
  if ds = [] then none
  else
    let v : Int := (digitsToNat ds : Int)
    some (toInt32 (clampLong (if sg.1 then -v else v)), sg.2.drop ds.length)

/-- The C function `atoi`: as `%d`, but the answer is 0 when there is no digit. -/
def atoi (s : List Char) : Int :=
  match scanInt (cstr s) with
  | some (v, _) => v
  | none => 0

/-- The `sscanf` conversion `%w[^,]`: the longest run of at most `w` characters
other than a comma; the conversion fails when the run is empty. -/
def scanNotComma (w : Nat) (s : List Char) : Option (List Char × List Char) :=
  let tok := (s.takeWhile (fun c => c ≠ Char.ofNat 44)).take w
  if tok = [] then none else some (tok, s.drop tok.length)

/-- The literal `,` of the `sscanf` format. -/
def scanComma : List Char → Option (List Char)
  | [] => none
  | c :: rest => if c = Char.ofNat 44 then some rest else none

/-- The C function `isxdigit`. -/
def isxdigit (c : Char) : Bool :=
  isdigit c || (97 ≤ tolower c.toNat && tolower c.toNat ≤ 102)

/-- Value of a hexadecimal digit character. -/
def hexVal (c : Char) : Nat := if isdigit c then c.toNat - 48 else tolower c.toNat - 87

/-- Value of a string of hexadecimal digits. -/
def hexToNat (ds : List Char) : Nat :=
  ds.foldl (fun acc c => acc * 16 + hexVal c) 0

/-- The rest of a string after a word given by the codes of its lower-case letters,
matched without regard to case. -/
def matchWord : List Nat → List Char → Option (List Char)
  | [], s => some s
  | _ :: _, [] => none
  | k :: w, c :: s => if tolower c.toNat = k then matchWord w s else none

/-- The exponent of a floating-point number: the marker (`e` or `p`, in either
case), an optional sign and at least one digit; 0 when there is no complete one. -/
def scanExponent (marker : Nat) (s : List Char) : Int :=
  match s with
  | [] => 0
  | c :: rest =>
    if tolower c.toNat = marker then
      if (scanSign rest).2.takeWhile isdigit = [] then 0
      else if (scanSign rest).1 then -(digitsToNat ((scanSign rest).2.takeWhile isdigit) : Int)
      else (digitsToNat ((scanSign rest).2.takeWhile isdigit) : Int)
    else 0

/-- The number `m * 10 ^ e`. -/
def decimalValue (m : Nat) (e : Int) : ℚ :=
  if 0 ≤ e then ((m * 10 ^ e.toNat : Nat) : ℚ) else mkRat m (10 ^ (-e).toNat)

/-- A number in decimal notation read by `%lf`: digits with an optional fraction (at
least one digit in all) and an optional exponent, rounded to the nearest double. -/
def scanDecimal (neg : Bool) (s : List Char) : Option Double :=
  let ip := s.takeWhile isdigit
  let s2 := s.drop ip.length
  let fp : List Char :=
    match s2 with
    | [] => []
    | c :: rest => if c = Char.ofNat 46 then rest.takeWhile isdigit else []
  let s3 : List Char :=
    match s2 with
    | [] => []
    | c :: rest => if c = Char.ofNat 46 then rest.drop fp.length else s2
  if ip = [] ∧ fp = [] then none
  else
    some (roundSigned neg
      (decimalValue (digitsToNat (ip ++ fp)) (scanExponent 101 s3 - (fp.length : Int))))

/-- A number in hexadecimal notation read by `%lf`, after its prefix `0x`: with no
hexadecimal digit at all the conversion fails when nothing follows the prefix and
gives the zero of the prefix when only a point follows. -/
def scanHex (neg : Bool) (s : List Char) : Option Double :=
  let ip := s.takeWhile isxdigit
  match s.drop ip.length with
  | [] => if ip = [] then none else some (roundSigned neg (hexToNat ip : ℚ))
  | c :: rest =>
    if c = Char.ofNat 46 then
      if ip = [] ∧ rest.takeWhile isxdigit = [] then some (Double.fin neg 0)
      else
        some (roundSigned neg ((hexToNat (ip ++ rest.takeWhile isxdigit) : ℚ) *
          pow2 (scanExponent 112 (rest.drop (rest.takeWhile isxdigit).length) -
            4 * ((rest.takeWhile isxdigit).length : Int))))
    else if ip = [] then none
    else some (roundSigned neg ((hexToNat ip : ℚ) * pow2 (scanExponent 112 (c :: rest))))

/-- The `sscanf` conversion `%lf` of glibc: white space is skipped and an optional
sign read; then come `nan`, `inf` (which must be spelt out as `infinity` when an
`i` follows), a hexadecimal number after `0x`, or a decimal number.  The conversion
fails at the end of the input and when no number can be made of what was read. -/
def scanDouble (s : List Char) : Option Double :=
  match scanSign (s.dropWhile isspace) with
  | (_, []) => none
  | (neg, c :: rest) =>
    if tolower c.toNat = 110 then
      match matchWord [97, 110] rest with
      | none => none
      | some _ => some (Double.nan neg)
    else if tolower c.toNat = 105 then
      match matchWord [110, 102] rest with
      | none => none
      | some [] => some (Double.inf neg)
      | some (d :: after) =>
        if tolower d.toNat = 105 then
          match matchWord [110, 105, 116, 121] after with
          | none => none
          | some _ => some (Double.inf neg)
        else some (Double.inf neg)
    else if c = Char.ofNat 48 ∧ (rest.head?.map (fun x => tolower x.toNat)) = some 120 then
      scanHex neg (rest.drop 1)
    else scanDecimal neg (c :: rest)

/-- The five values that `sscanf` stores when all five conversions succeed. -/
structure ScannedLine where
  name : List Char
  length : Int
  placeString : List Char
  info : List Char
  amountOwed : Double
  deriving DecidableEq

/-- The call `sscanf(line, "%127[^,],%d,%19[^,],%19[^,],%lf", ...)`; the result is
`some` exactly when the call returns 5. -/
def sscanfBoat (line : List Char) : Option ScannedLine :=
  match scanNotComma 127 (cstr line) with
  | none => none
  | some (name, s1) =>
  match scanComma s1 with
  | none => none
  | some s2 =>
  match scanInt s2 with
  | none => none
  | some (length, s3) =>
  match scanComma s3 with
  | none => none
  | some s4 =>
  match scanNotComma 19 s4 with
  | none => none
  | some (placeString, s5) =>
  match scanComma s5 with
  | none => none
  | some s6 =>
  match scanNotComma 19 s6 with
  | none => none
  | some (info, s7) =>
  match scanComma s7 with
  | none => none
  | some s8 =>
  match scanDouble s8 with
  | none => none
  | some amountOwed => some ⟨name, length, placeString, info, amountOwed⟩

/-- Decimal digits of a natural number, most significant first (`fuel` bounds the
number of digits). -/
def natDigits : Nat → Nat → List Char
  | 0, _ => []
  | fuel + 1, n =>
    if n < 10 then [Char.ofNat (48 + n)]
    else natDigits fuel (n / 10) ++ [Char.ofNat (48 + n % 10)]

/-- The text `printf` writes for a non-negative integer. -/
def printNat (n : Nat) : List Char := natDigits (n + 1) n

/-- The `printf` conversion `%d`. -/
def printInt (n : Int) : List Char :=
  if n < 0 then Char.ofNat 45 :: printNat n.natAbs else printNat n.natAbs

/-- The sign `printf` writes in front of a negative number. -/
def printSign (neg : Bool) : List Char := if neg then [Char.ofNat 45] else []

/-- The `printf` conversion `%.2f`: the exact value of the double rounded to
hundredths, ties to even; `inf` and `nan` for the values that are no numbers. -/
def printFixed2 : Double → List Char
  | Double.nan s => printSign s ++ ['n', 'a', 'n']
  | Double.inf s => printSign s ++ ['i', 'n', 'f']
  | Double.fin s a =>
    printSign s ++ printNat ((roundHalfEven (a * 100)).natAbs / 100) ++
      [Char.ofNat 46, Char.ofNat (48 + (roundHalfEven (a * 100)).natAbs % 100 / 10),
        Char.ofNat (48 + (roundHalfEven (a * 100)).natAbs % 10)]

/-- The stream function `fgets(line, n + 1, file)` called until the end of the
file: each piece ends after a newline or after `n` characters. -/
def fgetsAux (n : Nat) (cur : List Char) : List Char → List (List Char)
  | [] => if cur = [] then [] else [cur]
  | c :: rest =>
    if c = Char.ofNat 10 ∨ (cur ++ [c]).length = n then
      (cur ++ [c]) :: fgetsAux n [] rest
    else fgetsAux n (cur ++ [c]) rest

/-- The lines that `while (fgets(line, sizeof(line), file))` sees for a file with
the given contents (`sizeof(line)` is 256). -/
def fgetsLines (content : List Char) : List (List Char) := fgetsAux 255 [] content

/-! ## Functions of the program -/

/-- The function `validateLength`. -/
def validateLength (length : Int) : Bool := decide (length ≥ 1) && decide (length ≤ 100)

/-- The function `stringToPlaceType`. -/
def stringToPlaceType (placeString : List Char) : PlaceType :=
  if strcasecmp placeString ['s', 'l', 'i', 'p'] = 0 then PlaceType.slip
  else if strcasecmp placeString ['l', 'a', 'n', 'd'] = 0 then PlaceType.land
  else if strcasecmp placeString ['t', 'r', 'a', 'i', 'l', 'o', 'r'] = 0 then PlaceType.trailor
  else if strcasecmp placeString ['s', 't', 'o', 'r', 'a', 'g', 'e'] = 0 then PlaceType.storage
  else PlaceType.no_place

/-- The function `validateBoatInfo`. -/
def validateBoatInfo (boat : Boat) : Bool :=
  match boat.place, boat.info with
  | PlaceType.slip, PlaceInfo.slipNumber n => decide (n ≥ 1) && decide (n ≤ 85)
  | PlaceType.land, PlaceInfo.bayLetter c => decide (c.toNat ≥ 65) && decide (c.toNat ≤ 90)
  | PlaceType.storage, PlaceInfo.storageNumber n => decide (n ≥ 1) && decide (n ≤ 50)
  | PlaceType.trailor, _ => true
  | _, _ => false

/-- The function `findBoatByName`, scanning from index `i` on. -/
def findBoatByNameFrom (i : Nat) : List Boat → List Char → Int
  | [], _ => -1
  | b :: rest, name =>
    if strcasecmp b.name name = 0 then (i : Int) else findBoatByNameFrom (i + 1) rest name

/-- The function `findBoatByName`. -/
def findBoatByName (boats : List Boat) (name : List Char) : Int :=
  findBoatByNameFrom 0 boats name

/-- The function `compareBoats`. -/
def compareBoats (a b : Boat) : Int := strcasecmp a.name b.name

/-- The order `qsort` sorts by: `compareBoats` does not say the first comes later. -/
def boatLe (a b : Boat) : Prop := compareBoats a b ≤ 0

instance boatLeDecidable : DecidableRel boatLe := fun a b =>
  inferInstanceAs (Decidable (compareBoats a b ≤ 0))

/-- The function `sortBoats`. -/
def sortBoats (boats : List Boat) : List Boat := List.insertionSort boatLe boats

/-- The copy `strncpy(tag, info, MAX_trailor_TAG_LENGTH)` followed by
`tag[MAX_trailor_TAG_LENGTH - 1] = 0`. -/
def copyTag (info : List Char) : List Char := (cstr info).take (MAX_trailor_TAG_LENGTH - 1)

/-- The first character `info[0]` of a string (the terminator when it is empty). -/
def firstChar (info : List Char) : Char := (cstr info).headD NUL

/-- Why `loadData` skips a line. -/
inductive LoadError where
  | parseError
  | invalidLength
  | invalidPlace
  | invalidInfo
  deriving DecidableEq

deriving instance DecidableEq for Except

/-- One round of the `while` loop of `loadData`: the boat stored for the line, or
the reason why nothing is stored. -/
def loadLine (line : List Char) : Except LoadError Boat :=
  match sscanfBoat line with
  | none => Except.error LoadError.parseError
  | some f =>
    if validateLength f.length = false then Except.error LoadError.invalidLength
    else
      let place := stringToPlaceType f.placeString
      if place = PlaceType.no_place then Except.error LoadError.invalidPlace
      else
        let info : PlaceInfo :=
          match place with
          | PlaceType.slip => PlaceInfo.slipNumber (atoi f.info)
          | PlaceType.land => PlaceInfo.bayLetter (firstChar f.info)
          | PlaceType.trailor => PlaceInfo.trailorTag (copyTag f.info)
          | PlaceType.storage => PlaceInfo.storageNumber (atoi f.info)
          | PlaceType.no_place => PlaceInfo.slipNumber 0
        let boat : Boat := ⟨f.name, f.length, place, info, f.amountOwed⟩
        if validateBoatInfo boat = false then Except.error LoadError.invalidInfo
        else Except.ok boat

/-- The `while` loop of `loadData` over the lines read from the file. -/
def loadLines (boats : List Boat) : List (List Char) → List Boat
  | [] => boats
  | line :: rest =>
    match loadLine line with
    | Except.ok boat => loadLines (boats ++ [boat]) rest
    | Except.error _ => loadLines boats rest

/-- The function `loadData`; `file` is `none` when the file cannot be opened. -/
def loadData (boats : List Boat) (file : Option (List Char)) : List Boat :=
  match file with
  | none => boats
  | some content => sortBoats (loadLines boats (fgetsLines content))

/-- The line `saveData` writes for one boat. -/
def formatLine (boat : Boat) : List Char :=
  match boat.place, boat.info with
  | PlaceType.slip, PlaceInfo.slipNumber n =>
    cstr boat.name ++ [','] ++ printInt boat.length ++ [',', 's', 'l', 'i', 'p', ','] ++
      printInt n ++ [','] ++ printFixed2 boat.amountOwed ++ [Char.ofNat 10]
  | PlaceType.land, PlaceInfo.bayLetter c =>
    cstr boat.name ++ [','] ++ printInt boat.length ++ [',', 'l', 'a', 'n', 'd', ','] ++
      [c] ++ [','] ++ printFixed2 boat.amountOwed ++ [Char.ofNat 10]
  | PlaceType.trailor, PlaceInfo.trailorTag tag =>
    cstr boat.name ++ [','] ++ printInt boat.length ++
      [',', 't', 'r', 'a', 'i', 'l', 'o', 'r', ','] ++
      cstr tag ++ [','] ++ printFixed2 boat.amountOwed ++ [Char.ofNat 10]
  | PlaceType.storage, PlaceInfo.storageNumber n =>
    cstr boat.name ++ [','] ++ printInt boat.length ++
      [',', 's', 't', 'o', 'r', 'a', 'g', 'e', ','] ++
      printInt n ++ [','] ++ printFixed2 boat.amountOwed ++ [Char.ofNat 10]
  | _, _ => []

/-- The function `saveData`: the contents of the file written. -/
def saveData (boats : List Boat) : List Char := boats.flatMap formatLine

/-- What `addBoat` reports. -/
inductive AddOutcome where
  | capacityReached
  | readError
  | invalidFormat
  | invalidLength
  | alreadyExists
  | invalidSlip
  | invalidBay
  | invalidStorage
  | invalidPlace
  | added
  deriving DecidableEq

/-- The function `addBoat`; `input` is the line read from the terminal. -/
def addBoat (boats : List Boat) (input : Option (List Char)) : AddOutcome × List Boat :=
  if boats.length ≥ MAX_BOATS then (AddOutcome.capacityReached, boats)
  else
    match input with
    | none => (AddOutcome.readError, boats)
    | some line =>
      match sscanfBoat line with
      | none => (AddOutcome.invalidFormat, boats)
      | some f =>
        if validateLength f.length = false then (AddOutcome.invalidLength, boats)
        else if findBoatByName boats f.name ≠ -1 then (AddOutcome.alreadyExists, boats)
        else
          match stringToPlaceType f.placeString with
          | PlaceType.slip =>
            if atoi f.info < 1 ∨ atoi f.info > 85 then (AddOutcome.invalidSlip, boats)
            else (AddOutcome.added, sortBoats (boats ++
              [⟨f.name, f.length, PlaceType.slip, PlaceInfo.slipNumber (atoi f.info),
                f.amountOwed⟩]))
          | PlaceType.land =>
            if (firstChar f.info).toNat < 65 ∨ (firstChar f.info).toNat > 90 then
              (AddOutcome.invalidBay, boats)
            else (AddOutcome.added, sortBoats (boats ++
              [⟨f.name, f.length, PlaceType.land, PlaceInfo.bayLetter (firstChar f.info),
                f.amountOwed⟩]))
          | PlaceType.trailor =>
            (AddOutcome.added, sortBoats (boats ++
              [⟨f.name, f.length, PlaceType.trailor, PlaceInfo.trailorTag (copyTag f.info),
                f.amountOwed⟩]))
          | PlaceType.storage =>
            if atoi f.info < 1 ∨ atoi f.info > 50 then (AddOutcome.invalidStorage, boats)
            else (AddOutcome.added, sortBoats (boats ++
              [⟨f.name, f.length, PlaceType.storage, PlaceInfo.storageNumber (atoi f.info),
                f.amountOwed⟩]))
          | PlaceType.no_place => (AddOutcome.invalidPlace, boats)

/-- What `acceptPayment` reports. -/
inductive PaymentOutcome where
  | readError
  | notFound
  | amountReadError
  | exceedsOwed
  | accepted
  deriving DecidableEq

/-- The function `acceptPayment`; `input` is the name and `payment` the amount
read from the terminal. -/
def acceptPayment (boats : List Boat) (input : Option (List Char)) (payment : Option Double) :
    PaymentOutcome × List Boat :=
  match input with
  | none => (PaymentOutcome.readError, boats)
  | some name =>
    if findBoatByName boats name = -1 then (PaymentOutcome.notFound, boats)
    else
      match boats[(findBoatByName boats name).toNat]? with
      | none => (PaymentOutcome.notFound, boats)
      | some boat =>
        match payment with
        | none => (PaymentOutcome.amountReadError, boats)
        | some amount =>
          if Double.gt amount boat.amountOwed = true then (PaymentOutcome.exceedsOwed, boats)
          else (PaymentOutcome.accepted,
            boats.set (findBoatByName boats name).toNat
              { boat with amountOwed := Double.sub boat.amountOwed amount })

/-- What `removeBoat` reports. -/
inductive RemoveOutcome where
  | readError
  | notFound
  | removed
  deriving DecidableEq

/-- The function `removeBoat`; `input` is the name read from the terminal. -/
def removeBoat (boats : List Boat) (input : Option (List Char)) : RemoveOutcome × List Boat :=
  match input with
  | none => (RemoveOutcome.readError, boats)
  | some name =>
    if findBoatByName boats name = -1 then (RemoveOutcome.notFound, boats)
    else (RemoveOutcome.removed, sortBoats (boats.eraseIdx (findBoatByName boats name).toNat))

/-- The monthly charge that `updateMonthlyCharges` adds to one boat. -/
def monthlyCharge (boat : Boat) : Boat :=
  match boat.place with
  | PlaceType.slip => { boat with amountOwed := (Double.add boat.amountOwed
      (Double.mul (Double.ofInt boat.length) (Double.ofRat 12.50))) }
  | PlaceType.land => { boat with amountOwed := (Double.add boat.amountOwed
      (Double.mul (Double.ofInt boat.length) (Double.ofRat 14.00))) }
  | PlaceType.trailor => { boat with amountOwed := (Double.add boat.amountOwed
      (Double.mul (Double.ofInt boat.length) (Double.ofRat 25.00))) }
  | PlaceType.storage => { boat with amountOwed := (Double.add boat.amountOwed
      (Double.mul (Double.ofInt boat.length) (Double.ofRat 11.20))) }
  | PlaceType.no_place => boat

/-- The function `updateMonthlyCharges`. -/
def updateMonthlyCharges (boats : List Boat) : List Boat := boats.map monthlyCharge

/-- The operations `main` runs on the collection. -/
inductive Op where
  | load (file : Option (List Char))
  | add (input : Option (List Char))
  | remove (input : Option (List Char))
  | payment (input : Option (List Char)) (amount : Option Double)
  | month

/-- The collection after one operation. -/
def step (boats : List Boat) : Op → List Boat
  | Op.load file => loadData boats file
  | Op.add input => (addBoat boats input).2
  | Op.remove input => (removeBoat boats input).2
  | Op.payment input amount => (acceptPayment boats input amount).2
  | Op.month => updateMonthlyCharges boats

/-- The collection after a sequence of operations. -/
def run (boats : List Boat) (ops : List Op) : List Boat := ops.foldl step boats

/-! ## Notions used in the statements -/

/-- A location detail within the range of its kind: slip number in [1,85], bay
letter in `A`..`Z`, trailer tag of at most 9 characters, storage number in [1,50]. -/
def locationInRange (boat : Boat) : Prop :=
  match boat.place, boat.info with
  | PlaceType.slip, PlaceInfo.slipNumber n => 1 ≤ n ∧ n ≤ 85
  | PlaceType.land, PlaceInfo.bayLetter c => 65 ≤ c.toNat ∧ c.toNat ≤ 90
  | PlaceType.trailor, PlaceInfo.trailorTag tag => tag.length ≤ 9
  | PlaceType.storage, PlaceInfo.storageNumber n => 1 ≤ n ∧ n ≤ 50
  | _, _ => False

/-- An amount with two decimal digits: the finite double nearest to a whole number
of hundredths, with either sign. -/
def twoDecimals (d : Double) : Prop :=
  d.isFinite = true ∧ ∃ (neg : Bool) (k : Nat), d = roundSigned neg ((k : ℚ) / 100)

/-- The magnitude of a finite double; 0 for the infinities and the NaNs. -/
def Double.mag : Double → ℚ
  | Double.fin _ a => a
  | _ => 0

/-- A valid record as the specification lists it: name of at most 127 characters,
length in [1,100], location detail in range, amount with two decimal digits. -/
def validRecord (boat : Boat) : Prop :=
  boat.name.length ≤ 127 ∧ 1 ≤ boat.length ∧ boat.length ≤ 100 ∧
    locationInRange boat ∧ twoDecimals boat.amountOwed

/-- Text that a field of a line can carry: not empty, and no comma, no NUL and no
newline in it. -/
def fieldText (s : List Char) : Prop :=
  s ≠ [] ∧ ∀ c ∈ s, c ≠ Char.ofNat 44 ∧ c ≠ NUL ∧ c ≠ Char.ofNat 10

/-- The trailer tag of a boat, when it has one, is text a field can carry. -/
def tagText (boat : Boat) : Prop :=
  match boat.info with
  | PlaceInfo.trailorTag tag => fieldText tag
  | _ => True

/-- A stored record as the invariants of the collection describe it: length in
[1,100], a kind other than `no_place`, location detail in the range of its kind. -/
def storedValid (boat : Boat) : Prop :=
  1 ≤ boat.length ∧ boat.length ≤ 100 ∧ boat.place ≠ PlaceType.no_place ∧ locationInRange boat

/-- No two records of the collection have names that `strcasecmp` finds equal. -/
def namesDistinct (boats : List Boat) : Prop :=
  boats.Pairwise (fun a b => strcasecmp a.name b.name ≠ 0)

/-- The text after the name in the lines of `file121`: `,10,slip,1,0.00` and a newline. -/
def slipLineTail : List Char :=
  [',', '1', '0', ',', 's', 'l', 'i', 'p', ',', '1', ',', '0', '.', '0', '0', Char.ofNat 10]

/-- A file of 121 well-formed lines with the distinct names `b0`, `b1`, ..., `b120`. -/
def file121 : List Char :=
  (List.range 121).flatMap (fun i => 'b' :: (printNat i ++ slipLineTail))

/-- A file of two well-formed lines with the same name:
`Jolly,20,slip,10,50.00` and `Jolly,30,land,B,0.00`. -/
def dupFile : List Char :=
  ['J', 'o', 'l', 'l', 'y', ',', '2', '0', ',', 's', 'l', 'i', 'p', ',', '1', '0', ',',
    '5', '0', '.', '0', '0', Char.ofNat 10,
   'J', 'o', 'l', 'l', 'y', ',', '3', '0', ',', 'l', 'a', 'n', 'd', ',', 'B', ',',
    '0', '.', '0', '0', Char.ofNat 10]

/-- The line `Jolly,20,slip,10,50.00`. -/
def jollyLine : List Char :=
  ['J', 'o', 'l', 'l', 'y', ',', '2', '0', ',', 's', 'l', 'i', 'p', ',', '1', '0', ',',
    '5', '0', '.', '0', '0']

/-- The record that `jollyLine` describes. -/
def jolly : Boat :=
  ⟨['J', 'o', 'l', 'l', 'y'], 20, PlaceType.slip, PlaceInfo.slipNumber 10, 50⟩

/-- The monthly rate per foot of each kind, in dollars, as the specification gives
it: slip 12.50, land 14.00, trailer 25.00, storage 11.20 (written as fractions);
`no_place` has no rate and is charged nothing. -/
def ratePerFoot : PlaceType → ℚ
  | PlaceType.slip => 25 / 2
  | PlaceType.land => 14
  | PlaceType.trailor => 25
  | PlaceType.storage => 56 / 5
  | PlaceType.no_place => 0

/-- The line `Jolly,20,slip,10,10000000000000000.00`, whose amount owed is 1e16. -/
def bigLine : List Char :=
  ['J', 'o', 'l', 'l', 'y', ',', '2', '0', ',', 's', 'l', 'i', 'p', ',', '1', '0', ',',
    '1', '0', '0', '0', '0', '0', '0', '0', '0', '0', '0', '0', '0', '0', '0', '0', '0',
    '.', '0', '0']

/-- The line `Jolly,20,slip,10,nan`, whose amount owed is a NaN. -/
def nanLine : List Char :=
  ['J', 'o', 'l', 'l', 'y', ',', '2', '0', ',', 's', 'l', 'i', 'p', ',', '1', '0', ',',
    'n', 'a', 'n']

/-- The line `Jolly,20,slip,10,inf`, whose amount owed is infinite. -/
def infLine : List Char :=
  ['J', 'o', 'l', 'l', 'y', ',', '2', '0', ',', 's', 'l', 'i', 'p', ',', '1', '0', ',',
    'i', 'n', 'f']

/-- The line `Tiny,3,storage,1,0.00`. -/
def tinyLine : List Char :=
  ['T', 'i', 'n', 'y', ',', '3', ',', 's', 't', 'o', 'r', 'a', 'g', 'e', ',', '1', ',',
    '0', '.', '0', '0']

/-- A string with upper-case letters folded to lower case: two strings are equal
under case-insensitive comparison when their folded forms are the same. -/
def caseFold (s : List Char) : List Nat := (cstr s).map (fun c => tolower c.toNat)

/-- The record that the five fields of a line describe: the kind named by the third
field and the fourth field read as that kind reads it (a number for slip and
storage, its first character for land, its first 9 characters for trailer). -/
def buildBoat (f : ScannedLine) : Boat :=
  ⟨f.name, f.length, stringToPlaceType f.placeString,
    match stringToPlaceType f.placeString with
    | PlaceType.slip => PlaceInfo.slipNumber (atoi f.info)
    | PlaceType.land => PlaceInfo.bayLetter (firstChar f.info)
    | PlaceType.trailor => PlaceInfo.trailorTag (copyTag f.info)
    | PlaceType.storage => PlaceInfo.storageNumber (atoi f.info)
    | PlaceType.no_place => PlaceInfo.slipNumber 0,
    f.amountOwed⟩

/-- A file of two lines, the second with a slip number out of range:
`Jolly,20,slip,10,50.00` and `Molly,30,slip,99,0.00`. -/
def slip99File : List Char :=
  ['J', 'o', 'l', 'l', 'y', ',', '2', '0', ',', 's', 'l', 'i', 'p', ',', '1', '0', ',',
    '5', '0', '.', '0', '0', Char.ofNat 10,
   'M', 'o', 'l', 'l', 'y', ',', '3', '0', ',', 's', 'l', 'i', 'p', ',', '9', '9', ',',
    '0', '.', '0', '0', Char.ofNat 10]

/-- The line `Jolly,20,dock,10,50.00`, whose kind is none of the four. -/
def dockLine : List Char :=
  ['J', 'o', 'l', 'l', 'y', ',', '2', '0', ',', 'd', 'o', 'c', 'k', ',', '1', '0', ',',
    '5', '0', '.', '0', '0']

/-- The line `Jolly,20,slip,10,-100.00`, with a negative amount owed. -/
def creditLine : List Char :=
  ['J', 'o', 'l', 'l', 'y', ',', '2', '0', ',', 's', 'l', 'i', 'p', ',', '1', '0', ',',
    '-', '1', '0', '0', '.', '0', '0']

/-- The record `Molly`, 30 feet, on land in bay `B`, owing nothing. -/
def molly : Boat :=
  ⟨['M', 'o', 'l', 'l', 'y'], 30, PlaceType.land, PlaceInfo.bayLetter 'B', 0⟩

/-! ## Rounding to the nearest double -/

/-! ## Rounding to a double -/

theorem pow2_eq (k : Int) : pow2 k = (2 : ℚ) ^ k := by
  unfold pow2
  split_ifs with h
  · lift k to Nat using h
    simp
  · have hk : k = -((-k).toNat : Int) := by omega
    rw [Rat.mkRat_eq_div]
    conv_rhs => rw [hk]
    rw [zpow_neg, zpow_natCast]
    simp

theorem pow2_pos (k : Int) : 0 < pow2 k := by
  rw [pow2_eq]
  exact zpow_pos (by norm_num) k

theorem pow2_add (a b : Int) : pow2 (a + b) = pow2 a * pow2 b := by
  simp only [pow2_eq]
  exact zpow_add₀ (by norm_num) a b

theorem pow2_le (a b : Int) (h : a ≤ b) : pow2 a ≤ pow2 b := by
  simp only [pow2_eq]
  exact zpow_le_zpow_right₀ (by norm_num) h

theorem pow2_lt (a b : Int) (h : a < b) : pow2 a < pow2 b := by
  simp only [pow2_eq]
  exact zpow_lt_zpow_right₀ (by norm_num) h

theorem pow2_lt_iff (a b : Int) : pow2 a < pow2 b ↔ a < b := by
  simp only [pow2_eq]
  exact zpow_lt_zpow_iff_right₀ (by norm_num)

theorem pow2_natCast (n : Nat) : pow2 (n : Int) = ((2 ^ n : Nat) : ℚ) := by
  simp [pow2]

theorem pow2_succ (a : Int) : pow2 (a + 1) = 2 * pow2 a := by
  rw [pow2_add, mul_comm]
  congr 1

theorem log2Fuel_spec (fuel n : Nat) (hn : n ≠ 0) (hf : n ≤ fuel) :
    2 ^ log2Fuel fuel n ≤ n ∧ n < 2 ^ (log2Fuel fuel n + 1) := by
  induction fuel generalizing n with
  | zero => omega
  | succ fuel ih =>
    unfold log2Fuel
    split_ifs with h2
    · constructor <;> simp <;> omega
    · have := ih (n / 2) (by omega) (by omega)
      obtain ⟨h1, h3⟩ := this
      constructor
      · rw [Nat.pow_succ]
        omega
      · rw [Nat.pow_succ]
        omega

theorem ilog2_spec (x : ℚ) (hx : 0 < x) : pow2 (ilog2 x) ≤ x ∧ x < pow2 (ilog2 x + 1) := by
  have hnum : 0 < x.num := Rat.num_pos.2 hx
  have hn0 : x.num.natAbs ≠ 0 := by omega
  have hd0 : x.den ≠ 0 := x.den_nz
  obtain ⟨hn1, hn2⟩ := log2Fuel_spec x.num.natAbs x.num.natAbs hn0 (le_refl _)
  obtain ⟨hd1, hd2⟩ := log2Fuel_spec x.den x.den hd0 (le_refl _)
  set a := log2Fuel x.num.natAbs x.num.natAbs with ha
  set b := log2Fuel x.den x.den with hb
  have hxe : x = (x.num.natAbs : ℚ) / (x.den : ℚ) := by
    have h1 : ((x.num.natAbs : Int) : ℚ) = (x.num : ℚ) := by
      congr 1
      omega
    rw [← Int.cast_natCast x.num.natAbs, h1]
    exact (Rat.num_div_den x).symm
  have hdpos : (0 : ℚ) < (x.den : ℚ) := by exact_mod_cast x.den_pos
  have hn1' : pow2 (a : Int) ≤ (x.num.natAbs : ℚ) := by
    rw [pow2_natCast]
    exact_mod_cast hn1
  have hn2' : (x.num.natAbs : ℚ) < pow2 ((a : Int) + 1) := by
    have : ((a : Int) + 1) = ((a + 1 : Nat) : Int) := by push_cast; rfl
    rw [this, pow2_natCast]
    exact_mod_cast hn2
  have hd1' : pow2 (b : Int) ≤ (x.den : ℚ) := by
    rw [pow2_natCast]
    exact_mod_cast hd1
  have hd2' : (x.den : ℚ) < pow2 ((b : Int) + 1) := by
    have : ((b : Int) + 1) = ((b + 1 : Nat) : Int) := by push_cast; rfl
    rw [this, pow2_natCast]
    exact_mod_cast hd2
  -- lower and upper bounds of the quotient
  have hlow : pow2 ((a : Int) - b - 1) < x := by
    rw [hxe, lt_div_iff₀ hdpos]
    have e : pow2 ((a : Int) - b - 1) * pow2 ((b : Int) + 1) = pow2 (a : Int) := by
      rw [← pow2_add]
      congr 1
      ring
    calc pow2 ((a : Int) - b - 1) * (x.den : ℚ)
        < pow2 ((a : Int) - b - 1) * pow2 ((b : Int) + 1) :=
          mul_lt_mul_of_pos_left hd2' (pow2_pos _)
      _ = pow2 (a : Int) := e
      _ ≤ (x.num.natAbs : ℚ) := hn1'
  have hup : x < pow2 ((a : Int) - b + 1) := by
    rw [hxe, div_lt_iff₀ hdpos]
    have e : pow2 ((a : Int) - b + 1) * pow2 (b : Int) = pow2 ((a : Int) + 1) := by
      rw [← pow2_add]
      congr 1
      ring
    calc (x.num.natAbs : ℚ) < pow2 ((a : Int) + 1) := hn2'
      _ = pow2 ((a : Int) - b + 1) * pow2 (b : Int) := e.symm
      _ ≤ pow2 ((a : Int) - b + 1) * (x.den : ℚ) :=
          mul_le_mul_of_nonneg_left hd1' (le_of_lt (pow2_pos _))
  unfold ilog2
  split_ifs with h
  · exact ⟨h, hup⟩
  · refine ⟨le_of_lt hlow, ?_⟩
    have : (a : Int) - b - 1 + 1 = (a : Int) - b := by ring
    rw [this]
    exact lt_of_not_le h

theorem ilog2_unique (x : ℚ) (k : Int) (h1 : pow2 k ≤ x) (h2 : x < pow2 (k + 1)) :
    ilog2 x = k := by
  have hx : 0 < x := lt_of_lt_of_le (pow2_pos k) h1
  obtain ⟨h3, h4⟩ := ilog2_spec x hx
  have a1 : k < ilog2 x + 1 := (pow2_lt_iff _ _).1 (lt_of_le_of_lt h1 h4)
  have a2 : ilog2 x < k + 1 := (pow2_lt_iff _ _).1 (lt_of_le_of_lt h3 h2)
  omega

theorem ilog2_mono (x y : ℚ) (hx : 0 < x) (hxy : x ≤ y) : ilog2 x ≤ ilog2 y := by
  obtain ⟨h1, _⟩ := ilog2_spec x hx
  obtain ⟨_, h4⟩ := ilog2_spec y (lt_of_lt_of_le hx hxy)
  have : ilog2 x < ilog2 y + 1 :=
    (pow2_lt_iff _ _).1 (lt_of_le_of_lt (le_trans h1 hxy) h4)
  omega

theorem roundHalfEven_intCast (k : Int) : roundHalfEven (k : ℚ) = k := by
  simp [roundHalfEven]

theorem roundHalfEven_bounds (x : ℚ) :
    (⌊x⌋ ≤ roundHalfEven x ∧ roundHalfEven x ≤ ⌊x⌋ + 1) ∧
      |(roundHalfEven x : ℚ) - x| ≤ 1 / 2 := by
  have h1 := Int.floor_le x
  have h2 := Int.lt_floor_add_one x
  unfold roundHalfEven
  simp only
  split_ifs with ha hb hc
  · refine ⟨⟨le_refl _, by omega⟩, ?_⟩
    rw [abs_le]
    constructor <;> linarith
  · refine ⟨⟨by omega, le_refl _⟩, ?_⟩
    rw [abs_le]
    push_cast
    constructor <;> linarith
  · refine ⟨⟨le_refl _, by omega⟩, ?_⟩
    rw [abs_le]
    constructor <;> linarith
  · refine ⟨⟨by omega, le_refl _⟩, ?_⟩
    rw [abs_le]
    push_cast
    constructor <;> linarith

theorem roundHalfEven_mono (x y : ℚ) (h : x ≤ y) : roundHalfEven x ≤ roundHalfEven y := by
  have hf : ⌊x⌋ ≤ ⌊y⌋ := Int.floor_le_floor h
  rcases lt_or_eq_of_le hf with hlt | heq
  · have := (roundHalfEven_bounds x).1.2
    have := (roundHalfEven_bounds y).1.1
    omega
  · unfold roundHalfEven
    simp only
    rw [heq]
    have hxy : x - (⌊y⌋ : ℚ) ≤ y - (⌊y⌋ : ℚ) := by linarith
    split_ifs <;> first | omega | (exfalso; linarith)

theorem roundHalfEven_near (x : ℚ) (k : Int) (h : |x - k| < 1 / 2) : roundHalfEven x = k := by
  rw [abs_lt] at h
  have hb := (roundHalfEven_bounds x).2
  rw [abs_le] at hb
  have h1 : ((roundHalfEven x : Int) : ℚ) - (k : ℚ) < 1 := by linarith [hb.1, hb.2, h.1, h.2]
  have h2 : -1 < ((roundHalfEven x : Int) : ℚ) - (k : ℚ) := by linarith [hb.1, hb.2, h.1, h.2]
  have h3 : roundHalfEven x - k < 1 := by exact_mod_cast h1
  have h4 : -1 < roundHalfEven x - k := by exact_mod_cast h2
  omega

theorem quantum_pos (x : ℚ) : 0 < quantum x := pow2_pos _

theorem roundHalfEven_nonneg (x : ℚ) (h : 0 ≤ x) : 0 ≤ roundHalfEven x := by
  have := roundHalfEven_mono 0 x h
  have h0 : roundHalfEven 0 = 0 := by
    have := roundHalfEven_intCast 0
    simpa using this
  omega

theorem roundMag_nonneg (x : ℚ) (h : 0 ≤ x) : 0 ≤ roundMag x := by
  unfold roundMag
  have h1 : 0 ≤ roundHalfEven (x / quantum x) :=
    roundHalfEven_nonneg _ (div_nonneg h (le_of_lt (quantum_pos x)))
  exact mul_nonneg (by exact_mod_cast h1) (le_of_lt (quantum_pos x))

theorem roundMag_zero : roundMag 0 = 0 := by
  unfold roundMag
  have h0 : roundHalfEven 0 = 0 := by
    have := roundHalfEven_intCast 0
    simpa using this
  simp [h0]

theorem pow2_nonneg_int (n : Nat) : pow2 (n : Int) = (((2 ^ n : Nat) : Int) : ℚ) := by
  rw [pow2_natCast]
  push_cast
  rfl

/-- The spacing of the doubles around `x` is `2 ^ (k - 52)` when `k` is the larger of
the exponent of `x` and `-1022`. -/
theorem quantum_eq (x : ℚ) : quantum x = pow2 (max (ilog2 x) (-1022) - 52) := rfl

theorem roundMag_le_top (x : ℚ) (hx : 0 < x) :
    roundMag x ≤ pow2 (max (ilog2 x) (-1022) + 1) := by
  have hq := quantum_pos x
  have hlt : x < pow2 (max (ilog2 x) (-1022) + 1) :=
    lt_of_lt_of_le (ilog2_spec x hx).2 (pow2_le _ _ (by omega))
  have hsplit : pow2 (max (ilog2 x) (-1022) + 1) = pow2 ((53 : Nat) : Int) * quantum x := by
    rw [quantum_eq, ← pow2_add]
    congr 1
    push_cast
    ring
  have h1 : x / quantum x ≤ pow2 ((53 : Nat) : Int) := by
    rw [div_le_iff₀ hq, ← hsplit]
    exact le_of_lt hlt
  have h2 := roundHalfEven_mono _ _ h1
  rw [pow2_nonneg_int, roundHalfEven_intCast] at h2
  unfold roundMag
  rw [hsplit, pow2_nonneg_int]
  exact mul_le_mul_of_nonneg_right (by exact_mod_cast h2) (le_of_lt hq)

theorem roundMag_ge_bottom (x : ℚ) (hx : 0 < x) (hn : -1022 ≤ ilog2 x) :
    pow2 (ilog2 x) ≤ roundMag x := by
  have hq := quantum_pos x
  have hmax : max (ilog2 x) (-1022) = ilog2 x := max_eq_left hn
  have hsplit : pow2 (ilog2 x) = pow2 ((52 : Nat) : Int) * quantum x := by
    rw [quantum_eq, hmax, ← pow2_add]
    congr 1
    push_cast
    ring
  have h1 : pow2 ((52 : Nat) : Int) ≤ x / quantum x := by
    rw [le_div_iff₀ hq, ← hsplit]
    exact (ilog2_spec x hx).1
  have h2 := roundHalfEven_mono _ _ h1
  rw [pow2_nonneg_int, roundHalfEven_intCast] at h2
  unfold roundMag
  rw [hsplit, pow2_nonneg_int]
  exact mul_le_mul_of_nonneg_right (by exact_mod_cast h2) (le_of_lt hq)

theorem roundMag_mono (x y : ℚ) (hx : 0 ≤ x) (hxy : x ≤ y) : roundMag x ≤ roundMag y := by
  rcases eq_or_lt_of_le hx with h0 | hpos
  · rw [← h0, roundMag_zero]
    exact roundMag_nonneg y (le_trans hx hxy)
  · have hy : 0 < y := lt_of_lt_of_le hpos hxy
    have hk := ilog2_mono x y hpos hxy
    rcases eq_or_lt_of_le (max_le_max hk (le_refl (-1022 : Int))) with he | hl
    · have hq : quantum x = quantum y := by
        rw [quantum_eq, quantum_eq, he]
      unfold roundMag
      rw [hq]
      have h1 : x / quantum y ≤ y / quantum y :=
        div_le_div_of_nonneg_right hxy (le_of_lt (quantum_pos y))
      have h2 := roundHalfEven_mono _ _ h1
      exact mul_le_mul_of_nonneg_right (by exact_mod_cast h2) (le_of_lt (quantum_pos y))
    · have hn : -1022 ≤ ilog2 y := by
        by_contra hc
        have : max (ilog2 y) (-1022) = -1022 := max_eq_right (by omega)
        rw [this] at hl
        have := le_max_right (ilog2 x) (-1022)
        omega
      have hmax : max (ilog2 y) (-1022) = ilog2 y := max_eq_left hn
      rw [hmax] at hl
      calc roundMag x ≤ pow2 (max (ilog2 x) (-1022) + 1) := roundMag_le_top x hpos
        _ ≤ pow2 (ilog2 y) := pow2_le _ _ (by omega)
        _ ≤ roundMag y := roundMag_ge_bottom y hy hn

theorem roundMag_error (x : ℚ) : |roundMag x - x| ≤ quantum x / 2 := by
  have hq := quantum_pos x
  have hb := (roundHalfEven_bounds (x / quantum x)).2
  unfold roundMag
  have e : (roundHalfEven (x / quantum x) : ℚ) * quantum x - x =
      ((roundHalfEven (x / quantum x) : ℚ) - x / quantum x) * quantum x := by
    field_simp
  rw [e, abs_mul, abs_of_pos hq]
  calc |(roundHalfEven (x / quantum x) : ℚ) - x / quantum x| * quantum x
      ≤ 1 / 2 * quantum x := mul_le_mul_of_nonneg_right hb (le_of_lt hq)
    _ = quantum x / 2 := by ring

/-- A whole multiple `m * 2 ^ e` of a power of two no smaller than `2 ^ (-1074)`,
with `m` below `2 ^ 53`, is a double: rounding leaves it alone. -/
theorem roundMag_grid (m : Nat) (e : Int) (hm : m < 2 ^ 53) (he : -1074 ≤ e) :
    roundMag ((m : ℚ) * pow2 e) = (m : ℚ) * pow2 e := by
  rcases Nat.eq_zero_or_pos m with h0 | hpos
  · subst h0
    simp [roundMag_zero]
  · have hr : 0 < (m : ℚ) * pow2 e := mul_pos (by exact_mod_cast hpos) (pow2_pos e)
    have hlt : (m : ℚ) * pow2 e < pow2 (e + 53) := by
      have : pow2 (e + 53) = pow2 ((53 : Nat) : Int) * pow2 e := by
        rw [← pow2_add]
        congr 1
        push_cast
        ring
      rw [this, pow2_natCast]
      exact mul_lt_mul_of_pos_right (by exact_mod_cast hm) (pow2_pos e)
    have hk : ilog2 ((m : ℚ) * pow2 e) < e + 53 :=
      (pow2_lt_iff _ _).1 (lt_of_le_of_lt (ilog2_spec _ hr).1 hlt)
    have hd : 0 ≤ e - (max (ilog2 ((m : ℚ) * pow2 e)) (-1022) - 52) := by
      rcases le_total (ilog2 ((m : ℚ) * pow2 e)) (-1022) with h | h
      · rw [max_eq_right h]
        omega
      · rw [max_eq_left h]
        omega
    obtain ⟨n, hn⟩ := Int.eq_ofNat_of_zero_le hd
    have hsplit : pow2 e = pow2 (n : Int) * quantum ((m : ℚ) * pow2 e) := by
      rw [quantum_eq, ← pow2_add]
      congr 1
      omega
    have hdiv : (m : ℚ) * pow2 e / quantum ((m : ℚ) * pow2 e) = (((m * 2 ^ n : Nat) : Int) : ℚ) := by
      rw [div_eq_iff (ne_of_gt (quantum_pos _))]
      conv_lhs => rw [hsplit]
      rw [pow2_natCast]
      push_cast
      ring
    unfold roundMag
    rw [hdiv, roundHalfEven_intCast]
    conv_rhs => rw [hsplit]
    rw [pow2_natCast]
    push_cast
    ring

theorem roundMag_idem (x : ℚ) (hx : 0 ≤ x) : roundMag (roundMag x) = roundMag x := by
  rcases eq_or_lt_of_le hx with h0 | hpos
  · rw [← h0, roundMag_zero, roundMag_zero]
  · have hq := quantum_pos x
    have hM0 : 0 ≤ roundHalfEven (x / quantum x) :=
      roundHalfEven_nonneg _ (div_nonneg hx (le_of_lt hq))
    obtain ⟨m, hm⟩ := Int.eq_ofNat_of_zero_le hM0
    have htop := roundMag_le_top x hpos
    have hsplit : pow2 (max (ilog2 x) (-1022) + 1) = pow2 ((53 : Nat) : Int) * quantum x := by
      rw [quantum_eq, ← pow2_add]
      congr 1
      push_cast
      ring
    have hval : roundMag x = (m : ℚ) * quantum x := by
      unfold roundMag
      rw [hm]
      push_cast
      rfl
    have hm53 : m ≤ 2 ^ 53 := by
      rw [hval, hsplit, pow2_natCast] at htop
      have := le_of_mul_le_mul_right htop hq
      exact_mod_cast this
    have he : -1074 ≤ max (ilog2 x) (-1022) - 52 := by
      have := le_max_right (ilog2 x) (-1022)
      omega
    rcases lt_or_eq_of_le hm53 with hlt | heq
    · rw [hval, quantum_eq]
      exact roundMag_grid m _ hlt he
    · have hv2 : roundMag x = ((2 ^ 52 : Nat) : ℚ) * pow2 (max (ilog2 x) (-1022) - 52 + 1) := by
        rw [hval, heq, pow2_succ, quantum_eq]
        push_cast
        ring
      rw [hv2]
      exact roundMag_grid (2 ^ 52) _ (by norm_num) (by omega)

theorem roundSigned_wellFormed (neg : Bool) (mag : ℚ) (h : 0 ≤ mag) :
    (roundSigned neg mag).wellFormed := by
  unfold roundSigned
  split_ifs with ho
  · trivial
  · exact ⟨roundMag_nonneg mag h, roundMag_idem mag h, lt_of_not_le ho⟩

theorem ofRat_wellFormed (x : ℚ) : (Double.ofRat x).wellFormed := by
  unfold Double.ofRat
  split_ifs with h
  · exact roundSigned_wellFormed _ _ (by linarith)
  · exact roundSigned_wellFormed _ _ (by linarith)

/-! ## Order and arithmetic of doubles -/

theorem pow2_1024_pos : 0 < pow2 1024 := pow2_pos 1024

theorem ofRat_nonneg_cases (x : ℚ) (hx : 0 ≤ x) :
    Double.ofRat x = Double.inf false ∨
      (Double.ofRat x = Double.fin false (roundMag x) ∧ roundMag x < pow2 1024) := by
  unfold Double.ofRat roundSigned
  rw [if_neg (not_lt.2 hx)]
  split_ifs with h
  · exact Or.inl rfl
  · exact Or.inr ⟨rfl, not_le.1 h⟩

theorem ofRat_neg_cases (x : ℚ) (hx : x < 0) :
    Double.ofRat x = Double.inf true ∨
      (Double.ofRat x = Double.fin true (roundMag (-x)) ∧ roundMag (-x) < pow2 1024) := by
  unfold Double.ofRat roundSigned
  rw [if_pos hx]
  split_ifs with h
  · exact Or.inl rfl
  · exact Or.inr ⟨rfl, not_le.1 h⟩

theorem signedValue_le (s : Bool) (a : ℚ) (ha : 0 ≤ a) :
    -a ≤ signedValue s a ∧ signedValue s a ≤ a := by
  cases s <;> simp [signedValue] <;> linarith

theorem ofRat_le_fin (s : Bool) (a x : ℚ) (hw : (Double.fin s a).wellFormed)
    (hx : x ≤ signedValue s a) : Double.le (Double.ofRat x) (Double.fin s a) = true := by
  obtain ⟨ha0, hgrid, hlt⟩ := hw
  rcases lt_or_le x 0 with hneg | hpos
  · rcases ofRat_neg_cases x hneg with h | ⟨h, _⟩
    · rw [h]
      rfl
    · rw [h]
      simp only [Double.le, decide_eq_true_eq]
      have hm := roundMag_nonneg (-x) (by linarith)
      cases s
      · simp only [signedValue, Bool.false_eq_true, if_false, if_true]
        linarith
      · simp only [signedValue, if_true] at hx ⊢
        have := roundMag_mono a (-x) ha0 (by linarith)
        rw [hgrid] at this
        linarith
  · have hv : signedValue s a ≤ a := (signedValue_le s a ha0).2
    have hm := roundMag_mono x a hpos (by linarith)
    rw [hgrid] at hm
    rcases ofRat_nonneg_cases x hpos with h | ⟨h, _⟩
    · exfalso
      unfold Double.ofRat roundSigned at h
      rw [if_neg (not_lt.2 hpos)] at h
      split_ifs at h with ho
      linarith
    · rw [h]
      simp only [Double.le, decide_eq_true_eq]
      cases s
      · simp only [signedValue, Bool.false_eq_true, if_false]
        exact hm
      · simp only [signedValue, if_true, Bool.false_eq_true, if_false] at hx ⊢
        have hx0 : x = 0 := le_antisymm (by linarith) hpos
        rw [hx0, roundMag_zero]
        linarith

theorem fin_le_ofRat (s : Bool) (a x : ℚ) (hw : (Double.fin s a).wellFormed)
    (hx : signedValue s a ≤ x) : Double.le (Double.fin s a) (Double.ofRat x) = true := by
  obtain ⟨ha0, hgrid, hlt⟩ := hw
  rcases lt_or_le x 0 with hneg | hpos
  · have hs : s = true := by
      cases s
      · simp only [signedValue, Bool.false_eq_true, if_false] at hx
        linarith
      · rfl
    subst hs
    simp only [signedValue, if_true] at hx
    have hm := roundMag_mono (-x) a (by linarith) (by linarith)
    rw [hgrid] at hm
    rcases ofRat_neg_cases x hneg with h | ⟨h, _⟩
    · exfalso
      unfold Double.ofRat roundSigned at h
      rw [if_pos hneg] at h
      split_ifs at h with ho
      linarith
    · rw [h]
      simp only [Double.le, decide_eq_true_eq, signedValue, if_true]
      linarith
  · rcases ofRat_nonneg_cases x hpos with h | ⟨h, _⟩
    · rw [h]
      rfl
    · rw [h]
      simp only [Double.le, decide_eq_true_eq]
      have hm := roundMag_nonneg x hpos
      cases s
      · simp only [signedValue, Bool.false_eq_true, if_false] at hx ⊢
        have := roundMag_mono a x ha0 hx
        rw [hgrid] at this
        exact this
      · simp only [signedValue, if_true, Bool.false_eq_true, if_false]
        linarith

theorem ofExact_le_fin (s z : Bool) (a x : ℚ) (hw : (Double.fin s a).wellFormed)
    (hx : x ≤ signedValue s a) : Double.le (Double.ofExact x z) (Double.fin s a) = true := by
  unfold Double.ofExact
  split_ifs with h0
  · subst h0
    simp only [Double.le, decide_eq_true_eq]
    cases z <;> simpa [signedValue] using hx
  · exact ofRat_le_fin s a x hw hx

theorem fin_le_ofExact (s z : Bool) (a x : ℚ) (hw : (Double.fin s a).wellFormed)
    (hx : signedValue s a ≤ x) : Double.le (Double.fin s a) (Double.ofExact x z) = true := by
  unfold Double.ofExact
  split_ifs with h0
  · subst h0
    simp only [Double.le, decide_eq_true_eq]
    cases z <;> simpa [signedValue] using hx
  · exact fin_le_ofRat s a x hw hx

theorem zero_double : (0 : Double) = Double.fin false 0 := by decide!

theorem le_self_of_isNumber (d : Double) (h : d.isNumber = true) : Double.le d d = true := by
  cases d with
  | fin s a => simp [Double.le]
  | inf s => cases s <;> rfl
  | nan s => simp [Double.isNumber] at h

theorem ofExact_wellFormed (x : ℚ) (z : Bool) : (Double.ofExact x z).wellFormed := by
  unfold Double.ofExact
  split_ifs
  · exact ⟨le_refl _, roundMag_zero, pow2_1024_pos⟩
  · exact ofRat_wellFormed x

theorem sub_wellFormed (a b : Double) : (Double.sub a b).wellFormed := by
  cases a <;> cases b <;> simp only [Double.sub] <;>
    first
      | exact ofExact_wellFormed _ _
      | trivial
      | (split_ifs <;> trivial)

theorem add_wellFormed (a b : Double) : (Double.add a b).wellFormed := by
  cases a <;> cases b <;> simp only [Double.add] <;>
    first
      | exact ofExact_wellFormed _ _
      | trivial
      | (split_ifs <;> trivial)

theorem sub_le_self (owed amount : Double) (hw : owed.wellFormed) (hn : owed.isNumber = true)
    (hf : amount.isFinite = true) (h0 : Double.le 0 amount = true) :
    Double.le (Double.sub owed amount) owed = true := by
  rw [zero_double] at h0
  cases amount with
  | inf t => simp [Double.isFinite] at hf
  | nan t => simp [Double.isFinite] at hf
  | fin t b =>
    simp only [Double.le, decide_eq_true_eq, signedValue, Bool.false_eq_true, if_false] at h0
    cases owed with
    | nan s => simp [Double.isNumber] at hn
    | inf s => cases s <;> rfl
    | fin s a =>
      simp only [Double.sub]
      apply ofExact_le_fin s _ a _ hw
      have : (0 : ℚ) ≤ signedValue t b := h0
      linarith

theorem le_add_self (owed : Double) (m : ℚ) (hw : owed.wellFormed) (hn : owed.isNumber = true)
    (hm : 0 ≤ m) : Double.le owed (Double.add owed (Double.fin false m)) = true := by
  cases owed with
  | nan s => simp [Double.isNumber] at hn
  | inf s => cases s <;> rfl
  | fin s a =>
    simp only [Double.add]
    apply fin_le_ofExact s _ a _ hw
    simp only [signedValue, Bool.false_eq_true, if_false]
    linarith

theorem self_le_sub (owed amount : Double) (hw : owed.wellFormed) (hn : owed.isNumber = true)
    (hf : amount.isFinite = true) (h0 : Double.le amount 0 = true) :
    Double.le owed (Double.sub owed amount) = true := by
  rw [zero_double] at h0
  cases amount with
  | inf t => simp [Double.isFinite] at hf
  | nan t => simp [Double.isFinite] at hf
  | fin t b =>
    simp only [Double.le, decide_eq_true_eq, signedValue, Bool.false_eq_true, if_false] at h0
    cases owed with
    | nan s => simp [Double.isNumber] at hn
    | inf s => cases s <;> rfl
    | fin s a =>
      simp only [Double.sub]
      apply fin_le_ofExact s _ a _ hw
      have : signedValue t b ≤ (0 : ℚ) := h0
      linarith

theorem grid_decomp (a : ℚ) (ha : 0 < a) (hg : roundMag a = a) :
    ∃ m : Nat, 1 ≤ m ∧ m < 2 ^ 53 ∧ a = (m : ℚ) * quantum a := by
  have hq := quantum_pos a
  have hr0 : 0 ≤ roundHalfEven (a / quantum a) :=
    roundHalfEven_nonneg _ (div_nonneg (le_of_lt ha) (le_of_lt hq))
  have ham : a = (roundHalfEven (a / quantum a) : ℚ) * quantum a := by
    have := hg
    unfold roundMag at this
    exact this.symm
  obtain ⟨m, hm⟩ : ∃ m : Nat, roundHalfEven (a / quantum a) = (m : Int) :=
    ⟨(roundHalfEven (a / quantum a)).toNat, by omega⟩
  rw [hm] at ham
  have ham' : a = (m : ℚ) * quantum a := by exact_mod_cast ham
  refine ⟨m, ?_, ?_, ham'⟩
  · rcases Nat.eq_zero_or_pos m with h0 | hpos
    · subst h0
      simp at ham'
      linarith
    · exact hpos
  · have hsp := (ilog2_spec a ha).2
    have htop : pow2 (ilog2 a + 1) ≤ (2 ^ 53 : ℚ) * quantum a := by
      rw [quantum_eq]
      have e : (2 ^ 53 : ℚ) * pow2 (max (ilog2 a) (-1022) - 52) =
          pow2 (53 + (max (ilog2 a) (-1022) - 52)) := by
        rw [pow2_add, pow2_eq 53]
        norm_num
      rw [e]
      apply pow2_le
      have := le_max_left (ilog2 a) (-1022)
      omega
    have h1 : (m : ℚ) * quantum a < (2 ^ 53 : ℚ) * quantum a := by
      rw [← ham']
      exact lt_of_lt_of_le hsp htop
    have h2 : (m : ℚ) < (2 ^ 53 : ℚ) := lt_of_mul_lt_mul_right h1 (le_of_lt hq)
    exact_mod_cast h2

theorem quantum_exponent (a : ℚ) : ∃ e : Int, -1074 ≤ e ∧ quantum a = pow2 e :=
  ⟨max (ilog2 a) (-1022) - 52, by have := le_max_right (ilog2 a) (-1022); omega, rfl⟩

theorem grid_succ (a : ℚ) (ha : 0 < a) (hg : roundMag a = a) :
    roundMag (a + quantum a) = a + quantum a := by
  obtain ⟨m, hm1, hm2, ham⟩ := grid_decomp a ha hg
  obtain ⟨e, he, hq⟩ := quantum_exponent a
  have e1 : a + quantum a = ((m + 1 : Nat) : ℚ) * pow2 e := by
    rw [← hq]
    push_cast
    nlinarith [ham]
  rw [e1]
  rcases Nat.lt_or_ge (m + 1) (2 ^ 53) with hlt | hge
  · exact roundMag_grid (m + 1) e hlt he
  · have hm : m + 1 = 2 ^ 53 := by omega
    have e2 : ((m + 1 : Nat) : ℚ) * pow2 e = ((2 ^ 52 : Nat) : ℚ) * pow2 (e + 1) := by
      rw [hm, pow2_succ]
      push_cast
      ring
    rw [e2]
    exact roundMag_grid (2 ^ 52) (e + 1) (by norm_num) (by omega)

theorem grid_pred (a : ℚ) (ha : 0 < a) (hg : roundMag a = a) :
    roundMag (a - quantum a) = a - quantum a ∧ 0 ≤ a - quantum a := by
  obtain ⟨m, hm1, hm2, ham⟩ := grid_decomp a ha hg
  obtain ⟨e, he, hq⟩ := quantum_exponent a
  obtain ⟨n, rfl⟩ : ∃ n, m = n + 1 := ⟨m - 1, by omega⟩
  have e1 : a - quantum a = (n : ℚ) * pow2 e := by
    rw [← hq]
    push_cast at ham
    nlinarith [ham]
  rw [e1]
  exact ⟨roundMag_grid n e (by omega) he,
    mul_nonneg (Nat.cast_nonneg n) (le_of_lt (pow2_pos e))⟩

theorem grid_ge_min (b : ℚ) (hb : 0 < b) (hg : roundMag b = b) : pow2 (-1074) ≤ b := by
  obtain ⟨m, hm1, _, hbm⟩ := grid_decomp b hb hg
  obtain ⟨e, he, hq⟩ := quantum_exponent b
  rw [hq] at hbm
  have h1 : pow2 (-1074) ≤ pow2 e := pow2_le _ _ he
  have h2 : (1 : ℚ) ≤ (m : ℚ) := by exact_mod_cast hm1
  have h3 := pow2_pos e
  rw [hbm]
  nlinarith

theorem quantum_le_of_rel (a b : ℚ) (ha : 0 < a) (hb : 0 < b) (hgb : roundMag b = b)
    (hrel : a * pow2 (-52) ≤ b) : quantum a ≤ b := by
  rw [quantum_eq]
  rcases le_or_lt (-1022) (ilog2 a) with hn | hs
  · rw [max_eq_left hn]
    have e : pow2 (ilog2 a - 52) = pow2 (ilog2 a) * pow2 (-52) := by
      rw [← pow2_add]
      congr 1
    rw [e]
    have h1 := (ilog2_spec a ha).1
    have h2 := pow2_pos (-52)
    have := mul_le_mul_of_nonneg_right h1 (le_of_lt h2)
    linarith
  · rw [max_eq_right (le_of_lt hs)]
    exact grid_ge_min b hb hgb

theorem signedValue_zero (z : Bool) : signedValue z 0 = 0 := by
  cases z <;> simp [signedValue]

theorem lt_sub_negative (s : Bool) (a b : ℚ) (hw : (Double.fin s a).wellFormed)
    (hwb : (Double.fin true b).wellFormed) (hb : 0 < b) (hrel : a * pow2 (-52) ≤ b) :
    Double.lt (Double.fin s a) (Double.sub (Double.fin s a) (Double.fin true b)) = true := by
  obtain ⟨ha0, hga, hlta⟩ := hw
  obtain ⟨_, hgb, hltb⟩ := hwb
  simp only [Double.sub, Double.ofExact]
  have hw' : signedValue true b = -b := by simp [signedValue]
  rw [hw']
  split_ifs with hx0
  · simp only [Double.lt, decide_eq_true_eq, signedValue_zero]
    linarith
  · rcases eq_or_lt_of_le ha0 with hz | hapos
    · subst hz
      have hv : signedValue s 0 = 0 := by cases s <;> simp [signedValue]
      rw [hv]
      simp only [sub_neg_eq_add, zero_add]
      rcases ofRat_nonneg_cases b (le_of_lt hb) with h | ⟨h, _⟩
      · rw [h]
        rfl
      · rw [h, hgb]
        simp only [Double.lt, decide_eq_true_eq, hv]
        simpa [signedValue] using hb
    · have hq := quantum_le_of_rel a b hapos hb hgb hrel
      have hqpos := quantum_pos a
      cases s
      · simp only [signedValue, Bool.false_eq_true, if_false, sub_neg_eq_add]
        have hx : 0 ≤ a + b := by linarith
        rcases ofRat_nonneg_cases (a + b) hx with h | ⟨h, _⟩
        · rw [h]
          rfl
        · rw [h]
          simp only [Double.lt, decide_eq_true_eq, signedValue, Bool.false_eq_true, if_false]
          have h1 := roundMag_mono (a + quantum a) (a + b) (by linarith) (by linarith)
          rw [grid_succ a hapos hga] at h1
          linarith
      · simp only [signedValue, if_true, sub_neg_eq_add]
        rcases lt_or_le (-a + b) 0 with hneg | hpos
        · obtain ⟨hgp, hp0⟩ := grid_pred a hapos hga
          have h1 := roundMag_mono (-(-a + b)) (a - quantum a) (by linarith) (by linarith)
          rw [hgp] at h1
          rcases ofRat_neg_cases (-a + b) hneg with h | ⟨h, _⟩
          · exfalso
            unfold Double.ofRat roundSigned at h
            rw [if_pos hneg] at h
            split_ifs at h with ho
            linarith
          · rw [h]
            simp only [Double.lt, decide_eq_true_eq, signedValue, if_true]
            linarith
        · rcases ofRat_nonneg_cases (-a + b) hpos with h | ⟨h, _⟩
          · rw [h]
            rfl
          · rw [h]
            simp only [Double.lt, decide_eq_true_eq, signedValue, if_true, Bool.false_eq_true,
              if_false]
            have := roundMag_nonneg (-a + b) hpos
            linarith

/-! ## The conversions and the arithmetic on examples -/

/-- What `%lf` stores for some inputs: decimal and hexadecimal notation, `nan` and
`inf` with their sign, overflow to infinity and underflow to zero; `.` alone and
`infinit` are no numbers, and an exponent without digits is left unread. -/
theorem scanDouble_examples :
    scanDouble ['5', '0', '.', '0', '0', Char.ofNat 10] = some 50 ∧
      scanDouble [' ', '-', '1', '2', '.', '5'] = some (Double.fin true (25 / 2)) ∧
      scanDouble ['n', 'a', 'n'] = some (Double.nan false) ∧
      scanDouble ['-', 'N', 'a', 'N'] = some (Double.nan true) ∧
      scanDouble ['i', 'n', 'f'] = some (Double.inf false) ∧
      scanDouble ['-', 'i', 'n', 'f', 'i', 'n', 'i', 't', 'y'] = some (Double.inf true) ∧
      scanDouble ['i', 'n', 'f', 'i', 'n', 'i', 't'] = none ∧
      scanDouble ['0', 'x', '1', 'p', '4'] = some 16 ∧
      scanDouble ['0', 'x', '.', '8'] = some (Double.fin false (1 / 2)) ∧
      scanDouble ['0', 'x'] = none ∧
      scanDouble ['1', 'e', '4', '0', '0'] = some (Double.inf false) ∧
      scanDouble ['1', 'e', '-', '4', '0', '0'] = some (Double.fin false 0) ∧
      scanDouble ['1', 'e'] = some 1 ∧
      scanDouble ['.'] = none ∧
      scanDouble ['-'] = none ∧
      scanDouble [] = none := by
  decide!

/-- What `%.2f` prints for some doubles: the double of 0.005 is above 0.005 and
prints `0.01`, those of 2.675 and 1.005 are below and print `2.67` and `1.00`, and
0.125 is a tie that goes to the even digit. -/
theorem printFixed2_examples :
    printFixed2 (Double.ofRat 0.005) = ['0', '.', '0', '1'] ∧
      printFixed2 (Double.ofRat 2.675) = ['2', '.', '6', '7'] ∧
      printFixed2 (Double.ofRat 1.005) = ['1', '.', '0', '0'] ∧
      printFixed2 (Double.ofRat 0.125) = ['0', '.', '1', '2'] ∧
      printFixed2 (Double.fin true 0) = ['-', '0', '.', '0', '0'] ∧
      printFixed2 (Double.nan true) = ['-', 'n', 'a', 'n'] ∧
      printFixed2 (Double.inf false) = ['i', 'n', 'f'] := by
  decide!

/-- The arithmetic on some doubles: 0.1 + 0.2 is above the double of 0.3; 1e16 - 1
is 1e16; 33.6 - 0.1 is 33.5; 3 times the double of 11.20 is below the double of
33.6, and for 44 of the lengths 1 to 100 the product with the double of 11.20 is
not the double nearest to the length times 11.20; `inf - inf` is a NaN. -/
theorem arithmetic_examples :
    Double.lt (Double.ofRat 0.3) (Double.add (Double.ofRat 0.1) (Double.ofRat 0.2)) = true ∧
      Double.sub (Double.ofRat 10000000000000000) 1 = Double.ofRat 10000000000000000 ∧
      Double.sub (Double.ofRat 33.6) (Double.ofRat 0.1) = Double.ofRat 33.5 ∧
      Double.lt (Double.mul 3 (Double.ofRat 11.20)) (Double.ofRat 33.6) = true ∧
      ((List.range 101).filter (fun l =>
        decide (1 ≤ l ∧ Double.mul (Double.ofInt (l : Int)) (Double.ofRat 11.20) ≠
          Double.ofRat ((l : ℚ) * (56 / 5))))).length = 44 ∧
      Double.sub (Double.inf false) (Double.inf false) = Double.nan true ∧
      Double.le (Double.nan true) (Double.nan true) = false := by
  decide!

/-! ## Hundredths printed and read back -/

theorem quantum_of_pos (x : ℚ) (j : Int) (hj : ilog2 x = j) (hn : -1022 ≤ j) :
    quantum x = pow2 (j - 52) := by
  rw [quantum_eq, hj, max_eq_left hn]

theorem roundMag_print_small (k : Nat) (hk : (k : ℚ) / 100 < pow2 46) :
    roundHalfEven (roundMag ((k : ℚ) / 100) * 100) = (k : Int) := by
  rcases Nat.eq_zero_or_pos k with h0 | hpos
  · subst h0
    simp [roundMag_zero, roundHalfEven]
  · have hy : (0 : ℚ) < (k : ℚ) / 100 := by positivity
    have hj : ilog2 ((k : ℚ) / 100) < 46 :=
      (pow2_lt_iff _ _).1 (lt_of_le_of_lt (ilog2_spec _ hy).1 hk)
    have hq : quantum ((k : ℚ) / 100) ≤ pow2 (-7) := by
      rw [quantum_eq]
      apply pow2_le
      have : max (ilog2 ((k : ℚ) / 100)) (-1022) ≤ 45 := max_le (by omega) (by omega)
      omega
    have h7 : pow2 (-7) = 1 / 128 := by
      rw [pow2_eq]
      norm_num
    have he := roundMag_error ((k : ℚ) / 100)
    apply roundHalfEven_near
    rw [abs_le] at he
    rw [abs_lt]
    rw [h7] at hq
    push_cast
    constructor <;> linarith

theorem roundMag_near_grid (a x : ℚ) (ha : roundMag a = a) (h46 : pow2 46 ≤ a)
    (hx1 : pow2 (ilog2 a) ≤ x) (hx2 : |x - a| ≤ 1 / 200) : roundMag x = a := by
  have hapos : 0 < a := lt_of_lt_of_le (pow2_pos 46) h46
  have hsp := ilog2_spec a hapos
  have hj : 46 ≤ ilog2 a := by
    have := (pow2_lt_iff 46 (ilog2 a + 1)).1 (lt_of_le_of_lt h46 hsp.2)
    omega
  have hqa : quantum a = pow2 (ilog2 a - 52) := quantum_of_pos a _ rfl (by omega)
  have hq6 : pow2 (-6) ≤ pow2 (ilog2 a - 52) := pow2_le _ _ (by omega)
  have h6 : pow2 (-6) = 1 / 64 := by
    rw [pow2_eq]
    norm_num
  have hqpos := pow2_pos (ilog2 a - 52)
  have ham : a = (roundHalfEven (a / pow2 (ilog2 a - 52)) : ℚ) * pow2 (ilog2 a - 52) := by
    have := ha
    unfold roundMag at this
    rw [hqa] at this
    exact this.symm
  have htop : pow2 (ilog2 a + 1) = (2 ^ 53 : ℚ) * pow2 (ilog2 a - 52) := by
    have : ilog2 a + 1 = 53 + (ilog2 a - 52) := by omega
    rw [this, pow2_add, pow2_eq 53]
    norm_num
  have hm : roundHalfEven (a / pow2 (ilog2 a - 52)) + 1 ≤ 2 ^ 53 := by
    have h1 : (roundHalfEven (a / pow2 (ilog2 a - 52)) : ℚ) * pow2 (ilog2 a - 52) <
        (2 ^ 53 : ℚ) * pow2 (ilog2 a - 52) := by
      rw [← ham, ← htop]
      exact hsp.2
    have h2 : (roundHalfEven (a / pow2 (ilog2 a - 52)) : ℚ) < (2 ^ 53 : ℚ) :=
      lt_of_mul_lt_mul_right h1 (le_of_lt hqpos)
    have h3 : roundHalfEven (a / pow2 (ilog2 a - 52)) < (2 ^ 53 : Int) := by exact_mod_cast h2
    omega
  have hup : a + pow2 (ilog2 a - 52) ≤ pow2 (ilog2 a + 1) := by
    rw [htop]
    have h1 : ((roundHalfEven (a / pow2 (ilog2 a - 52)) + 1 : Int) : ℚ) ≤ (2 ^ 53 : ℚ) := by
      exact_mod_cast hm
    have h2 := mul_le_mul_of_nonneg_right h1 (le_of_lt hqpos)
    push_cast at h2
    nlinarith
  rw [abs_le] at hx2
  have hxlt : x < pow2 (ilog2 a + 1) := by
    rw [h6] at hq6
    linarith
  have hjx : ilog2 x = ilog2 a := ilog2_unique x _ hx1 hxlt
  have hxpos : 0 < x := lt_of_lt_of_le (pow2_pos _) hx1
  have hqx : quantum x = pow2 (ilog2 a - 52) := quantum_of_pos x _ hjx (by omega)
  unfold roundMag
  rw [hqx]
  have hr : roundHalfEven (x / pow2 (ilog2 a - 52)) = roundHalfEven (a / pow2 (ilog2 a - 52)) := by
    apply roundHalfEven_near
    have e : x / pow2 (ilog2 a - 52) - (roundHalfEven (a / pow2 (ilog2 a - 52)) : ℚ) =
        (x - a) / pow2 (ilog2 a - 52) := by
      field_simp
      linarith [ham]
    rw [e, abs_lt]
    rw [h6] at hq6
    constructor
    · rw [lt_div_iff₀ hqpos]
      linarith
    · rw [div_lt_iff₀ hqpos]
      linarith
  rw [hr]
  exact ham.symm

theorem roundMag_print_scan (k : Nat) :
    roundMag (((roundHalfEven (roundMag ((k : ℚ) / 100) * 100)).natAbs : ℚ) / 100) =
      roundMag ((k : ℚ) / 100) := by
  have hy : (0 : ℚ) ≤ (k : ℚ) / 100 := by positivity
  rcases lt_or_le ((k : ℚ) / 100) (pow2 46) with hs | hl
  · rw [roundMag_print_small k hs]
    simp
  · have h46 : pow2 46 ≤ roundMag ((k : ℚ) / 100) := by
      have h1 := roundMag_mono _ _ (le_of_lt (pow2_pos 46)) hl
      have h2 : roundMag (pow2 46) = pow2 46 := by
        have := roundMag_grid 1 46 (by norm_num) (by norm_num)
        simpa using this
      rwa [h2] at h1
    have hapos : 0 < roundMag ((k : ℚ) / 100) := lt_of_lt_of_le (pow2_pos 46) h46
    have hsp := ilog2_spec _ hapos
    have hj : 46 ≤ ilog2 (roundMag ((k : ℚ) / 100)) := by
      have := (pow2_lt_iff 46 (ilog2 (roundMag ((k : ℚ) / 100)) + 1)).1
        (lt_of_le_of_lt h46 hsp.2)
      omega
    have hc0 : 0 ≤ roundHalfEven (roundMag ((k : ℚ) / 100) * 100) :=
      roundHalfEven_nonneg _ (by positivity)
    have hcast : ((roundHalfEven (roundMag ((k : ℚ) / 100) * 100)).natAbs : ℚ) =
        (roundHalfEven (roundMag ((k : ℚ) / 100) * 100) : ℚ) := by
      rw [Nat.cast_natAbs, abs_of_nonneg hc0]
    rw [hcast]
    apply roundMag_near_grid _ _ (roundMag_idem _ hy) h46
    · obtain ⟨n, hn⟩ : ∃ n : Nat, ilog2 (roundMag ((k : ℚ) / 100)) = (n : Int) :=
        ⟨(ilog2 (roundMag ((k : ℚ) / 100))).toNat, by omega⟩
      rw [hn, pow2_nonneg_int]
      rw [hn, pow2_nonneg_int] at hsp
      have h1 : (((2 ^ n : Nat) : Int) : ℚ) * 100 ≤ roundMag ((k : ℚ) / 100) * 100 := by
        linarith [hsp.1]
      have h2 := roundHalfEven_mono _ _ h1
      have h3 : (((2 ^ n : Nat) : Int) : ℚ) * 100 = (((2 ^ n : Nat) : Int) * 100 : Int) := by
        push_cast
        rfl
      rw [h3, roundHalfEven_intCast] at h2
      have h4 : ((((2 ^ n : Nat) : Int) * 100 : Int) : ℚ) ≤
          (roundHalfEven (roundMag ((k : ℚ) / 100) * 100) : ℚ) := by exact_mod_cast h2
      rw [le_div_iff₀ (by norm_num)]
      push_cast at h4 ⊢
      linarith
    · have hb := (roundHalfEven_bounds (roundMag ((k : ℚ) / 100) * 100)).2
      rw [abs_le] at hb ⊢
      constructor <;> linarith

/-! ## Properties of the string comparison -/

theorem strcasecmp_swap (a b : List Char) : strcasecmp b a = - strcasecmp a b := by
  induction a generalizing b with
  | nil => cases b <;> simp [strcasecmp]
  | cons c1 s1 ih =>
    cases b with
    | nil => simp [strcasecmp]
    | cons c2 s2 =>
      simp only [strcasecmp]
      have := ih s2
      split_ifs <;> omega

theorem strcasecmp_self (a : List Char) : strcasecmp a a = 0 := by
  have := strcasecmp_swap a a
  omega

theorem strcasecmp_trans (a b c : List Char) (hab : strcasecmp a b ≤ 0)
    (hbc : strcasecmp b c ≤ 0) : strcasecmp a c ≤ 0 := by
  induction a generalizing b c with
  | nil => cases c <;> simp [strcasecmp]
  | cons c1 s1 ih =>
    cases b with
    | nil =>
      cases c with
      | nil => simpa [strcasecmp] using hab
      | cons c3 s3 =>
        simp only [strcasecmp] at hab hbc ⊢
        split_ifs <;> omega
    | cons c2 s2 =>
      cases c with
      | nil =>
        simp only [strcasecmp] at hab hbc ⊢
        split_ifs at hab <;> omega
      | cons c3 s3 =>
        simp only [strcasecmp] at hab hbc ⊢
        have := ih s2 s3
        split_ifs at hab hbc ⊢ <;> omega

/-! ### Printing and reading numbers -/

theorem digitChar_toNat (k : Nat) (hk : k < 10) : (Char.ofNat (48 + k)).toNat = 48 + k := by
  interval_cases k <;> rfl

theorem digitVal_digitChar (k : Nat) (hk : k < 10) : digitVal (Char.ofNat (48 + k)) = k := by
  simp [digitVal, digitChar_toNat k hk]

theorem isdigit_digitChar (k : Nat) (hk : k < 10) : isdigit (Char.ofNat (48 + k)) = true := by
  simp [isdigit, digitChar_toNat k hk]
  omega

theorem digitsToNat_append (a : List Char) (d : Char) :
    digitsToNat (a ++ [d]) = digitsToNat a * 10 + digitVal d := by
  simp [digitsToNat, List.foldl_append]

theorem natDigits_spec (fuel n : Nat) (h : n < fuel) :
    natDigits fuel n ≠ [] ∧ (∀ c ∈ natDigits fuel n, isdigit c = true) ∧
      digitsToNat (natDigits fuel n) = n := by
  induction fuel generalizing n with
  | zero => omega
  | succ fuel ih =>
    unfold natDigits
    split_ifs with h10
    · refine ⟨by simp, ?_, ?_⟩
      · intro c hc
        simp only [List.mem_singleton] at hc
        subst hc
        exact isdigit_digitChar n h10
      · simp [digitsToNat, digitVal_digitChar n h10]
    · have hlt : n / 10 < fuel := by omega
      obtain ⟨_, h2, h3⟩ := ih (n / 10) hlt
      refine ⟨by simp, ?_, ?_⟩
      · intro c hc
        rcases List.mem_append.1 hc with hc | hc
        · exact h2 c hc
        · simp only [List.mem_singleton] at hc
          subst hc
          exact isdigit_digitChar (n % 10) (Nat.mod_lt _ (by decide))
      · rw [digitsToNat_append, h3, digitVal_digitChar (n % 10) (Nat.mod_lt _ (by decide))]
        omega

theorem printNat_ne_nil (n : Nat) : printNat n ≠ [] :=
  (natDigits_spec (n + 1) n (Nat.lt_succ_self n)).1

theorem printNat_isdigit (n : Nat) : ∀ c ∈ printNat n, isdigit c = true :=
  (natDigits_spec (n + 1) n (Nat.lt_succ_self n)).2.1

theorem digitsToNat_printNat (n : Nat) : digitsToNat (printNat n) = n :=
  (natDigits_spec (n + 1) n (Nat.lt_succ_self n)).2.2

theorem isdigit_not_space (c : Char) (h : isdigit c = true) : isspace c = false := by
  simp [isdigit, isspace] at h ⊢
  omega

theorem isdigit_ne (c : Char) (h : isdigit c = true) (n : Nat) (hn : n < 48 ∨ 57 < n)
    (hv : n < 256) : c ≠ Char.ofNat n := by
  intro hc
  subst hc
  have : (Char.ofNat n).toNat = n := by
    interval_cases n <;> rfl
  simp [isdigit, this] at h
  omega

/-! ### Reading back what was printed -/

theorem scanNotComma_field (w : Nat) (tok rest : List Char) (hne : tok ≠ [])
    (hc : ∀ c ∈ tok, c ≠ Char.ofNat 44) (hw : tok.length ≤ w) :
    scanNotComma w (tok ++ Char.ofNat 44 :: rest) = some (tok, Char.ofNat 44 :: rest) := by
  have h1 : (tok ++ Char.ofNat 44 :: rest).takeWhile (fun c => c ≠ Char.ofNat 44) = tok := by
    rw [List.takeWhile_append_of_pos (by simpa using hc)]
    simp
  simp only [scanNotComma, h1, List.take_of_length_le hw, if_neg hne, List.drop_left]

theorem headDigit_dropWhile (l rest : List Char) (hne : l ≠ [])
    (hd : ∀ c ∈ l, isdigit c = true) : (l ++ rest).dropWhile isspace = l ++ rest := by
  obtain ⟨d, ds, rfl⟩ := List.exists_cons_of_ne_nil hne
  have := isdigit_not_space d (hd d (by simp))
  simp [List.dropWhile, this]

theorem headDigit_scanSign (l rest : List Char) (hne : l ≠ [])
    (hd : ∀ c ∈ l, isdigit c = true) : scanSign (l ++ rest) = (false, l ++ rest) := by
  obtain ⟨d, ds, rfl⟩ := List.exists_cons_of_ne_nil hne
  have h1 := isdigit_ne d (hd d (by simp)) 45 (by omega) (by omega)
  have h2 := isdigit_ne d (hd d (by simp)) 43 (by omega) (by omega)
  simp [scanSign, h1, h2]

theorem takeWhile_digits (l rest : List Char) (hd : ∀ c ∈ l, isdigit c = true)
    (hrest : rest.takeWhile isdigit = []) : (l ++ rest).takeWhile isdigit = l := by
  rw [List.takeWhile_append_of_pos hd, hrest, List.append_nil]

theorem toInt32_clampLong (n : Nat) (hn : n < 2147483648) :
    toInt32 (clampLong (n : Int)) = (n : Int) := by
  unfold toInt32 clampLong
  split_ifs <;> omega

theorem scanInt_printNat (n : Nat) (hn : n < 2147483648) (rest : List Char)
    (hrest : rest.takeWhile isdigit = []) :
    scanInt (printNat n ++ rest) = some ((n : Int), rest) := by
  have hne := printNat_ne_nil n
  have hd := printNat_isdigit n
  simp only [scanInt, headDigit_dropWhile _ rest hne hd, headDigit_scanSign _ rest hne hd,
    takeWhile_digits _ rest hd hrest, if_neg hne, List.drop_left, digitsToNat_printNat,
    Bool.false_eq_true, if_false, toInt32_clampLong n hn]

theorem cstr_eq_self (s : List Char) (h : ∀ c ∈ s, c ≠ NUL) : cstr s = s := by
  unfold cstr
  rw [List.takeWhile_eq_self_iff]
  simpa using h

theorem isdigit_ne_NUL (c : Char) (h : isdigit c = true) : c ≠ NUL :=
  isdigit_ne c h 0 (by omega) (by omega)

theorem atoi_printNat (n : Nat) (hn : n < 2147483648) : atoi (printNat n) = (n : Int) := by
  have h := scanInt_printNat n hn [] rfl
  rw [List.append_nil] at h
  simp [atoi, cstr_eq_self _ (fun c hc => isdigit_ne_NUL c (printNat_isdigit n c hc)), h]

theorem printInt_natCast (n : Nat) : printInt (n : Int) = printNat n := by
  simp [printInt]

theorem decimalValue_hundredths (c : Nat) :
    decimalValue c (0 - ((2 : Nat) : Int)) = (c : ℚ) / 100 := by
  simp [decimalValue, Rat.mkRat_eq_div]

theorem tolower_isdigit (c : Char) (h : isdigit c = true) : tolower c.toNat = c.toNat := by
  simp only [isdigit, Bool.and_eq_true, decide_eq_true_eq] at h
  simp only [tolower]
  rw [if_neg (by omega)]

theorem isdigit_toNat (c : Char) (h : isdigit c = true) : 48 ≤ c.toNat ∧ c.toNat ≤ 57 := by
  simpa [isdigit] using h

theorem scanExponent_lineEnd (tail : List Char) (h : tail = [] ∨ tail = [Char.ofNat 10]) :
    scanExponent 101 tail = 0 := by
  rcases h with rfl | rfl
  · rfl
  · decide

theorem scanDecimal_digits (neg : Bool) (ip : List Char) (d1 d2 : Char) (tail : List Char)
    (hne : ip ≠ []) (hd : ∀ c ∈ ip, isdigit c = true) (h1 : isdigit d1 = true)
    (h2 : isdigit d2 = true) (htail : tail = [] ∨ tail = [Char.ofNat 10]) :
    scanDecimal neg (ip ++ Char.ofNat 46 :: d1 :: d2 :: tail) =
      some (roundSigned neg ((digitsToNat (ip ++ [d1, d2]) : ℚ) / 100)) := by
  have ht : (ip ++ Char.ofNat 46 :: d1 :: d2 :: tail).takeWhile isdigit = ip :=
    takeWhile_digits _ _ hd (by
      have : isdigit (Char.ofNat 46) = false := by decide
      simp [this])
  have hnl : isdigit (Char.ofNat 10) = false := by decide
  have hf : (d1 :: d2 :: tail).takeWhile isdigit = [d1, d2] := by
    rcases htail with rfl | rfl <;> simp [List.takeWhile, h1, h2, hnl]
  have he := scanExponent_lineEnd tail htail
  simp only [scanDecimal, ht, List.drop_left, if_true, hf, List.length_cons,
    List.length_nil, List.drop_succ_cons, List.drop_zero, he]
  rw [if_neg (by simp [hne])]
  simp only [zero_add, Nat.reduceAdd]
  rw [decimalValue_hundredths]

theorem scanDouble_digits (neg : Bool) (ip : List Char) (d1 d2 : Char) (tail : List Char)
    (hne : ip ≠ []) (hd : ∀ c ∈ ip, isdigit c = true) (h1 : isdigit d1 = true)
    (h2 : isdigit d2 = true) (htail : tail = [] ∨ tail = [Char.ofNat 10]) :
    scanDouble (printSign neg ++ (ip ++ Char.ofNat 46 :: d1 :: d2 :: tail)) =
      some (roundSigned neg ((digitsToNat (ip ++ [d1, d2]) : ℚ) / 100)) := by
  have hs : scanSign ((printSign neg ++ (ip ++ Char.ofNat 46 :: d1 :: d2 :: tail)).dropWhile
      isspace) = (neg, ip ++ Char.ofNat 46 :: d1 :: d2 :: tail) := by
    cases neg
    · simp only [printSign, Bool.false_eq_true, if_false, List.nil_append]
      rw [headDigit_dropWhile _ _ hne hd, headDigit_scanSign _ _ hne hd]
    · have : isspace (Char.ofNat 45) = false := by decide
      simp [printSign, List.dropWhile, this, scanSign]
  have hdec := scanDecimal_digits neg ip d1 d2 tail hne hd h1 h2 htail
  obtain ⟨c, ip', rfl⟩ := List.exists_cons_of_ne_nil hne
  have hc := isdigit_toNat c (hd c (by simp))
  have hlow := tolower_isdigit c (hd c (by simp))
  have hx : ((ip' ++ Char.ofNat 46 :: d1 :: d2 :: tail).head?.map
      (fun x => tolower x.toNat)) ≠ some 120 := by
    cases ip' with
    | nil =>
      have : tolower (Char.ofNat 46).toNat ≠ 120 := by decide
      simpa using this
    | cons e ip2 =>
      have he := isdigit_toNat e (hd e (by simp))
      have hle := tolower_isdigit e (hd e (by simp))
      simp only [List.cons_append, List.head?_cons, Option.map_some', ne_eq, Option.some.injEq,
        hle]
      omega
  unfold scanDouble
  rw [hs]
  simp only [List.cons_append] at hdec hx ⊢
  rw [if_neg (by omega), if_neg (by omega), if_neg (fun h => hx h.2)]
  exact hdec

theorem digitsToNat_append_two (ip : List Char) (d1 d2 : Char) :
    digitsToNat (ip ++ [d1, d2]) = (digitsToNat ip * 10 + digitVal d1) * 10 + digitVal d2 := by
  simp [digitsToNat, List.foldl_append]

theorem digits_hundredths (n : Nat) :
    digitsToNat (printNat (n / 100) ++
      [Char.ofNat (48 + n % 100 / 10), Char.ofNat (48 + n % 10)]) = n := by
  have hA : n % 100 / 10 < 10 := by omega
  have hB : n % 10 < 10 := by omega
  rw [digitsToNat_append_two, digitsToNat_printNat, digitVal_digitChar _ hA,
    digitVal_digitChar _ hB]
  have e1 := Nat.div_add_mod n 100
  have e2 := Nat.div_add_mod (n % 100) 10
  have e3 : n % 100 % 10 = n % 10 := Nat.mod_mod_of_dvd _ (by decide)
  omega

theorem scanDouble_printFixed2 (neg : Bool) (k : Nat) (tail : List Char)
    (hfin : roundMag ((k : ℚ) / 100) < pow2 1024)
    (htail : tail = [] ∨ tail = [Char.ofNat 10]) :
    scanDouble (printFixed2 (Double.fin neg (roundMag ((k : ℚ) / 100))) ++ tail) =
      some (Double.fin neg (roundMag ((k : ℚ) / 100))) := by
  have hA : (roundHalfEven (roundMag ((k : ℚ) / 100) * 100)).natAbs % 100 / 10 < 10 := by omega
  have hB : (roundHalfEven (roundMag ((k : ℚ) / 100) * 100)).natAbs % 10 < 10 := by omega
  have h := scanDouble_digits neg
    (printNat ((roundHalfEven (roundMag ((k : ℚ) / 100) * 100)).natAbs / 100))
    (Char.ofNat (48 + (roundHalfEven (roundMag ((k : ℚ) / 100) * 100)).natAbs % 100 / 10))
    (Char.ofNat (48 + (roundHalfEven (roundMag ((k : ℚ) / 100) * 100)).natAbs % 10)) tail
    (printNat_ne_nil _) (printNat_isdigit _) (isdigit_digitChar _ hA) (isdigit_digitChar _ hB) htail
  rw [digits_hundredths, roundSigned, roundMag_print_scan, if_neg (not_le.2 hfin)] at h
  rw [← h]
  simp [printFixed2]

theorem printFixed2_ne_NUL (neg : Bool) (a : ℚ) :
    ∀ c ∈ printFixed2 (Double.fin neg a), c ≠ NUL := by
  intro c hc
  have hA : (roundHalfEven (a * 100)).natAbs % 100 / 10 < 10 := by omega
  have hB : (roundHalfEven (a * 100)).natAbs % 10 < 10 := by omega
  simp only [printFixed2, printSign, List.mem_append, List.mem_cons, List.mem_singleton,
    List.not_mem_nil, or_false] at hc
  rcases hc with (hc | hc) | hc | hc | hc
  · split_ifs at hc
    · simp only [List.mem_singleton] at hc
      subst hc
      decide
    · simp at hc
  · exact isdigit_ne_NUL c (printNat_isdigit _ c hc)
  · subst hc
    decide
  · subst hc
    exact isdigit_ne_NUL _ (isdigit_digitChar _ hA)
  · subst hc
    exact isdigit_ne_NUL _ (isdigit_digitChar _ hB)

theorem scanComma_cons (s : List Char) : scanComma (Char.ofNat 44 :: s) = some s := by
  simp [scanComma]

theorem takeWhile_isdigit_comma (s : List Char) :
    (Char.ofNat 44 :: s).takeWhile isdigit = [] := by
  have : isdigit (Char.ofNat 44) = false := by decide
  simp [this]

theorem sscanfBoat_fields (name P I : List Char) (l : Nat) (neg : Bool) (k : Nat)
    (tail : List Char)
    (hname : fieldText name) (hlen : name.length ≤ 127)
    (hP : fieldText P) (hPl : P.length ≤ 19) (hI : fieldText I) (hIl : I.length ≤ 19)
    (hl : l < 2147483648) (hfin : roundMag ((k : ℚ) / 100) < pow2 1024)
    (htail : tail = [] ∨ tail = [Char.ofNat 10]) :
    sscanfBoat (name ++ Char.ofNat 44 :: (printNat l ++ Char.ofNat 44 :: (P ++ Char.ofNat 44 ::
        (I ++ Char.ofNat 44 ::
          (printFixed2 (Double.fin neg (roundMag ((k : ℚ) / 100))) ++ tail))))) =
      some ⟨name, (l : Int), P, I, Double.fin neg (roundMag ((k : ℚ) / 100))⟩ := by
  have hnul : cstr (name ++ Char.ofNat 44 :: (printNat l ++ Char.ofNat 44 :: (P ++ Char.ofNat 44 ::
        (I ++ Char.ofNat 44 ::
          (printFixed2 (Double.fin neg (roundMag ((k : ℚ) / 100))) ++ tail))))) =
      name ++ Char.ofNat 44 :: (printNat l ++ Char.ofNat 44 :: (P ++ Char.ofNat 44 ::
        (I ++ Char.ofNat 44 ::
          (printFixed2 (Double.fin neg (roundMag ((k : ℚ) / 100))) ++ tail)))) := by
    apply cstr_eq_self
    have c44 : Char.ofNat 44 ≠ NUL := by decide
    have c10 : Char.ofNat 10 ≠ NUL := by decide
    intro c hc
    simp only [List.mem_append, List.mem_cons] at hc
    rcases hc with hc | hc | hc | hc | hc | hc | hc | hc | hc | hc
    · exact (hname.2 c hc).2.1
    · exact hc ▸ c44
    · exact isdigit_ne_NUL c (printNat_isdigit _ c hc)
    · exact hc ▸ c44
    · exact (hP.2 c hc).2.1
    · exact hc ▸ c44
    · exact (hI.2 c hc).2.1
    · exact hc ▸ c44
    · exact printFixed2_ne_NUL neg _ c hc
    · rcases htail with rfl | rfl
      · simp at hc
      · simp only [List.mem_singleton] at hc
        exact hc ▸ c10
  unfold sscanfBoat
  rw [hnul, scanNotComma_field 127 name _ hname.1 (fun c hc => (hname.2 c hc).1) hlen]
  simp only [scanComma_cons]
  rw [scanInt_printNat l hl _ (takeWhile_isdigit_comma _)]
  simp only [scanComma_cons]
  rw [scanNotComma_field 19 P _ hP.1 (fun c hc => (hP.2 c hc).1) hPl]
  simp only [scanComma_cons]
  rw [scanNotComma_field 19 I _ hI.1 (fun c hc => (hI.2 c hc).1) hIl]
  simp only [scanComma_cons]
  rw [scanDouble_printFixed2 neg k tail hfin htail]

/-! ## C1: a record written by `saveData` is read back unchanged -/

theorem printNat_length_le (n : Nat) (h : n < 100) : (printNat n).length ≤ 2 := by
  unfold printNat
  rw [natDigits]
  split_ifs with h10
  · simp
  · obtain ⟨m, rfl⟩ : ∃ m, n = m + 1 := ⟨n - 1, by omega⟩
    rw [natDigits, if_pos (by omega)]
    simp

theorem isdigit_ne_comma (c : Char) (h : isdigit c = true) : c ≠ Char.ofNat 44 :=
  isdigit_ne c h 44 (by omega) (by omega)

theorem isdigit_ne_newline (c : Char) (h : isdigit c = true) : c ≠ Char.ofNat 10 :=
  isdigit_ne c h 10 (by omega) (by omega)

theorem fieldText_printNat (n : Nat) : fieldText (printNat n) :=
  ⟨printNat_ne_nil n, fun c hc =>
    ⟨isdigit_ne_comma c (printNat_isdigit n c hc), isdigit_ne_NUL c (printNat_isdigit n c hc),
      isdigit_ne_newline c (printNat_isdigit n c hc)⟩⟩

theorem fieldText_letter (c : Char) (h1 : 65 ≤ c.toNat) (h2 : c.toNat ≤ 90) : fieldText [c] := by
  refine ⟨by simp, ?_⟩
  intro d hd
  simp only [List.mem_singleton] at hd
  subst hd
  refine ⟨?_, ?_, ?_⟩
  · intro h
    rw [h] at h1
    revert h1
    decide
  · intro h
    rw [h] at h1
    revert h1
    decide
  · intro h
    rw [h] at h1
    revert h1
    decide

theorem sortBoats_singleton (b : Boat) : sortBoats [b] = [b] := by
  simp [sortBoats]

theorem fieldText_slip : fieldText ['s', 'l', 'i', 'p'] := by
  refine ⟨by simp, ?_⟩
  decide

theorem fieldText_land : fieldText ['l', 'a', 'n', 'd'] := by
  refine ⟨by simp, ?_⟩
  decide

theorem fieldText_trailor : fieldText ['t', 'r', 'a', 'i', 'l', 'o', 'r'] := by
  refine ⟨by simp, ?_⟩
  decide

theorem fieldText_storage : fieldText ['s', 't', 'o', 'r', 'a', 'g', 'e'] := by
  refine ⟨by simp, ?_⟩
  decide

theorem printFixed2_ne_newline (d : Double) : ∀ c ∈ printFixed2 d, c ≠ Char.ofNat 10 := by
  intro c hc
  have hm : ∀ s : Bool, c ∈ printSign s → c ≠ Char.ofNat 10 := by
    intro s hs
    cases s
    · simp [printSign] at hs
    · simp only [printSign, if_true, List.mem_singleton] at hs
      subst hs
      decide
  cases d with
  | nan s =>
    simp only [printFixed2, List.mem_append, List.mem_cons, List.mem_singleton,
      List.not_mem_nil, or_false] at hc
    rcases hc with hc | hc | hc | hc
    · exact hm s hc
    all_goals subst hc; decide
  | inf s =>
    simp only [printFixed2, List.mem_append, List.mem_cons, List.mem_singleton,
      List.not_mem_nil, or_false] at hc
    rcases hc with hc | hc | hc | hc
    · exact hm s hc
    all_goals subst hc; decide
  | fin s a =>
    have hA : (roundHalfEven (a * 100)).natAbs % 100 / 10 < 10 := by omega
    have hB : (roundHalfEven (a * 100)).natAbs % 10 < 10 := by omega
    simp only [printFixed2, List.mem_append, List.mem_cons, List.mem_singleton,
      List.not_mem_nil, or_false] at hc
    rcases hc with (hc | hc) | hc | hc | hc
    · exact hm s hc
    · exact isdigit_ne_newline c (printNat_isdigit _ c hc)
    · subst hc
      decide
    · subst hc
      exact isdigit_ne_newline _ (isdigit_digitChar _ hA)
    · subst hc
      exact isdigit_ne_newline _ (isdigit_digitChar _ hB)

theorem fields_ne_newline (name P I : List Char) (l : Nat) (d : Double)
    (hname : fieldText name) (hP : fieldText P) (hI : fieldText I) :
    ∀ c ∈ name ++ Char.ofNat 44 :: (printNat l ++ Char.ofNat 44 :: (P ++ Char.ofNat 44 ::
        (I ++ Char.ofNat 44 :: printFixed2 d))), c ≠ Char.ofNat 10 := by
  have c44 : Char.ofNat 44 ≠ Char.ofNat 10 := by decide
  intro c hc
  simp only [List.mem_append, List.mem_cons] at hc
  rcases hc with hc | hc | hc | hc | hc | hc | hc | hc | hc
  · exact (hname.2 c hc).2.2
  · exact hc ▸ c44
  · exact isdigit_ne_newline c (printNat_isdigit _ c hc)
  · exact hc ▸ c44
  · exact (hP.2 c hc).2.2
  · exact hc ▸ c44
  · exact (hI.2 c hc).2.2
  · exact hc ▸ c44
  · exact printFixed2_ne_newline d c hc

theorem fgetsAux_line (n : Nat) (body rest cur : List Char)
    (hnl : ∀ c ∈ body, c ≠ Char.ofNat 10) (hlen : cur.length + body.length + 1 ≤ n) :
    fgetsAux n cur (body ++ Char.ofNat 10 :: rest) =
      (cur ++ body ++ [Char.ofNat 10]) :: fgetsAux n [] rest := by
  induction body generalizing cur with
  | nil => simp [fgetsAux]
  | cons c body ih =>
    have hc : c ≠ Char.ofNat 10 := hnl c (by simp)
    have hl : ¬ (cur ++ [c]).length = n := by
      simp only [List.length_append, List.length_cons, List.length_nil] at hlen ⊢
      omega
    rw [List.cons_append, fgetsAux, if_neg (not_or.2 ⟨hc, hl⟩)]
    rw [ih (cur ++ [c]) (fun d hd => hnl d (by simp [hd])) (by
      simp only [List.length_append, List.length_cons, List.length_nil] at hlen ⊢
      omega)]
    simp

theorem fgetsLines_line (body : List Char) (hnl : ∀ c ∈ body, c ≠ Char.ofNat 10)
    (hlen : (body ++ [Char.ofNat 10]).length ≤ 255) :
    fgetsLines (body ++ [Char.ofNat 10]) = [body ++ [Char.ofNat 10]] := by
  have h := fgetsAux_line 255 body [] [] hnl (by simpa using hlen)
  simpa [fgetsLines, fgetsAux] using h

theorem stringToPlaceType_slip : stringToPlaceType ['s', 'l', 'i', 'p'] = PlaceType.slip := by
  decide

theorem stringToPlaceType_land : stringToPlaceType ['l', 'a', 'n', 'd'] = PlaceType.land := by
  decide

theorem stringToPlaceType_trailor :
    stringToPlaceType ['t', 'r', 'a', 'i', 'l', 'o', 'r'] = PlaceType.trailor := by
  decide

theorem stringToPlaceType_storage :
    stringToPlaceType ['s', 't', 'o', 'r', 'a', 'g', 'e'] = PlaceType.storage := by
  decide

theorem firstChar_letter (c : Char) (h1 : 65 ≤ c.toNat) (h2 : c.toNat ≤ 90) :
    firstChar [c] = c := by
  simp [firstChar, cstr_eq_self [c] (fun d hd => ((fieldText_letter c h1 h2).2 d hd).2.1)]

theorem copyTag_tag (tag : List Char) (htag : fieldText tag) (ht9 : tag.length ≤ 9) :
    copyTag tag = tag := by
  simp [copyTag, cstr_eq_self tag (fun c hc => (htag.2 c hc).2.1), MAX_trailor_TAG_LENGTH,
    List.take_of_length_le ht9]

theorem loadData_single (r : Boat) (h1 : loadLine (formatLine r) = Except.ok r)
    (h2 : fgetsLines (formatLine r) = [formatLine r]) :
    loadData [] (some (saveData [r])) = [r] := by
  simp [loadData, saveData, h2, loadLines, h1, sortBoats_singleton]

theorem twoDecimals_fin (d : Double) (h : twoDecimals d) :
    ∃ (neg : Bool) (k : Nat), roundMag ((k : ℚ) / 100) < pow2 1024 ∧
      d = Double.fin neg (roundMag ((k : ℚ) / 100)) := by
  obtain ⟨hfin, neg, k, hk⟩ := h
  refine ⟨neg, k, ?_⟩
  unfold roundSigned at hk
  split_ifs at hk with ho
  · rw [hk] at hfin
    exact absurd hfin (by simp [Double.isFinite])
  · exact ⟨not_le.1 ho, hk⟩

theorem roundTrip_slip_full (R : Boat) (name : List Char) (length n : Int) (neg : Bool) (k : Nat)
    (hR : R = ⟨name, length, PlaceType.slip, PlaceInfo.slipNumber n,
      Double.fin neg (roundMag ((k : ℚ) / 100))⟩)
    (hname : fieldText name) (hlen : name.length ≤ 127) (hl1 : 1 ≤ length) (hl2 : length ≤ 100)
    (hn1 : 1 ≤ n) (hn2 : n ≤ 85) (hfin : roundMag ((k : ℚ) / 100) < pow2 1024)
    (hfit : (formatLine R).length ≤ 255) :
    loadLine (formatLine R) = Except.ok R ∧ fgetsLines (saveData [R]) = [formatLine R] ∧
      loadData [] (some (saveData [R])) = [R] ∧
      addBoat [] (some (formatLine R).dropLast) = (AddOutcome.added, [R]) := by
  subst hR
  lift length to Nat using (by omega) with l
  lift n to Nat using (by omega) with n
  have hl1' : 1 ≤ l := by omega
  have hl2' : ¬ 100 < l := by omega
  have hn1' : 1 ≤ n := by omega
  have hn2' : ¬ 85 < n := by omega
  have hform : formatLine ⟨name, (l : Int), PlaceType.slip, PlaceInfo.slipNumber (n : Int),
      Double.fin neg (roundMag ((k : ℚ) / 100))⟩ =
      (name ++ Char.ofNat 44 :: (printNat l ++ Char.ofNat 44 :: (['s', 'l', 'i', 'p'] ++
        Char.ofNat 44 :: (printNat n ++ Char.ofNat 44 ::
          printFixed2 (Double.fin neg (roundMag ((k : ℚ) / 100))))))) ++ [Char.ofNat 10] := by
    simp [formatLine, printInt_natCast, cstr_eq_self name (fun c hc => (hname.2 c hc).2.1)]
  have hfields := fun tail => sscanfBoat_fields name ['s', 'l', 'i', 'p'] (printNat n) l neg k tail
    hname hlen fieldText_slip (by simp) (fieldText_printNat n)
    (le_trans (printNat_length_le n (by omega)) (by omega)) (by omega) hfin
  have hs1 := hfields [Char.ofNat 10] (Or.inr rfl)
  have hs0 := hfields [] (Or.inl rfl)
  rw [List.append_nil] at hs0
  have ha := atoi_printNat n (by omega)
  rw [hform] at hfit ⊢
  have hload : loadLine ((name ++ Char.ofNat 44 :: (printNat l ++ Char.ofNat 44 ::
      (['s', 'l', 'i', 'p'] ++ Char.ofNat 44 :: (printNat n ++ Char.ofNat 44 ::
        printFixed2 (Double.fin neg (roundMag ((k : ℚ) / 100))))))) ++ [Char.ofNat 10]) =
      Except.ok ⟨name, (l : Int), PlaceType.slip, PlaceInfo.slipNumber (n : Int),
        Double.fin neg (roundMag ((k : ℚ) / 100))⟩ := by
    have e : (name ++ Char.ofNat 44 :: (printNat l ++ Char.ofNat 44 ::
        (['s', 'l', 'i', 'p'] ++ Char.ofNat 44 :: (printNat n ++ Char.ofNat 44 ::
          printFixed2 (Double.fin neg (roundMag ((k : ℚ) / 100))))))) ++ [Char.ofNat 10] =
        name ++ Char.ofNat 44 :: (printNat l ++ Char.ofNat 44 ::
          (['s', 'l', 'i', 'p'] ++ Char.ofNat 44 :: (printNat n ++ Char.ofNat 44 ::
            (printFixed2 (Double.fin neg (roundMag ((k : ℚ) / 100))) ++ [Char.ofNat 10])))) := by
      simp
    unfold loadLine
    rw [e, hs1]
    simp [validateLength, stringToPlaceType_slip, ha, validateBoatInfo, hl1', hl2', hn1', hn2']
  have hfg := fgetsLines_line _
    (fields_ne_newline name ['s', 'l', 'i', 'p'] (printNat n) l
      (Double.fin neg (roundMag ((k : ℚ) / 100))) hname fieldText_slip (fieldText_printNat n)) hfit
  refine ⟨hload, ?_, ?_, ?_⟩
  · simpa [saveData, hform] using hfg
  · simp only [loadData, saveData, List.flatMap_cons, List.flatMap_nil, List.append_nil, hform,
      hfg, loadLines, hload, List.nil_append, sortBoats_singleton]
  · rw [List.dropLast_concat]
    simp only [addBoat, hs0]
    simp [validateLength, stringToPlaceType_slip, ha, sortBoats_singleton,
      findBoatByName, findBoatByNameFrom, MAX_BOATS, hl1', hl2', hn1', hn2']
    omega

theorem roundTrip_storage_full (R : Boat) (name : List Char) (length n : Int) (neg : Bool) (k : Nat)
    (hR : R = ⟨name, length, PlaceType.storage, PlaceInfo.storageNumber n,
      Double.fin neg (roundMag ((k : ℚ) / 100))⟩)
    (hname : fieldText name) (hlen : name.length ≤ 127) (hl1 : 1 ≤ length) (hl2 : length ≤ 100)
    (hn1 : 1 ≤ n) (hn2 : n ≤ 50) (hfin : roundMag ((k : ℚ) / 100) < pow2 1024)
    (hfit : (formatLine R).length ≤ 255) :
    loadLine (formatLine R) = Except.ok R ∧ fgetsLines (saveData [R]) = [formatLine R] ∧
      loadData [] (some (saveData [R])) = [R] ∧
      addBoat [] (some (formatLine R).dropLast) = (AddOutcome.added, [R]) := by
  subst hR
  lift length to Nat using (by omega) with l
  lift n to Nat using (by omega) with n
  have hl1' : 1 ≤ l := by omega
  have hl2' : ¬ 100 < l := by omega
  have hn1' : 1 ≤ n := by omega
  have hn2' : ¬ 50 < n := by omega
  have hform : formatLine ⟨name, (l : Int), PlaceType.storage, PlaceInfo.storageNumber (n : Int),
      Double.fin neg (roundMag ((k : ℚ) / 100))⟩ =
      (name ++ Char.ofNat 44 :: (printNat l ++ Char.ofNat 44 :: (['s', 't', 'o', 'r', 'a', 'g', 'e'] ++
        Char.ofNat 44 :: (printNat n ++ Char.ofNat 44 ::
          printFixed2 (Double.fin neg (roundMag ((k : ℚ) / 100))))))) ++ [Char.ofNat 10] := by
    simp [formatLine, printInt_natCast, cstr_eq_self name (fun c hc => (hname.2 c hc).2.1)]
  have hfields := fun tail => sscanfBoat_fields name ['s', 't', 'o', 'r', 'a', 'g', 'e'] (printNat n) l neg k tail
    hname hlen fieldText_storage (by simp) (fieldText_printNat n)
    (le_trans (printNat_length_le n (by omega)) (by omega)) (by omega) hfin
  have hs1 := hfields [Char.ofNat 10] (Or.inr rfl)
  have hs0 := hfields [] (Or.inl rfl)
  rw [List.append_nil] at hs0
  have ha := atoi_printNat n (by omega)
  rw [hform] at hfit ⊢
  have hload : loadLine ((name ++ Char.ofNat 44 :: (printNat l ++ Char.ofNat 44 ::
      (['s', 't', 'o', 'r', 'a', 'g', 'e'] ++ Char.ofNat 44 :: (printNat n ++ Char.ofNat 44 ::
        printFixed2 (Double.fin neg (roundMag ((k : ℚ) / 100))))))) ++ [Char.ofNat 10]) =
      Except.ok ⟨name, (l : Int), PlaceType.storage, PlaceInfo.storageNumber (n : Int),
        Double.fin neg (roundMag ((k : ℚ) / 100))⟩ := by
    have e : (name ++ Char.ofNat 44 :: (printNat l ++ Char.ofNat 44 ::
        (['s', 't', 'o', 'r', 'a', 'g', 'e'] ++ Char.ofNat 44 :: (printNat n ++ Char.ofNat 44 ::
          printFixed2 (Double.fin neg (roundMag ((k : ℚ) / 100))))))) ++ [Char.ofNat 10] =
        name ++ Char.ofNat 44 :: (printNat l ++ Char.ofNat 44 ::
          (['s', 't', 'o', 'r', 'a', 'g', 'e'] ++ Char.ofNat 44 :: (printNat n ++ Char.ofNat 44 ::
            (printFixed2 (Double.fin neg (roundMag ((k : ℚ) / 100))) ++ [Char.ofNat 10])))) := by
      simp
    unfold loadLine
    rw [e, hs1]
    simp [validateLength, stringToPlaceType_storage, ha, validateBoatInfo, hl1', hl2', hn1', hn2']
  have hfg := fgetsLines_line _
    (fields_ne_newline name ['s', 't', 'o', 'r', 'a', 'g', 'e'] (printNat n) l
      (Double.fin neg (roundMag ((k : ℚ) / 100))) hname fieldText_storage (fieldText_printNat n)) hfit
  refine ⟨hload, ?_, ?_, ?_⟩
  · simpa [saveData, hform] using hfg
  · simp only [loadData, saveData, List.flatMap_cons, List.flatMap_nil, List.append_nil, hform,
      hfg, loadLines, hload, List.nil_append, sortBoats_singleton]
  · rw [List.dropLast_concat]
    simp only [addBoat, hs0]
    simp [validateLength, stringToPlaceType_storage, ha, sortBoats_singleton,
      findBoatByName, findBoatByNameFrom, MAX_BOATS, hl1', hl2', hn1', hn2']
    omega

theorem roundTrip_land_full (R : Boat) (name : List Char) (length : Int) (c : Char) (neg : Bool)
    (k : Nat)
    (hR : R = ⟨name, length, PlaceType.land, PlaceInfo.bayLetter c,
      Double.fin neg (roundMag ((k : ℚ) / 100))⟩)
    (hname : fieldText name) (hlen : name.length ≤ 127) (hl1 : 1 ≤ length) (hl2 : length ≤ 100)
    (hc1 : 65 ≤ c.toNat) (hc2 : c.toNat ≤ 90) (hfin : roundMag ((k : ℚ) / 100) < pow2 1024)
    (hfit : (formatLine R).length ≤ 255) :
    loadLine (formatLine R) = Except.ok R ∧ fgetsLines (saveData [R]) = [formatLine R] ∧
      loadData [] (some (saveData [R])) = [R] ∧
      addBoat [] (some (formatLine R).dropLast) = (AddOutcome.added, [R]) := by
  subst hR
  lift length to Nat using (by omega) with l
  have hl1' : 1 ≤ l := by omega
  have hl2' : ¬ 100 < l := by omega
  have hform : formatLine ⟨name, (l : Int), PlaceType.land, PlaceInfo.bayLetter c,
      Double.fin neg (roundMag ((k : ℚ) / 100))⟩ =
      (name ++ Char.ofNat 44 :: (printNat l ++ Char.ofNat 44 :: (['l', 'a', 'n', 'd'] ++
        Char.ofNat 44 :: ([c] ++ Char.ofNat 44 ::
          printFixed2 (Double.fin neg (roundMag ((k : ℚ) / 100))))))) ++ [Char.ofNat 10] := by
    simp [formatLine, printInt_natCast, cstr_eq_self name (fun c hc => (hname.2 c hc).2.1)]
  have hfields := fun tail => sscanfBoat_fields name ['l', 'a', 'n', 'd'] [c] l neg k tail
    hname hlen fieldText_land (by simp) (fieldText_letter c hc1 hc2) (by simp) (by omega) hfin
  have hs1 := hfields [Char.ofNat 10] (Or.inr rfl)
  have hs0 := hfields [] (Or.inl rfl)
  rw [List.append_nil] at hs0
  have ha := firstChar_letter c hc1 hc2
  rw [hform] at hfit ⊢
  have hload : loadLine ((name ++ Char.ofNat 44 :: (printNat l ++ Char.ofNat 44 ::
      (['l', 'a', 'n', 'd'] ++ Char.ofNat 44 :: ([c] ++ Char.ofNat 44 ::
        printFixed2 (Double.fin neg (roundMag ((k : ℚ) / 100))))))) ++ [Char.ofNat 10]) =
      Except.ok ⟨name, (l : Int), PlaceType.land, PlaceInfo.bayLetter c,
        Double.fin neg (roundMag ((k : ℚ) / 100))⟩ := by
    have e : (name ++ Char.ofNat 44 :: (printNat l ++ Char.ofNat 44 ::
        (['l', 'a', 'n', 'd'] ++ Char.ofNat 44 :: ([c] ++ Char.ofNat 44 ::
          printFixed2 (Double.fin neg (roundMag ((k : ℚ) / 100))))))) ++ [Char.ofNat 10] =
        name ++ Char.ofNat 44 :: (printNat l ++ Char.ofNat 44 ::
          (['l', 'a', 'n', 'd'] ++ Char.ofNat 44 :: ([c] ++ Char.ofNat 44 ::
            (printFixed2 (Double.fin neg (roundMag ((k : ℚ) / 100))) ++ [Char.ofNat 10])))) := by
      simp
    unfold loadLine
    rw [e, hs1]
    simp [validateLength, stringToPlaceType_land, ha, validateBoatInfo, hl1', hl2', hc1, hc2]
  have hfg := fgetsLines_line _
    (fields_ne_newline name ['l', 'a', 'n', 'd'] [c] l
      (Double.fin neg (roundMag ((k : ℚ) / 100))) hname fieldText_land
      (fieldText_letter c hc1 hc2)) hfit
  refine ⟨hload, ?_, ?_, ?_⟩
  · simpa [saveData, hform] using hfg
  · simp only [loadData, saveData, List.flatMap_cons, List.flatMap_nil, List.append_nil, hform,
      hfg, loadLines, hload, List.nil_append, sortBoats_singleton]
  · rw [List.dropLast_concat]
    simp only [addBoat, hs0]
    simp [validateLength, stringToPlaceType_land, ha, sortBoats_singleton,
      findBoatByName, findBoatByNameFrom, MAX_BOATS, hl1', hl2', hc1, hc2]

theorem roundTrip_trailor_full (R : Boat) (name : List Char) (length : Int) (tag : List Char) (neg : Bool)
    (k : Nat)
    (hR : R = ⟨name, length, PlaceType.trailor, PlaceInfo.trailorTag tag,
      Double.fin neg (roundMag ((k : ℚ) / 100))⟩)
    (hname : fieldText name) (hlen : name.length ≤ 127) (hl1 : 1 ≤ length) (hl2 : length ≤ 100)
    (htag : fieldText tag) (ht9 : tag.length ≤ 9) (hfin : roundMag ((k : ℚ) / 100) < pow2 1024)
    (hfit : (formatLine R).length ≤ 255) :
    loadLine (formatLine R) = Except.ok R ∧ fgetsLines (saveData [R]) = [formatLine R] ∧
      loadData [] (some (saveData [R])) = [R] ∧
      addBoat [] (some (formatLine R).dropLast) = (AddOutcome.added, [R]) := by
  subst hR
  lift length to Nat using (by omega) with l
  have hl1' : 1 ≤ l := by omega
  have hl2' : ¬ 100 < l := by omega
  have hform : formatLine ⟨name, (l : Int), PlaceType.trailor, PlaceInfo.trailorTag tag,
      Double.fin neg (roundMag ((k : ℚ) / 100))⟩ =
      (name ++ Char.ofNat 44 :: (printNat l ++ Char.ofNat 44 :: (['t', 'r', 'a', 'i', 'l', 'o', 'r'] ++
        Char.ofNat 44 :: (tag ++ Char.ofNat 44 ::
          printFixed2 (Double.fin neg (roundMag ((k : ℚ) / 100))))))) ++ [Char.ofNat 10] := by
    simp [formatLine, printInt_natCast, cstr_eq_self name (fun c hc => (hname.2 c hc).2.1),
      cstr_eq_self tag (fun c hc => (htag.2 c hc).2.1)]
  have hfields := fun tail => sscanfBoat_fields name ['t', 'r', 'a', 'i', 'l', 'o', 'r'] tag l neg k tail
    hname hlen fieldText_trailor (by simp) htag (by omega) (by omega) hfin
  have hs1 := hfields [Char.ofNat 10] (Or.inr rfl)
  have hs0 := hfields [] (Or.inl rfl)
  rw [List.append_nil] at hs0
  have ha := copyTag_tag tag htag ht9
  rw [hform] at hfit ⊢
  have hload : loadLine ((name ++ Char.ofNat 44 :: (printNat l ++ Char.ofNat 44 ::
      (['t', 'r', 'a', 'i', 'l', 'o', 'r'] ++ Char.ofNat 44 :: (tag ++ Char.ofNat 44 ::
        printFixed2 (Double.fin neg (roundMag ((k : ℚ) / 100))))))) ++ [Char.ofNat 10]) =
      Except.ok ⟨name, (l : Int), PlaceType.trailor, PlaceInfo.trailorTag tag,
        Double.fin neg (roundMag ((k : ℚ) / 100))⟩ := by
    have e : (name ++ Char.ofNat 44 :: (printNat l ++ Char.ofNat 44 ::
        (['t', 'r', 'a', 'i', 'l', 'o', 'r'] ++ Char.ofNat 44 :: (tag ++ Char.ofNat 44 ::
          printFixed2 (Double.fin neg (roundMag ((k : ℚ) / 100))))))) ++ [Char.ofNat 10] =
        name ++ Char.ofNat 44 :: (printNat l ++ Char.ofNat 44 ::
          (['t', 'r', 'a', 'i', 'l', 'o', 'r'] ++ Char.ofNat 44 :: (tag ++ Char.ofNat 44 ::
            (printFixed2 (Double.fin neg (roundMag ((k : ℚ) / 100))) ++ [Char.ofNat 10])))) := by
      simp
    unfold loadLine
    rw [e, hs1]
    simp [validateLength, stringToPlaceType_trailor, ha, validateBoatInfo, hl1', hl2', ht9]
  have hfg := fgetsLines_line _
    (fields_ne_newline name ['t', 'r', 'a', 'i', 'l', 'o', 'r'] tag l
      (Double.fin neg (roundMag ((k : ℚ) / 100))) hname fieldText_trailor
      htag) hfit
  refine ⟨hload, ?_, ?_, ?_⟩
  · simpa [saveData, hform] using hfg
  · simp only [loadData, saveData, List.flatMap_cons, List.flatMap_nil, List.append_nil, hform,
      hfg, loadLines, hload, List.nil_append, sortBoats_singleton]
  · rw [List.dropLast_concat]
    simp only [addBoat, hs0]
    simp [validateLength, stringToPlaceType_trailor, ha, sortBoats_singleton,
      findBoatByName, findBoatByNameFrom, MAX_BOATS, hl1', hl2', ht9]

/-- C1 (as amended): a valid record whose name, and trailer tag if it has one, is
not empty and contains no comma, no newline and no NUL, and whose line is not longer
than the 255 characters that `fgets` reads at a time, is read back unchanged from the
line `saveData` writes for it: by the parse step of `loadData`, by `loadData` on the
file that `saveData` writes (which `fgets` delivers as that one line), and by
`addBoat` when the line is typed without its newline and the name does not start
with white space (which `scanf` would skip before `addBoat` sees the line). -/
theorem roundTrip_valid_record (r : Boat) (hv : validRecord r) (hname : fieldText r.name)
    (htag : tagText r) (hfit : (formatLine r).length ≤ 255) :
    loadLine (formatLine r) = Except.ok r ∧ fgetsLines (saveData [r]) = [formatLine r] ∧
      loadData [] (some (saveData [r])) = [r] ∧
      ((∀ c, r.name.head? = some c → isspace c = false) →
        addBoat [] (some (formatLine r).dropLast) = (AddOutcome.added, [r])) := by
  have key : loadLine (formatLine r) = Except.ok r ∧
      fgetsLines (saveData [r]) = [formatLine r] ∧
      loadData [] (some (saveData [r])) = [r] ∧
      addBoat [] (some (formatLine r).dropLast) = (AddOutcome.added, [r]) := by
    obtain ⟨name, length, place, info, owed⟩ := r
    obtain ⟨hlen, hl1, hl2, hloc, htwo⟩ := hv
    obtain ⟨neg, k, hfin, hk⟩ := twoDecimals_fin _ htwo
    simp only at hlen hl1 hl2 hk hname
    subst hk
    cases place with
    | slip =>
      cases info with
      | slipNumber n =>
        exact roundTrip_slip_full _ name length n neg k rfl hname hlen hl1 hl2 hloc.1 hloc.2
          hfin hfit
      | _ => exact hloc.elim
    | land =>
      cases info with
      | bayLetter c =>
        exact roundTrip_land_full _ name length c neg k rfl hname hlen hl1 hl2 hloc.1 hloc.2
          hfin hfit
      | _ => exact hloc.elim
    | trailor =>
      cases info with
      | trailorTag tag =>
        exact roundTrip_trailor_full _ name length tag neg k rfl hname hlen hl1 hl2 htag hloc
          hfin hfit
      | _ => exact hloc.elim
    | storage =>
      cases info with
      | storageNumber n =>
        exact roundTrip_storage_full _ name length n neg k rfl hname hlen hl1 hl2 hloc.1 hloc.2
          hfin hfit
      | _ => exact hloc.elim
    | no_place => cases info <;> exact hloc.elim
  exact ⟨key.1, key.2.1, key.2.2.1, fun _ => key.2.2.2⟩

/-- C1 (witness): the record `Jolly`, 20 feet, slip 10, owing 50.00, whose line
`Jolly,20,slip,10,50.00` has 23 characters with its newline. -/
theorem roundTrip_valid_record_witness :
    formatLine jolly = jollyLine ++ [Char.ofNat 10] ∧
      (∀ c, jolly.name.head? = some c → isspace c = false) ∧
      (loadLine (formatLine jolly) = Except.ok jolly ∧
        fgetsLines (saveData [jolly]) = [formatLine jolly] ∧
        loadData [] (some (saveData [jolly])) = [jolly] ∧
        ((∀ c, jolly.name.head? = some c → isspace c = false) →
          addBoat [] (some (formatLine jolly).dropLast) = (AddOutcome.added, [jolly]))) :=
  ⟨by decide!, by decide,
    roundTrip_valid_record jolly
      ⟨by decide, by decide, by decide, ⟨by decide, by decide⟩, by decide!, false, 5000,
        by decide!⟩
      ⟨by decide, by decide⟩ trivial (by decide!)⟩

/-- C1 (counterexample): six records that are valid as the claim lists it: a comma in
the name, an empty name, an empty trailer tag, a comma in the trailer tag, a newline
in the name, and an amount of 1e260 (a whole number of hundredths, and a double).  The
line written for each of the first four does not parse; the line of the fifth is
read as two lines, the second of which parses as another boat; the line of the sixth
has 277 characters and is read in two pieces, the first of which parses as the same
boat owing 1e242. -/
theorem saved_line_does_not_parse :
    (validRecord ⟨['a', ',', 'b'], 10, PlaceType.slip, PlaceInfo.slipNumber 1, 0⟩ ∧
      loadLine (formatLine ⟨['a', ',', 'b'], 10, PlaceType.slip, PlaceInfo.slipNumber 1, 0⟩) =
        Except.error LoadError.parseError) ∧
    (validRecord ⟨[], 10, PlaceType.slip, PlaceInfo.slipNumber 1, 0⟩ ∧
      loadLine (formatLine ⟨[], 10, PlaceType.slip, PlaceInfo.slipNumber 1, 0⟩) =
        Except.error LoadError.parseError) ∧
    (validRecord ⟨['a'], 10, PlaceType.trailor, PlaceInfo.trailorTag [], 0⟩ ∧
      loadLine (formatLine ⟨['a'], 10, PlaceType.trailor, PlaceInfo.trailorTag [], 0⟩) =
        Except.error LoadError.parseError) ∧
    (validRecord ⟨['a'], 10, PlaceType.trailor, PlaceInfo.trailorTag ['x', ',', 'y'], 0⟩ ∧
      loadLine (formatLine
          ⟨['a'], 10, PlaceType.trailor, PlaceInfo.trailorTag ['x', ',', 'y'], 0⟩) =
        Except.error LoadError.parseError) ∧
    (validRecord ⟨['a', Char.ofNat 10, 'b'], 10, PlaceType.slip, PlaceInfo.slipNumber 1, 0⟩ ∧
      loadData [] (some (saveData
          [⟨['a', Char.ofNat 10, 'b'], 10, PlaceType.slip, PlaceInfo.slipNumber 1, 0⟩])) =
        [⟨['b'], 10, PlaceType.slip, PlaceInfo.slipNumber 1, 0⟩]) ∧
    (validRecord ⟨['a'], 10, PlaceType.slip, PlaceInfo.slipNumber 1,
        roundSigned false (((10 ^ 262 : Nat) : ℚ) / 100)⟩ ∧
      (formatLine ⟨['a'], 10, PlaceType.slip, PlaceInfo.slipNumber 1,
        roundSigned false (((10 ^ 262 : Nat) : ℚ) / 100)⟩).length = 277 ∧
      loadData [] (some (saveData [⟨['a'], 10, PlaceType.slip, PlaceInfo.slipNumber 1,
          roundSigned false (((10 ^ 262 : Nat) : ℚ) / 100)⟩])) =
        [⟨['a'], 10, PlaceType.slip, PlaceInfo.slipNumber 1,
          roundSigned false (((10 ^ 244 : Nat) : ℚ) / 100)⟩] ∧
      roundSigned false (((10 ^ 262 : Nat) : ℚ) / 100) ≠
        roundSigned false (((10 ^ 244 : Nat) : ℚ) / 100)) :=
  ⟨⟨⟨by decide, by decide, by decide, ⟨by decide, by decide⟩, by decide!, false, 0, by decide!⟩,
      by decide!⟩,
   ⟨⟨by decide, by decide, by decide, ⟨by decide, by decide⟩, by decide!, false, 0, by decide!⟩,
      by decide!⟩,
   ⟨⟨by decide, by decide, by decide, by simp [locationInRange], by decide!, false, 0,
      by decide!⟩, by decide!⟩,
   ⟨⟨by decide, by decide, by decide, by simp [locationInRange], by decide!, false, 0,
      by decide!⟩, by decide!⟩,
   ⟨⟨by decide, by decide, by decide, ⟨by decide, by decide⟩, by decide!, false, 0, by decide!⟩,
      by decide!⟩,
   ⟨⟨by decide, by decide, by decide, ⟨by decide, by decide⟩, by decide!, false, 10 ^ 262, rfl⟩,
      by decide!, by decide!, by decide!⟩⟩

/-! ## C2, C3: what `loadData` does not check -/

/-- C2 (the code at the failing input): loading a file of 121 well-formed lines with
distinct names into the empty collection leaves 121 records, one more than
`MAX_BOATS`. -/
theorem load_exceeds_capacity :
    (fgetsLines file121).length = 121 ∧
      (run [] [Op.load (some file121)]).length = 121 ∧
      MAX_BOATS < (run [] [Op.load (some file121)]).length := by
  decide!

/-- C3 (the code at the failing input): loading a file with two well-formed lines of
the same name stores two records of that name. -/
theorem load_keeps_duplicate_names :
    (run [] [Op.load (some dupFile)]).map Boat.name =
        [['J', 'o', 'l', 'l', 'y'], ['J', 'o', 'l', 'l', 'y']] ∧
      ¬ namesDistinct (run [] [Op.load (some dupFile)]) := by
  have h : run [] [Op.load (some dupFile)] =
      [⟨['J', 'o', 'l', 'l', 'y'], 20, PlaceType.slip, PlaceInfo.slipNumber 10, 50⟩,
       ⟨['J', 'o', 'l', 'l', 'y'], 30, PlaceType.land, PlaceInfo.bayLetter 'B', 0⟩] := by
    decide!
  rw [h]
  refine ⟨rfl, ?_⟩
  simp [namesDistinct, strcasecmp_self]

/-! ## C4: the collection stays sorted -/

theorem boatLe_total (a b : Boat) : boatLe a b ∨ boatLe b a := by
  have := strcasecmp_swap a.name b.name
  unfold boatLe compareBoats
  omega

theorem boatLe_trans (a b c : Boat) (hab : boatLe a b) (hbc : boatLe b c) : boatLe a c :=
  strcasecmp_trans a.name b.name c.name hab hbc

theorem sortBoats_sorted (l : List Boat) : List.Sorted boatLe (sortBoats l) :=
  @List.sorted_insertionSort Boat boatLe _ ⟨boatLe_total⟩ ⟨boatLe_trans⟩ l

theorem sortBoats_perm (l : List Boat) : (sortBoats l).Perm l :=
  List.perm_insertionSort boatLe l

theorem sorted_iff_names (l : List Boat) :
    List.Sorted boatLe l ↔ (l.map Boat.name).Pairwise (fun a b => strcasecmp a b ≤ 0) := by
  rw [List.pairwise_map]
  rfl

theorem map_name_set (l : List Boat) (i : Nat) (b c : Boat) (h : l[i]? = some b)
    (hn : c.name = b.name) : (l.set i c).map Boat.name = l.map Boat.name := by
  induction l generalizing i with
  | nil => simp
  | cons x xs ih =>
    cases i with
    | zero =>
      simp only [List.getElem?_cons_zero, Option.some.injEq] at h
      subst h
      simp [hn]
    | succ j =>
      simp only [List.getElem?_cons_succ] at h
      simp [ih j h]

theorem monthlyCharge_name (b : Boat) : (monthlyCharge b).name = b.name := by
  unfold monthlyCharge
  split <;> rfl

theorem updateMonthlyCharges_names (l : List Boat) :
    (updateMonthlyCharges l).map Boat.name = l.map Boat.name := by
  simp [updateMonthlyCharges, List.map_map, Function.comp_def, monthlyCharge_name]

theorem acceptPayment_names (boats : List Boat) (input : Option (List Char)) (amount : Option Double) :
    (acceptPayment boats input amount).2.map Boat.name = boats.map Boat.name := by
  unfold acceptPayment
  split
  · rfl
  · split_ifs
    · rfl
    · split
      · rfl
      · rename_i boat hb
        split
        · rfl
        · split_ifs
          · rfl
          · exact map_name_set boats _ boat _ hb rfl

theorem addBoat_sorted (boats : List Boat) (input : Option (List Char))
    (h : List.Sorted boatLe boats) : List.Sorted boatLe (addBoat boats input).2 := by
  unfold addBoat
  repeat' split
  all_goals first | exact h | exact sortBoats_sorted _

theorem removeBoat_sorted (boats : List Boat) (input : Option (List Char))
    (h : List.Sorted boatLe boats) : List.Sorted boatLe (removeBoat boats input).2 := by
  unfold removeBoat
  repeat' split
  all_goals first | exact h | exact sortBoats_sorted _

theorem step_sorted (boats : List Boat) (op : Op) (h : List.Sorted boatLe boats) :
    List.Sorted boatLe (step boats op) := by
  cases op with
  | load file =>
    cases file with
    | none => exact h
    | some content => exact sortBoats_sorted _
  | add input => exact addBoat_sorted boats input h
  | remove input => exact removeBoat_sorted boats input h
  | payment input amount =>
    show List.Sorted boatLe (acceptPayment boats input amount).2
    rw [sorted_iff_names, acceptPayment_names, ← sorted_iff_names]
    exact h
  | month =>
    show List.Sorted boatLe (updateMonthlyCharges boats)
    rw [sorted_iff_names, updateMonthlyCharges_names, ← sorted_iff_names]
    exact h

theorem run_sorted (boats : List Boat) (ops : List Op) (h : List.Sorted boatLe boats) :
    List.Sorted boatLe (run boats ops) := by
  induction ops generalizing boats with
  | nil => exact h
  | cons op ops ih => exact ih (step boats op) (step_sorted boats op h)

/-- C4: after any sequence of operations on the empty collection (load, add and
remove, and also payment and monthly charges) the collection is in ascending order
of `strcasecmp` on the names: every record compares less than or equal to every
later one, in particular to the next one. -/
theorem sorted_after_operations (ops : List Op) :
    List.Pairwise (fun a b => strcasecmp a.name b.name ≤ 0) (run [] ops) ∧
      List.Chain' (fun a b => strcasecmp a.name b.name ≤ 0) (run [] ops) :=
  ⟨run_sorted [] ops List.sorted_nil, List.Pairwise.chain' (run_sorted [] ops List.sorted_nil)⟩

/-! ## C5: every stored record is valid -/

theorem storedValid_congr (b c : Boat) (hl : c.length = b.length) (hp : c.place = b.place)
    (hi : c.info = b.info) (h : storedValid b) : storedValid c := by
  obtain ⟨name, length, place, info, owed⟩ := b
  obtain ⟨name', length', place', info', owed'⟩ := c
  simp only at hl hp hi
  subst hl hp hi
  exact h

theorem copyTag_length (info : List Char) : (copyTag info).length ≤ 9 := by
  simp [copyTag, MAX_trailor_TAG_LENGTH]

theorem loadLine_storedValid (line : List Char) (b : Boat) (h : loadLine line = Except.ok b) :
    storedValid b := by
  unfold loadLine at h
  split at h
  · simp at h
  · rename_i f hf
    dsimp only at h
    split_ifs at h with hlen hplace hinfo
    simp only [Except.ok.injEq] at h
    subst h
    simp only [validateLength, Bool.and_eq_false_imp, decide_eq_true_eq, decide_eq_false_iff_not,
      not_le, not_forall, not_lt, exists_prop] at hlen
    simp only [Bool.not_eq_false] at hinfo
    refine ⟨by show 1 ≤ f.length; omega, by show f.length ≤ 100; omega, hplace, ?_⟩
    revert hinfo
    cases hp : stringToPlaceType f.placeString <;>
      simp [validateBoatInfo, locationInRange, copyTag_length]

theorem monthlyCharge_storedValid (b : Boat) (h : storedValid b) : storedValid (monthlyCharge b) := by
  unfold monthlyCharge
  split <;> exact h

theorem loadLines_storedValid (lines : List (List Char)) (boats : List Boat)
    (h : ∀ b ∈ boats, storedValid b) : ∀ b ∈ loadLines boats lines, storedValid b := by
  induction lines generalizing boats with
  | nil => exact h
  | cons line rest ih =>
    unfold loadLines
    split
    · rename_i boat hb
      apply ih
      intro b hmem
      rcases List.mem_append.1 hmem with hmem | hmem
      · exact h b hmem
      · simp only [List.mem_singleton] at hmem
        subst hmem
        exact loadLine_storedValid line b hb
    · exact ih boats h

theorem sortBoats_mem (l : List Boat) (b : Boat) : b ∈ sortBoats l ↔ b ∈ l :=
  (sortBoats_perm l).mem_iff

theorem addBoat_storedValid (boats : List Boat) (input : Option (List Char))
    (h : ∀ b ∈ boats, storedValid b) : ∀ b ∈ (addBoat boats input).2, storedValid b := by
  unfold addBoat
  repeat' split
  all_goals first
    | exact h
    | (intro b hb
       rw [sortBoats_mem, List.mem_append] at hb
       rcases hb with hb | hb
       · exact h b hb
       · simp only [List.mem_singleton] at hb
         subst hb
         simp_all [storedValid, locationInRange, validateLength, copyTag_length]
         try omega)

theorem removeBoat_storedValid (boats : List Boat) (input : Option (List Char))
    (h : ∀ b ∈ boats, storedValid b) : ∀ b ∈ (removeBoat boats input).2, storedValid b := by
  unfold removeBoat
  repeat' split
  all_goals first
    | exact h
    | (intro b hb
       rw [sortBoats_mem] at hb
       exact h b (List.mem_of_mem_eraseIdx hb))

theorem acceptPayment_storedValid (boats : List Boat) (input : Option (List Char))
    (amount : Option Double) (h : ∀ b ∈ boats, storedValid b) :
    ∀ b ∈ (acceptPayment boats input amount).2, storedValid b := by
  unfold acceptPayment
  repeat' split
  all_goals first
    | exact h
    | (rename_i boat hb _ _ _
       intro b hmem
       rcases List.mem_or_eq_of_mem_set hmem with hmem | hmem
       · exact h b hmem
       · subst hmem
         exact storedValid_congr boat _ rfl rfl rfl (h boat (List.getElem?_mem hb)))

theorem step_storedValid (boats : List Boat) (op : Op) (h : ∀ b ∈ boats, storedValid b) :
    ∀ b ∈ step boats op, storedValid b := by
  cases op with
  | load file =>
    cases file with
    | none => exact h
    | some content =>
      intro b hb
      simp only [step, loadData, sortBoats_mem] at hb
      exact loadLines_storedValid _ boats h b hb
  | add input => exact addBoat_storedValid boats input h
  | remove input => exact removeBoat_storedValid boats input h
  | payment input amount => exact acceptPayment_storedValid boats input amount h
  | month =>
    intro b hb
    simp only [step, updateMonthlyCharges, List.mem_map] at hb
    obtain ⟨a, ha, rfl⟩ := hb
    exact monthlyCharge_storedValid a (h a ha)

theorem run_storedValid (boats : List Boat) (ops : List Op) (h : ∀ b ∈ boats, storedValid b) :
    ∀ b ∈ run boats ops, storedValid b := by
  induction ops generalizing boats with
  | nil => exact h
  | cons op ops ih => exact ih (step boats op) (step_storedValid boats op h)

/-- C5: every record of a collection reached from the empty one by load, add, remove,
payment and monthly charges has length in [1,100], a kind other than `no_place`, and
a location detail in the range of its kind (slip 1 to 85, bay `A` to `Z`, storage 1
to 50, trailer tag of at most 9 characters). -/
theorem stored_records_valid (ops : List Op) (b : Boat) :
    b ∈ run [] ops →
      1 ≤ b.length ∧ b.length ≤ 100 ∧ b.place ≠ PlaceType.no_place ∧ locationInRange b :=
  fun hb => run_storedValid [] ops (fun _ h => absurd h (List.not_mem_nil _)) b hb

/-- C5 (witness): the record stored after adding `Jolly,20,slip,10,50.00`, a month
of charges and a payment of 100. -/
theorem stored_records_valid_witness :
    (⟨['J', 'o', 'l', 'l', 'y'], 20, PlaceType.slip, PlaceInfo.slipNumber 10, 200⟩ : Boat) ∈
        run [] [Op.add (some jollyLine), Op.month,
          Op.payment (some ['j', 'o', 'l', 'l', 'y']) (some 100)] ∧
      (1 ≤ (20 : Int) ∧ (20 : Int) ≤ 100 ∧ PlaceType.slip ≠ PlaceType.no_place ∧
        locationInRange ⟨['J', 'o', 'l', 'l', 'y'], 20, PlaceType.slip, PlaceInfo.slipNumber 10, 200⟩) :=
  ⟨by decide!,
    stored_records_valid
      [Op.add (some jollyLine), Op.month, Op.payment (some ['j', 'o', 'l', 'l', 'y']) (some 100)]
      ⟨['J', 'o', 'l', 'l', 'y'], 20, PlaceType.slip, PlaceInfo.slipNumber 10, 200⟩ (by decide!)⟩

/-! ## `findBoatByName` -/

theorem findFrom_eq_neg_one (k : Nat) (l : List Boat) (n : List Char) :
    findBoatByNameFrom k l n = -1 ↔ ∀ b ∈ l, strcasecmp b.name n ≠ 0 := by
  induction l generalizing k with
  | nil => simp [findBoatByNameFrom]
  | cons x xs ih =>
    unfold findBoatByNameFrom
    split_ifs with hx
    · constructor
      · intro h
        exact h.elim
      · intro h
        exact absurd hx (h x (by simp))
    · rw [ih (k + 1)]
      simp [hx]

theorem findFrom_found (k : Nat) (l : List Boat) (n : List Char)
    (h : findBoatByNameFrom k l n ≠ -1) :
    ∃ (i : Nat) (b : Boat), findBoatByNameFrom k l n = ((k + i : Nat) : Int) ∧ l[i]? = some b ∧
      strcasecmp b.name n = 0 ∧
      ∀ j c, j < i → l[j]? = some c → strcasecmp c.name n ≠ 0 := by
  induction l generalizing k with
  | nil => simp [findBoatByNameFrom] at h
  | cons x xs ih =>
    unfold findBoatByNameFrom at h ⊢
    split_ifs at h ⊢ with hx
    · exact ⟨0, x, by simp, by simp, hx, fun j c hj => absurd hj (Nat.not_lt_zero j)⟩
    · obtain ⟨i, b, h1, h2, h3, h4⟩ := ih (k + 1) h
      refine ⟨i + 1, b, ?_, by simpa using h2, h3, ?_⟩
      · rw [h1]
        congr 1
        omega
      · intro j c hj hc
        cases j with
        | zero =>
          simp only [List.getElem?_cons_zero, Option.some.injEq] at hc
          subst hc
          exact hx
        | succ j =>
          simp only [List.getElem?_cons_succ] at hc
          exact h4 j c (by omega) hc

theorem findBoatByName_eq_neg_one (l : List Boat) (n : List Char) :
    findBoatByName l n = -1 ↔ ∀ b ∈ l, strcasecmp b.name n ≠ 0 :=
  findFrom_eq_neg_one 0 l n

theorem findBoatByName_found (l : List Boat) (n : List Char) (h : findBoatByName l n ≠ -1) :
    ∃ (i : Nat) (b : Boat), findBoatByName l n = (i : Int) ∧ l[i]? = some b ∧ strcasecmp b.name n = 0 ∧
      ∀ j c, j < i → l[j]? = some c → strcasecmp c.name n ≠ 0 := by
  obtain ⟨i, b, h1, h2, h3, h4⟩ := findFrom_found 0 l n h
  exact ⟨i, b, by simpa using h1, h2, h3, h4⟩

/-! ## C6: what a successful add leaves -/

theorem addBoat_added (boats : List Boat) (input : Option (List Char)) (boats' : List Boat)
    (h : addBoat boats input = (AddOutcome.added, boats')) :
    ∃ line f nb, input = some line ∧ sscanfBoat line = some f ∧ boats.length < MAX_BOATS ∧
      validateLength f.length = true ∧ findBoatByName boats f.name = -1 ∧
      nb.name = f.name ∧ nb.length = f.length ∧ nb.amountOwed = f.amountOwed ∧
      nb.place = stringToPlaceType f.placeString ∧ boats' = sortBoats (boats ++ [nb]) := by
  cases input with
  | none =>
    unfold addBoat at h
    split_ifs at h <;> simp at h
  | some line =>
    by_cases hcap : boats.length ≥ MAX_BOATS
    · simp [addBoat, hcap] at h
    · cases hf : sscanfBoat line with
      | none => simp [addBoat, hcap, hf] at h
      | some f =>
        by_cases hlen : validateLength f.length = false
        · simp [addBoat, hcap, hf, hlen] at h
        · by_cases hdup : findBoatByName boats f.name ≠ -1
          · simp [addBoat, hcap, hf, hlen, hdup] at h
          · have hlen' : validateLength f.length = true := by simpa using hlen
            have hdup' : findBoatByName boats f.name = -1 := by simpa using hdup
            cases hp : stringToPlaceType f.placeString <;>
              simp only [addBoat, hcap, hf, hlen, hdup, hp, if_false] at h
            all_goals try split_ifs at h
            all_goals simp only [Prod.mk.injEq, reduceCtorEq, false_and, true_and] at h
            all_goals
              exact ⟨line, f, _, rfl, hf, by omega, hlen', hdup', rfl, rfl, rfl, hp.symm, h.symm⟩

/-- C6: when `addBoat` reports success, the line read parsed into five fields, the
collection has exactly one record more, and `findBoatByName` with the name of the
line returns an index within the collection (so not -1) whose record has that name. -/
theorem add_postcondition (boats : List Boat) (input : Option (List Char)) (boats' : List Boat)
    (h : addBoat boats input = (AddOutcome.added, boats')) :
    ∃ line f, input = some line ∧ sscanfBoat line = some f ∧
      boats'.length = boats.length + 1 ∧ findBoatByName boats' f.name ≠ -1 ∧
      ∃ (i : Nat) (b : Boat), findBoatByName boats' f.name = (i : Int) ∧ i < boats'.length ∧
        boats'[i]? = some b ∧ b.name = f.name := by
  obtain ⟨line, f, nb, hin, hf, _, _, hdup, hname, _, _, _, hb⟩ := addBoat_added boats input boats' h
  have hmem : nb ∈ boats' := by
    rw [hb, sortBoats_mem]
    simp
  have hfound : findBoatByName boats' f.name ≠ -1 := by
    intro hneg
    rw [findBoatByName_eq_neg_one] at hneg
    exact hneg nb hmem (by rw [hname]; exact strcasecmp_self _)
  obtain ⟨i, b, h1, h2, h3, _⟩ := findBoatByName_found boats' f.name hfound
  refine ⟨line, f, hin, hf, ?_, hfound, i, b, h1, ?_, h2, ?_⟩
  · rw [hb, (sortBoats_perm _).length_eq]
    simp
  · exact (List.getElem?_eq_some.1 h2).1
  · have hbm : b ∈ boats' := List.getElem?_mem h2
    rw [hb, sortBoats_mem, List.mem_append] at hbm
    rcases hbm with hbm | hbm
    · rw [findBoatByName_eq_neg_one] at hdup
      exact absurd h3 (hdup b hbm)
    · simp only [List.mem_singleton] at hbm
      rw [hbm, hname]

/-- C6 (witness): adding `Jolly,20,slip,10,50.00` to the empty collection. -/
theorem add_postcondition_witness :
    ∃ line f, some jollyLine = some line ∧ sscanfBoat line = some f ∧
      [jolly].length = ([] : List Boat).length + 1 ∧ findBoatByName [jolly] f.name ≠ -1 ∧
      ∃ (i : Nat) (b : Boat), findBoatByName [jolly] f.name = (i : Int) ∧ i < [jolly].length ∧
        [jolly][i]? = some b ∧ b.name = f.name :=
  add_postcondition [] (some jollyLine) [jolly] (by decide!)

/-! ## C7: what a successful remove leaves -/

theorem strcasecmp_eq_zero_of_both (a b n : List Char) (ha : strcasecmp a n = 0)
    (hb : strcasecmp b n = 0) : strcasecmp a b = 0 := by
  have h1 := strcasecmp_swap b n
  have h2 := strcasecmp_swap a n
  have h3 := strcasecmp_swap a b
  have h4 := strcasecmp_trans a n b (by omega) (by omega)
  have h5 := strcasecmp_trans b n a (by omega) (by omega)
  omega

theorem pairwise_eraseIdx_rel (R : Boat → Boat → Prop) (l : List Boat) (i : Nat) (a b : Boat)
    (hp : l.Pairwise R) (ha : l[i]? = some a) (hb : b ∈ l.eraseIdx i) : R a b ∨ R b a := by
  induction l generalizing i with
  | nil => simp at ha
  | cons x xs ih =>
    rw [List.pairwise_cons] at hp
    cases i with
    | zero =>
      simp only [List.getElem?_cons_zero, Option.some.injEq] at ha
      subst ha
      simp only [List.eraseIdx_cons_zero] at hb
      exact Or.inl (hp.1 b hb)
    | succ j =>
      simp only [List.getElem?_cons_succ] at ha
      simp only [List.eraseIdx_cons_succ, List.mem_cons] at hb
      rcases hb with hb | hb
      · subst hb
        exact Or.inr (hp.1 a (List.getElem?_mem ha))
      · exact ih j hp.2 ha hb

theorem removeBoat_removed (boats : List Boat) (input : Option (List Char)) (boats' : List Boat)
    (h : removeBoat boats input = (RemoveOutcome.removed, boats')) :
    ∃ name, input = some name ∧ findBoatByName boats name ≠ -1 ∧
      boats' = sortBoats (boats.eraseIdx (findBoatByName boats name).toNat) := by
  cases input with
  | none => simp [removeBoat] at h
  | some name =>
    by_cases hf : findBoatByName boats name = -1
    · simp [removeBoat, hf] at h
    · simp only [removeBoat, hf, if_false, Prod.mk.injEq, true_and] at h
      exact ⟨name, rfl, hf, h.symm⟩

/-- C7 (as amended): when `removeBoat` reports success, the collection has exactly
one record less; and if no two records of the collection had names equal under
`strcasecmp`, `findBoatByName` with the same name then returns -1. -/
theorem remove_postcondition (boats : List Boat) (input : Option (List Char))
    (boats' : List Boat) (h : removeBoat boats input = (RemoveOutcome.removed, boats')) :
    ∃ name, input = some name ∧ boats'.length + 1 = boats.length ∧
      (namesDistinct boats → findBoatByName boats' name = -1) := by
  obtain ⟨name, hin, hfound, hb⟩ := removeBoat_removed boats input boats' h
  obtain ⟨i, a, h1, h2, h3, _⟩ := findBoatByName_found boats name hfound
  have hi : i < boats.length := (List.getElem?_eq_some.1 h2).1
  have hidx : (findBoatByName boats name).toNat = i := by
    rw [h1]
    simp
  rw [hidx] at hb
  refine ⟨name, hin, ?_, ?_⟩
  · rw [hb, (sortBoats_perm _).length_eq, List.length_eraseIdx]
    simp only [hi, if_true]
    omega
  · intro hd
    rw [findBoatByName_eq_neg_one]
    intro b hbm hb0
    rw [hb, sortBoats_mem] at hbm
    have hab := strcasecmp_eq_zero_of_both a.name b.name name h3 hb0
    have hba := strcasecmp_eq_zero_of_both b.name a.name name hb0 h3
    rcases pairwise_eraseIdx_rel _ boats i a b hd h2 hbm with hr | hr
    · exact hr hab
    · exact hr hba

/-- C7 (witness): removing `Molly` (asked for in upper case) from the collection of
`jolly` and `molly`, whose names differ: `jolly` is left, and `findBoatByName` with
the name asked for returns -1 on what is left. -/
theorem remove_postcondition_witness :
    namesDistinct [jolly, molly] ∧
      removeBoat [jolly, molly] (some ['M', 'O', 'L', 'L', 'Y']) =
        (RemoveOutcome.removed, [jolly]) ∧
      findBoatByName [jolly, molly] ['M', 'O', 'L', 'L', 'Y'] = 1 ∧
      ∃ name, some ['M', 'O', 'L', 'L', 'Y'] = some name ∧
        [jolly].length + 1 = [jolly, molly].length ∧
        (namesDistinct [jolly, molly] → findBoatByName [jolly] name = -1) :=
  ⟨by unfold namesDistinct; decide, by decide!, by decide,
    remove_postcondition [jolly, molly] (some ['M', 'O', 'L', 'L', 'Y']) [jolly] (by decide!)⟩

/-- C7 (counterexample): after loading the file with two lines named `Jolly`,
removing `Jolly` succeeds and `findBoatByName` still finds that name in what is left. -/
theorem remove_leaves_duplicate :
    ∃ boats', removeBoat (run [] [Op.load (some dupFile)]) (some ['J', 'o', 'l', 'l', 'y']) =
        (RemoveOutcome.removed, boats') ∧
      findBoatByName boats' ['J', 'o', 'l', 'l', 'y'] ≠ -1 :=
  ⟨[⟨['J', 'o', 'l', 'l', 'y'], 30, PlaceType.land, PlaceInfo.bayLetter 'B', 0⟩], by decide!⟩

/-! ## C8, C9: adds that are refused -/

/-- C8: on a collection of exactly 120 records `addBoat` reports that the capacity
is reached, whatever the input, and returns the collection as it was. -/
theorem add_at_capacity (boats : List Boat) (input : Option (List Char))
    (h : boats.length = 120) : addBoat boats input = (AddOutcome.capacityReached, boats) := by
  simp [addBoat, MAX_BOATS, h]

/-- C8 (witness): 120 copies of a record, and the line `Jolly,20,slip,10,50.00`. -/
theorem add_at_capacity_witness :
    addBoat (List.replicate 120 jolly) (some jollyLine) =
      (AddOutcome.capacityReached, List.replicate 120 jolly) :=
  add_at_capacity (List.replicate 120 jolly) (some jollyLine) (List.length_replicate 120 jolly)

theorem addBoat_unchanged_or_added (boats : List Boat) (input : Option (List Char)) :
    (addBoat boats input).1 = AddOutcome.added ∨ (addBoat boats input).2 = boats := by
  unfold addBoat
  repeat' split
  all_goals first | exact Or.inr rfl | exact Or.inl rfl

/-- C9 (as amended): when the name of the line equals, under `strcasecmp`, the name
of a record of the collection, `addBoat` leaves the collection unchanged and does
not report success; it reports the duplicate name when the collection holds fewer
than 120 records and the length of the line is in [1,100]. -/
theorem add_duplicate (boats : List Boat) (line : List Char) (f : ScannedLine)
    (hparse : sscanfBoat line = some f)
    (hdup : ∃ b ∈ boats, strcasecmp b.name f.name = 0) :
    (addBoat boats (some line)).2 = boats ∧
      (addBoat boats (some line)).1 ≠ AddOutcome.added ∧
      (boats.length < 120 → validateLength f.length = true →
        (addBoat boats (some line)).1 = AddOutcome.alreadyExists) := by
  have hfind : findBoatByName boats f.name ≠ -1 := by
    intro hneg
    rw [findBoatByName_eq_neg_one] at hneg
    obtain ⟨b, hb, hb0⟩ := hdup
    exact hneg b hb hb0
  refine ⟨?_, ?_, ?_⟩
  · unfold addBoat
    simp only [hparse, hfind]
    split_ifs <;> rfl
  · unfold addBoat
    simp only [hparse, hfind]
    split_ifs <;> simp
  · intro hlt hlen
    have hcap : ¬ boats.length ≥ MAX_BOATS := by
      simp only [MAX_BOATS]
      omega
    simp [addBoat, hcap, hparse, hlen, hfind]

/-- C9 (witness): adding `Jolly,20,slip,10,50.00` when `Jolly` is stored. -/
theorem add_duplicate_witness :
    (addBoat [jolly] (some jollyLine)).2 = [jolly] ∧
      (addBoat [jolly] (some jollyLine)).1 ≠ AddOutcome.added ∧
      (([jolly] : List Boat).length < 120 → validateLength (20 : Int) = true →
        (addBoat [jolly] (some jollyLine)).1 = AddOutcome.alreadyExists) :=
  add_duplicate [jolly] jollyLine
    ⟨['J', 'o', 'l', 'l', 'y'], 20, ['s', 'l', 'i', 'p'], ['1', '0'], 50⟩ (by decide!)
    ⟨jolly, by simp, by decide⟩

/-- C9 (counterexample): a line with the name of a stored record and length 0 is
refused for its length, and at 120 records a line with the name of a stored record
is refused for the capacity; neither reports the duplicate name. -/
theorem duplicate_add_other_error :
    addBoat [jolly] (some ['j', 'o', 'l', 'l', 'y', ',', '0', ',', 's', 'l', 'i', 'p', ',',
        '1', '0', ',', '5', '0', '.', '0', '0']) = (AddOutcome.invalidLength, [jolly]) ∧
      addBoat (List.replicate 120 jolly) (some jollyLine) =
        (AddOutcome.capacityReached, List.replicate 120 jolly) := by
  constructor
  · decide!
  · simp [addBoat, MAX_BOATS]

/-! ## C10: payments -/

theorem sub_exact (s t : Bool) (a b : ℚ)
    (hg : roundMag |signedValue s a - signedValue t b| = |signedValue s a - signedValue t b|)
    (hlt : |signedValue s a - signedValue t b| < pow2 1024) :
    ∃ u, Double.sub (Double.fin s a) (Double.fin t b) =
        Double.fin u |signedValue s a - signedValue t b| ∧
      signedValue u |signedValue s a - signedValue t b| = signedValue s a - signedValue t b := by
  simp only [Double.sub, Double.ofExact]
  generalize signedValue s a - signedValue t b = d at hg hlt ⊢
  split_ifs with h0
  · subst h0
    exact ⟨s && !t, by simp, by simp [signedValue_zero]⟩
  · rcases lt_or_le d 0 with hneg | hpos
    · refine ⟨true, ?_, ?_⟩
      · rw [abs_of_neg hneg] at hg hlt ⊢
        simp only [Double.ofRat, if_pos hneg, roundSigned, hg, if_neg (not_le.2 hlt)]
      · simp [signedValue, abs_of_neg hneg]
    · refine ⟨false, ?_, ?_⟩
      · rw [abs_of_nonneg hpos] at hg hlt ⊢
        simp only [Double.ofRat, if_neg (not_lt.2 hpos), roundSigned, hg, if_neg (not_le.2 hlt)]
      · simp [signedValue, abs_of_nonneg hpos]

/-- C10 (as amended): when `findBoatByName` finds the name, it is at an index `i`
of the collection holding a record `r`, and for every amount read: if the amount
exceeds `r.amountOwed` (the comparison `>` of doubles, false when either is a NaN)
the payment is refused and the collection returned as it was; otherwise the payment
is accepted and the collection returned has the same length, holds at `i` the record
`r` with `amountOwed` replaced by the difference `r.amountOwed - amount` of doubles
and every other field as before, and holds at every other index what it held
before.  The difference of two finite doubles is the double nearest to the exact
difference of the numbers when that is not zero, and it stands for the exact
difference whenever that is a double. -/
theorem payment_effect (boats : List Boat) (name : List Char) (amount : Double)
    (h : findBoatByName boats name ≠ -1) :
    ∃ (i : Nat) (r : Boat), findBoatByName boats name = (i : Int) ∧ boats[i]? = some r ∧
      (Double.gt amount r.amountOwed = true →
        acceptPayment boats (some name) (some amount) = (PaymentOutcome.exceedsOwed, boats)) ∧
      (Double.gt amount r.amountOwed = false →
        ∃ boats', acceptPayment boats (some name) (some amount) =
            (PaymentOutcome.accepted, boats') ∧
          boats'.length = boats.length ∧
          boats'[i]? =
            some ⟨r.name, r.length, r.place, r.info, Double.sub r.amountOwed amount⟩ ∧
          ∀ j, j ≠ i → boats'[j]? = boats[j]?) ∧
      (∀ (s t : Bool) (a b : ℚ), r.amountOwed = Double.fin s a → amount = Double.fin t b →
        signedValue s a - signedValue t b ≠ 0 →
        Double.sub r.amountOwed amount = Double.ofRat (signedValue s a - signedValue t b)) ∧
      (∀ (s t : Bool) (a b : ℚ), r.amountOwed = Double.fin s a → amount = Double.fin t b →
        roundMag |signedValue s a - signedValue t b| = |signedValue s a - signedValue t b| →
        |signedValue s a - signedValue t b| < pow2 1024 →
        ∃ u, Double.sub r.amountOwed amount =
            Double.fin u |signedValue s a - signedValue t b| ∧
          signedValue u |signedValue s a - signedValue t b| =
            signedValue s a - signedValue t b) := by
  obtain ⟨i, r, h1, h2, _, _⟩ := findBoatByName_found boats name h
  have hi : i < boats.length := (List.getElem?_eq_some.1 h2).1
  have hidx : (findBoatByName boats name).toNat = i := by
    rw [h1]
    simp
  refine ⟨i, r, h1, h2, ?_, ?_, ?_, ?_⟩
  · intro hgt
    simp [acceptPayment, h, hidx, h2, hgt]
  · intro hle
    refine ⟨boats.set i ⟨r.name, r.length, r.place, r.info, Double.sub r.amountOwed amount⟩,
      ?_, ?_, ?_, ?_⟩
    · simp only [acceptPayment, h, hidx, h2, if_false, hle, Bool.false_eq_true]
    · simp
    · simp [hi]
    · intro j hj
      simp [List.getElem?_set, Ne.symm hj]
  · intro s t a b hr ha hd
    rw [hr, ha]
    simp only [Double.sub, Double.ofExact, if_neg hd]
  · intro s t a b hr ha hg hlt
    rw [hr, ha]
    exact sub_exact s t a b hg hlt

/-- C10 (witness): a payment of 20 for `jolly`, who owes 50, is accepted and leaves
30, the exact difference. -/
theorem payment_effect_witness :
    findBoatByName [jolly] ['j', 'o', 'l', 'l', 'y'] ≠ -1 ∧
      Double.gt 20 jolly.amountOwed = false ∧
      acceptPayment [jolly] (some ['j', 'o', 'l', 'l', 'y']) (some 20) =
        (PaymentOutcome.accepted,
          [⟨['J', 'o', 'l', 'l', 'y'], 20, PlaceType.slip, PlaceInfo.slipNumber 10, 30⟩]) ∧
      ∃ (i : Nat) (r : Boat), findBoatByName [jolly] ['j', 'o', 'l', 'l', 'y'] = (i : Int) ∧
        [jolly][i]? = some r ∧
        (Double.gt 20 r.amountOwed = true →
          acceptPayment [jolly] (some ['j', 'o', 'l', 'l', 'y']) (some 20) =
            (PaymentOutcome.exceedsOwed, [jolly])) ∧
        (Double.gt 20 r.amountOwed = false →
          ∃ boats', acceptPayment [jolly] (some ['j', 'o', 'l', 'l', 'y']) (some 20) =
              (PaymentOutcome.accepted, boats') ∧
            boats'.length = [jolly].length ∧
            boats'[i]? = some ⟨r.name, r.length, r.place, r.info, Double.sub r.amountOwed 20⟩ ∧
            ∀ j, j ≠ i → boats'[j]? = [jolly][j]?) ∧
        (∀ (s t : Bool) (a b : ℚ), r.amountOwed = Double.fin s a →
          (20 : Double) = Double.fin t b → signedValue s a - signedValue t b ≠ 0 →
          Double.sub r.amountOwed 20 = Double.ofRat (signedValue s a - signedValue t b)) ∧
        (∀ (s t : Bool) (a b : ℚ), r.amountOwed = Double.fin s a →
          (20 : Double) = Double.fin t b →
          roundMag |signedValue s a - signedValue t b| = |signedValue s a - signedValue t b| →
          |signedValue s a - signedValue t b| < pow2 1024 →
          ∃ u, Double.sub r.amountOwed 20 =
              Double.fin u |signedValue s a - signedValue t b| ∧
            signedValue u |signedValue s a - signedValue t b| =
              signedValue s a - signedValue t b) :=
  ⟨by decide, by decide!, by decide!,
    payment_effect [jolly] ['j', 'o', 'l', 'l', 'y'] 20 (by decide)⟩

/-- C10 (counterexample): after adding `Jolly,20,slip,10,10000000000000000.00` the
record owes 1e16; a payment of 1 is accepted and the record still owes 1e16, not
9999999999999999, which is no double.  A payment of 0.01 for `jolly`, who owes 50,
leaves the double nearest to 49.99, which is not 50 less the double of 0.01. -/
theorem payment_lost_to_rounding :
    (run [] [Op.add (some bigLine)] =
        [⟨['J', 'o', 'l', 'l', 'y'], 20, PlaceType.slip, PlaceInfo.slipNumber 10,
          Double.fin false 10000000000000000⟩] ∧
      (1 : Double) = Double.fin false 1 ∧
      acceptPayment (run [] [Op.add (some bigLine)]) (some ['J', 'o', 'l', 'l', 'y'])
          (some 1) =
        (PaymentOutcome.accepted,
          [⟨['J', 'o', 'l', 'l', 'y'], 20, PlaceType.slip, PlaceInfo.slipNumber 10,
            Double.fin false 10000000000000000⟩]) ∧
      Double.ofRat (10000000000000000 - 1) = Double.fin false 10000000000000000) ∧
    (jolly.amountOwed = Double.fin false 50 ∧
      Double.ofRat 0.01 = Double.fin false (5764607523034235 / 576460752303423488) ∧
      acceptPayment [jolly] (some ['J', 'o', 'l', 'l', 'y']) (some (Double.ofRat 0.01)) =
        (PaymentOutcome.accepted,
          [⟨['J', 'o', 'l', 'l', 'y'], 20, PlaceType.slip, PlaceInfo.slipNumber 10,
            Double.ofRat 49.99⟩]) ∧
      Double.ofRat 49.99 = Double.fin false (7035467042882847 / 140737488355328) ∧
      (7035467042882847 / 140737488355328 : ℚ) ≠
        50 - 5764607523034235 / 576460752303423488) := by
  refine ⟨⟨by decide!, by decide!, by decide!, by decide!⟩,
    ⟨by decide!, by decide!, by decide!, by decide!, by norm_num⟩⟩

/-! ## C11: monthly charges -/

theorem monthlyCharge_eq (b : Boat) (hp : b.place ≠ PlaceType.no_place) :
    monthlyCharge b =
      ⟨b.name, b.length, b.place, b.info, Double.add b.amountOwed
        (Double.mul (Double.ofInt b.length) (Double.ofRat (ratePerFoot b.place)))⟩ := by
  obtain ⟨name, length, place, info, owed⟩ := b
  have e1 : (12.50 : ℚ) = 25 / 2 := by norm_num
  have e2 : (14.00 : ℚ) = 14 := by norm_num
  have e3 : (25.00 : ℚ) = 25 := by norm_num
  have e4 : (11.20 : ℚ) = 56 / 5 := by norm_num
  cases place with
  | slip => simp only [monthlyCharge, ratePerFoot, e1]
  | land => simp only [monthlyCharge, ratePerFoot, e2]
  | trailor => simp only [monthlyCharge, ratePerFoot, e3]
  | storage => simp only [monthlyCharge, ratePerFoot, e4]
  | no_place => exact absurd rfl hp

theorem pow2_1024_gt : (4096 : ℚ) < pow2 1024 := by
  have h1 : pow2 12 = 4096 := by
    rw [pow2_eq]
    norm_num
  have h2 := pow2_lt 12 1024 (by norm_num)
  rw [h1] at h2
  exact h2

theorem roundSigned_grid (neg : Bool) (m : Nat) (e : Int) (hm : m < 2 ^ 53) (he : -1074 ≤ e)
    (hlt : (m : ℚ) * pow2 e < pow2 1024) :
    roundSigned neg ((m : ℚ) * pow2 e) = Double.fin neg ((m : ℚ) * pow2 e) := by
  unfold roundSigned
  rw [roundMag_grid m e hm he, if_neg (not_le.2 hlt)]

theorem ofInt_length (l : Int) (h1 : 1 ≤ l) (h2 : l ≤ 100) :
    Double.ofInt l = Double.fin false (l : ℚ) := by
  lift l to Nat using (by omega) with n
  have hn : (n : ℚ) ≤ 100 := by exact_mod_cast h2
  have h := roundSigned_grid false n 0 (by omega) (by norm_num)
    (by
      have : pow2 0 = 1 := by rw [pow2_eq]; norm_num
      rw [this]
      linarith [pow2_1024_gt])
  have e0 : pow2 0 = 1 := by rw [pow2_eq]; norm_num
  rw [e0, mul_one] at h
  unfold Double.ofInt Double.ofRat
  rw [if_neg (by simp)]
  exact_mod_cast h

theorem charge_exact (l : Int) (m : Nat) (e : Int) (rate : ℚ) (h1 : 1 ≤ l) (h2 : l ≤ 100)
    (hrate : Double.ofRat rate = Double.fin false rate) (hm : rate = (m : ℚ) * pow2 e)
    (hm25 : rate ≤ 25) (hmb : m ≤ 25) (he : -1074 ≤ e) :
    Double.mul (Double.ofInt l) (Double.ofRat rate) = Double.fin false ((l : ℚ) * rate) := by
  rw [ofInt_length l h1 h2, hrate]
  simp only [Double.mul, Bool.xor_false]
  lift l to Nat using (by omega) with n
  have hn : (n : ℚ) ≤ 100 := by exact_mod_cast h2
  have hn1 : (1 : ℚ) ≤ (n : ℚ) := by exact_mod_cast h1
  have hn' : n ≤ 100 := by exact_mod_cast h2
  have e1 : ((n : Int) : ℚ) * rate = ((n * m : Nat) : ℚ) * pow2 e := by
    rw [hm]
    push_cast
    ring
  rw [e1]
  apply roundSigned_grid
  · have : n * m ≤ 100 * 25 := Nat.mul_le_mul hn' hmb
    omega
  · exact he
  · rw [← e1]
    have : ((n : Int) : ℚ) * rate ≤ 100 * 25 := by
      push_cast
      have hr0 : 0 ≤ rate := by
        rw [hm]
        exact mul_nonneg (Nat.cast_nonneg _) (le_of_lt (pow2_pos _))
      nlinarith
    linarith [pow2_1024_gt]

/-- C11 (as amended): `updateMonthlyCharges` keeps the number of records and replaces
every record of a kind other than `no_place`, in place, by the same record with
`amountOwed` replaced by the sum of doubles `amountOwed + length * rate`, where
`rate` is the double nearest to the rate per foot of the kind: 12.50, 14.00 and
25.00 are doubles, 11.20 is not and its double is
3152519739159347 / 281474976710656.  For slip, land and trailer and a length in
[1,100] the product `length * rate` is exactly the length times the rate; for
storage it is rounded.  A slip boat of length 30 owing 100.00 ends owing 475.00. -/
theorem monthly_charges_effect (boats : List Boat) (i : Nat) (b : Boat)
    (hb : boats[i]? = some b) :
    (updateMonthlyCharges boats).length = boats.length ∧
      (b.place ≠ PlaceType.no_place →
        (updateMonthlyCharges boats)[i]? = some ⟨b.name, b.length, b.place, b.info,
          Double.add b.amountOwed
            (Double.mul (Double.ofInt b.length) (Double.ofRat (ratePerFoot b.place)))⟩) ∧
      (b.place = PlaceType.no_place → (updateMonthlyCharges boats)[i]? = some b) ∧
      (Double.ofRat (ratePerFoot PlaceType.slip) = Double.fin false (25 / 2) ∧
        Double.ofRat (ratePerFoot PlaceType.land) = Double.fin false 14 ∧
        Double.ofRat (ratePerFoot PlaceType.trailor) = Double.fin false 25 ∧
        Double.ofRat (ratePerFoot PlaceType.storage) =
          Double.fin false (3152519739159347 / 281474976710656)) ∧
      (1 ≤ b.length → b.length ≤ 100 → b.place ≠ PlaceType.no_place →
        b.place ≠ PlaceType.storage →
        Double.mul (Double.ofInt b.length) (Double.ofRat (ratePerFoot b.place)) =
          Double.fin false ((b.length : ℚ) * ratePerFoot b.place)) ∧
      updateMonthlyCharges
          [⟨['J', 'o', 'l', 'l', 'y'], 30, PlaceType.slip, PlaceInfo.slipNumber 10, 100⟩] =
        [⟨['J', 'o', 'l', 'l', 'y'], 30, PlaceType.slip, PlaceInfo.slipNumber 10, 475⟩] := by
  have r1 : Double.ofRat (ratePerFoot PlaceType.slip) = Double.fin false (25 / 2) := by decide!
  have r2 : Double.ofRat (ratePerFoot PlaceType.land) = Double.fin false 14 := by decide!
  have r3 : Double.ofRat (ratePerFoot PlaceType.trailor) = Double.fin false 25 := by decide!
  have r4 : Double.ofRat (ratePerFoot PlaceType.storage) =
      Double.fin false (3152519739159347 / 281474976710656) := by decide!
  refine ⟨by simp [updateMonthlyCharges], ?_, ?_, ⟨r1, r2, r3, r4⟩, ?_, by decide!⟩
  · intro hp
    rw [updateMonthlyCharges, List.getElem?_map, hb, Option.map_some', monthlyCharge_eq b hp]
  · intro hp
    rw [updateMonthlyCharges, List.getElem?_map, hb, Option.map_some']
    simp only [monthlyCharge, hp]
  · intro h1 h2 hp hs
    have e1 : pow2 (-1) = 1 / 2 := by rw [pow2_eq]; norm_num
    have e0 : pow2 0 = 1 := by rw [pow2_eq]; norm_num
    cases hpl : b.place with
    | slip =>
      exact charge_exact b.length 25 (-1) _ h1 h2 r1 (by simp [ratePerFoot, e1]; norm_num)
        (by simp only [ratePerFoot]; norm_num) (by norm_num) (by norm_num)
    | land =>
      exact charge_exact b.length 14 0 _ h1 h2 r2 (by simp [ratePerFoot, e0])
        (by simp only [ratePerFoot]; norm_num) (by norm_num) (by norm_num)
    | trailor =>
      exact charge_exact b.length 25 0 _ h1 h2 r3 (by simp [ratePerFoot, e0])
        (by simp only [ratePerFoot]; norm_num) (by norm_num) (by norm_num)
    | storage => exact absurd hpl hs
    | no_place => exact absurd hpl hp

/-- C11 (witness): the charges of `jolly` (20 feet, slip, owing 50) and `molly` (30
feet, land, owing nothing) when both are stored: 300 and 420. -/
theorem monthly_charges_effect_witness :
    updateMonthlyCharges [jolly, molly] =
        [⟨['J', 'o', 'l', 'l', 'y'], 20, PlaceType.slip, PlaceInfo.slipNumber 10, 300⟩,
          ⟨['M', 'o', 'l', 'l', 'y'], 30, PlaceType.land, PlaceInfo.bayLetter 'B', 420⟩] ∧
      [jolly, molly][1]? = some molly ∧
      ((updateMonthlyCharges [jolly, molly]).length = [jolly, molly].length ∧
      (molly.place ≠ PlaceType.no_place →
        (updateMonthlyCharges [jolly, molly])[1]? = some ⟨molly.name, molly.length, molly.place,
          molly.info, Double.add molly.amountOwed
            (Double.mul (Double.ofInt molly.length) (Double.ofRat (ratePerFoot molly.place)))⟩) ∧
      (molly.place = PlaceType.no_place → (updateMonthlyCharges [jolly, molly])[1]? = some molly) ∧
      (Double.ofRat (ratePerFoot PlaceType.slip) = Double.fin false (25 / 2) ∧
        Double.ofRat (ratePerFoot PlaceType.land) = Double.fin false 14 ∧
        Double.ofRat (ratePerFoot PlaceType.trailor) = Double.fin false 25 ∧
        Double.ofRat (ratePerFoot PlaceType.storage) =
          Double.fin false (3152519739159347 / 281474976710656)) ∧
      (1 ≤ molly.length → molly.length ≤ 100 → molly.place ≠ PlaceType.no_place →
        molly.place ≠ PlaceType.storage →
        Double.mul (Double.ofInt molly.length) (Double.ofRat (ratePerFoot molly.place)) =
          Double.fin false ((molly.length : ℚ) * ratePerFoot molly.place)) ∧
      updateMonthlyCharges
          [⟨['J', 'o', 'l', 'l', 'y'], 30, PlaceType.slip, PlaceInfo.slipNumber 10, 100⟩] =
        [⟨['J', 'o', 'l', 'l', 'y'], 30, PlaceType.slip, PlaceInfo.slipNumber 10, 475⟩]) :=
  ⟨by decide!, rfl, monthly_charges_effect [jolly, molly] 1 molly rfl⟩

/-- C11 (counterexample): after adding `Tiny,3,storage,1,0.00` and a month of charges
the boat owes the double 1182194902184755 / 35184372088832, about
33.599999999999994: the product of 3 and the double of 11.20.  This is not 3 times
11.20, which is 33.6, and not the double nearest to 33.6 either. -/
theorem storage_charge_inexact :
    run [] [Op.add (some tinyLine)] =
        [⟨['T', 'i', 'n', 'y'], 3, PlaceType.storage, PlaceInfo.storageNumber 1, 0⟩] ∧
      run [] [Op.add (some tinyLine), Op.month] =
        [⟨['T', 'i', 'n', 'y'], 3, PlaceType.storage, PlaceInfo.storageNumber 1,
          Double.fin false (1182194902184755 / 35184372088832)⟩] ∧
      (1182194902184755 / 35184372088832 : ℚ) < 3 * ratePerFoot PlaceType.storage ∧
      Double.ofRat (3 * ratePerFoot PlaceType.storage) =
        Double.fin false (4728779608739021 / 140737488355328) ∧
      (1182194902184755 / 35184372088832 : ℚ) < 4728779608739021 / 140737488355328 := by
  refine ⟨by decide!, by decide!, ?_, by decide!, by norm_num⟩
  simp only [ratePerFoot]
  norm_num

/-! ## C12: `loadData` skips the lines it refuses -/

theorem loadLine_eq_build (line : List Char) (b : Boat) :
    loadLine line = Except.ok b ↔
      ∃ f, sscanfBoat line = some f ∧ b = buildBoat f ∧ storedValid b := by
  constructor
  · intro h
    have hv := loadLine_storedValid line b h
    unfold loadLine at h
    split at h
    · simp at h
    · rename_i f hf
      dsimp only at h
      split_ifs at h
      simp only [Except.ok.injEq] at h
      exact ⟨f, hf, h.symm, hv⟩
  · rintro ⟨f, hf, rfl, hv⟩
    obtain ⟨h1, h2, h3, h4⟩ := hv
    have hlen : validateLength f.length = true := by
      simp only [validateLength, Bool.and_eq_true, decide_eq_true_eq]
      exact ⟨h1, h2⟩
    have hplace : stringToPlaceType f.placeString ≠ PlaceType.no_place := h3
    have hinfo : validateBoatInfo (buildBoat f) = true := by
      revert h4
      unfold buildBoat
      cases hp : stringToPlaceType f.placeString <;>
        simp [validateBoatInfo, locationInRange]
    unfold loadLine
    simp only [hf, hlen, hplace, if_false, Bool.true_eq_false]
    unfold buildBoat at hinfo
    simp only [hinfo, Bool.true_eq_false, if_false]
    rfl

theorem loadLines_eq_filterMap (lines : List (List Char)) (boats : List Boat) :
    loadLines boats lines = boats ++ lines.filterMap (fun line => (loadLine line).toOption) := by
  induction lines generalizing boats with
  | nil => simp [loadLines]
  | cons line rest ih =>
    unfold loadLines
    cases h : loadLine line with
    | ok boat => simp [ih, List.filterMap_cons, h, Except.toOption]
    | error e => simp [ih, List.filterMap_cons, h, Except.toOption]

/-- C12: a line is stored exactly when it parses into five fields and the record
these describe has a length in [1,100], a known kind and a location detail in range;
the loop of `loadData` appends the records of exactly those lines, in order, whatever
lines come before or after them; `loadData` returns them sorted by name; and the file
with the lines `Jolly,20,slip,10,50.00` and `Molly,30,slip,99,0.00` loads one record. -/
theorem load_skips_bad_lines (boats : List Boat) (lines : List (List Char))
    (content : List Char) :
    (∀ (line : List Char) (b : Boat), loadLine line = Except.ok b ↔
      ∃ f, sscanfBoat line = some f ∧ b = buildBoat f ∧
        1 ≤ b.length ∧ b.length ≤ 100 ∧ b.place ≠ PlaceType.no_place ∧ locationInRange b) ∧
      loadLines boats lines =
        boats ++ lines.filterMap (fun line => (loadLine line).toOption) ∧
      loadData boats (some content) =
        sortBoats (boats ++ (fgetsLines content).filterMap (fun line => (loadLine line).toOption)) ∧
      (loadData boats (some content)).Perm
        (boats ++ (fgetsLines content).filterMap (fun line => (loadLine line).toOption)) ∧
      List.Pairwise (fun a b => strcasecmp a.name b.name ≤ 0) (loadData boats (some content)) ∧
      loadData [] (some slip99File) = [jolly] ∧
      (loadData [] (some slip99File)).length = 1 := by
  have h : loadData boats (some content) =
      sortBoats (boats ++ (fgetsLines content).filterMap (fun line => (loadLine line).toOption)) := by
    simp only [loadData, loadLines_eq_filterMap]
  refine ⟨fun line b => loadLine_eq_build line b, loadLines_eq_filterMap lines boats, h, ?_, ?_,
    by decide!, by decide!⟩
  · rw [h]
    exact sortBoats_perm _
  · rw [h]
    exact sortBoats_sorted _

/-! ## C13: an operation that reports an error changes nothing -/

theorem removeBoat_unchanged_or_removed (boats : List Boat) (input : Option (List Char)) :
    (removeBoat boats input).1 = RemoveOutcome.removed ∨ (removeBoat boats input).2 = boats := by
  unfold removeBoat
  repeat' split
  all_goals first | exact Or.inr rfl | exact Or.inl rfl

theorem acceptPayment_unchanged_or_accepted (boats : List Boat) (input : Option (List Char))
    (amount : Option Double) :
    (acceptPayment boats input amount).1 = PaymentOutcome.accepted ∨
      (acceptPayment boats input amount).2 = boats := by
  unfold acceptPayment
  repeat' split
  all_goals first | exact Or.inr rfl | exact Or.inl rfl

/-- C13: whenever `addBoat`, `removeBoat` or `acceptPayment` reports anything other
than success (input that cannot be read, malformed line, invalid length, duplicate
name, invalid slip, bay or storage number, unknown kind, capacity reached, name not
found, payment exceeding what is owed), the collection it returns is the collection
it was given: same records, same order, same count. -/
theorem error_leaves_collection (boats : List Boat) (input : Option (List Char))
    (amount : Option Double) :
    ((addBoat boats input).1 ≠ AddOutcome.added → (addBoat boats input).2 = boats) ∧
      ((removeBoat boats input).1 ≠ RemoveOutcome.removed →
        (removeBoat boats input).2 = boats) ∧
      ((acceptPayment boats input amount).1 ≠ PaymentOutcome.accepted →
        (acceptPayment boats input amount).2 = boats) :=
  ⟨fun h => (addBoat_unchanged_or_added boats input).resolve_left h,
    fun h => (removeBoat_unchanged_or_removed boats input).resolve_left h,
    fun h => (acceptPayment_unchanged_or_accepted boats input amount).resolve_left h⟩

/-- C13 (witness): on the collection holding `jolly`: adding `Jolly` again, removing
`Molly`, and a payment of 60 for `Jolly` (who owes 50). -/
theorem error_leaves_collection_witness :
    ((addBoat [jolly] (some jollyLine)).1 = AddOutcome.alreadyExists ∧
        (addBoat [jolly] (some jollyLine)).2 = [jolly]) ∧
      ((removeBoat [jolly] (some ['M', 'o', 'l', 'l', 'y'])).1 = RemoveOutcome.notFound ∧
        (removeBoat [jolly] (some ['M', 'o', 'l', 'l', 'y'])).2 = [jolly]) ∧
      ((acceptPayment [jolly] (some ['J', 'o', 'l', 'l', 'y']) (some 60)).1 =
          PaymentOutcome.exceedsOwed ∧
        (acceptPayment [jolly] (some ['J', 'o', 'l', 'l', 'y']) (some 60)).2 = [jolly]) :=
  ⟨⟨by decide, (error_leaves_collection [jolly] (some jollyLine) none).1 (by decide)⟩,
    ⟨by decide,
      (error_leaves_collection [jolly] (some ['M', 'o', 'l', 'l', 'y']) none).2.1 (by decide)⟩,
    ⟨by decide!,
      (error_leaves_collection [jolly] (some ['J', 'o', 'l', 'l', 'y']) (some 60)).2.2
        (by decide!)⟩⟩

/-! ## The amounts stored are doubles -/

theorem decimalValue_nonneg (m : Nat) (e : Int) : 0 ≤ decimalValue m e := by
  unfold decimalValue
  split_ifs
  · exact Nat.cast_nonneg _
  · rw [Rat.mkRat_eq_div]
    positivity

theorem scanDecimal_wellFormed (neg : Bool) (s : List Char) (d : Double)
    (h : scanDecimal neg s = some d) : d.wellFormed := by
  unfold scanDecimal at h
  simp only at h
  split_ifs at h
  simp only [Option.some.injEq] at h
  rw [← h]
  exact roundSigned_wellFormed _ _ (decimalValue_nonneg _ _)

theorem fin_zero_wellFormed (neg : Bool) : (Double.fin neg 0).wellFormed :=
  ⟨le_refl _, roundMag_zero, pow2_pos 1024⟩

theorem scanHex_wellFormed (neg : Bool) (s : List Char) (d : Double)
    (h : scanHex neg s = some d) : d.wellFormed := by
  unfold scanHex at h
  simp only at h
  split at h
  · split_ifs at h
    simp only [Option.some.injEq] at h
    rw [← h]
    exact roundSigned_wellFormed _ _ (Nat.cast_nonneg _)
  · split_ifs at h
    · simp only [Option.some.injEq] at h
      rw [← h]
      exact fin_zero_wellFormed neg
    · simp only [Option.some.injEq] at h
      rw [← h]
      exact roundSigned_wellFormed _ _
        (mul_nonneg (Nat.cast_nonneg _) (le_of_lt (pow2_pos _)))
    · simp only [Option.some.injEq] at h
      rw [← h]
      exact roundSigned_wellFormed _ _
        (mul_nonneg (Nat.cast_nonneg _) (le_of_lt (pow2_pos _)))

theorem scanDouble_wellFormed (s : List Char) (d : Double) (h : scanDouble s = some d) :
    d.wellFormed := by
  unfold scanDouble at h
  split at h
  · simp at h
  · split_ifs at h
    · split at h
      · simp at h
      · simp only [Option.some.injEq] at h
        rw [← h]
        trivial
    · split at h
      · simp at h
      · simp only [Option.some.injEq] at h
        rw [← h]
        trivial
      · split_ifs at h
        · split at h
          · simp at h
          · simp only [Option.some.injEq] at h
            rw [← h]
            trivial
        · simp only [Option.some.injEq] at h
          rw [← h]
          trivial
    · exact scanHex_wellFormed _ _ d h
    · exact scanDecimal_wellFormed _ _ d h

theorem sscanfBoat_wellFormed (line : List Char) (f : ScannedLine)
    (h : sscanfBoat line = some f) : f.amountOwed.wellFormed := by
  unfold sscanfBoat at h
  repeat' split at h
  all_goals first
    | (simp at h; done)
    | (rename_i d hd
       simp only [Option.some.injEq] at h
       rw [← h]
       exact scanDouble_wellFormed _ d hd)

theorem loadLine_wellFormed (line : List Char) (b : Boat) (h : loadLine line = Except.ok b) :
    b.amountOwed.wellFormed := by
  unfold loadLine at h
  split at h
  · simp at h
  · rename_i f hf
    dsimp only at h
    split_ifs at h
    simp only [Except.ok.injEq] at h
    rw [← h]
    exact sscanfBoat_wellFormed line f hf

theorem loadLines_wellFormed (lines : List (List Char)) (boats : List Boat)
    (h : ∀ b ∈ boats, b.amountOwed.wellFormed) :
    ∀ b ∈ loadLines boats lines, b.amountOwed.wellFormed := by
  induction lines generalizing boats with
  | nil => exact h
  | cons line rest ih =>
    unfold loadLines
    split
    · rename_i boat hb
      apply ih
      intro b hmem
      rcases List.mem_append.1 hmem with hmem | hmem
      · exact h b hmem
      · simp only [List.mem_singleton] at hmem
        subst hmem
        exact loadLine_wellFormed line b hb
    · exact ih boats h

theorem addBoat_wellFormed (boats : List Boat) (input : Option (List Char))
    (h : ∀ b ∈ boats, b.amountOwed.wellFormed) :
    ∀ b ∈ (addBoat boats input).2, b.amountOwed.wellFormed := by
  rcases hr : addBoat boats input with ⟨out, boats'⟩
  by_cases ho : out = AddOutcome.added
  · subst ho
    obtain ⟨line, f, nb, _, hf, _, _, _, _, _, howed, _, hb⟩ := addBoat_added boats input boats' hr
    intro b hmem
    simp only at hmem
    rw [hb, sortBoats_mem, List.mem_append] at hmem
    rcases hmem with hmem | hmem
    · exact h b hmem
    · simp only [List.mem_singleton] at hmem
      subst hmem
      rw [howed]
      exact sscanfBoat_wellFormed line f hf
  · have := (addBoat_unchanged_or_added boats input).resolve_left (by rw [hr]; exact ho)
    rw [hr] at this
    simp only at this ⊢
    rw [this]
    exact h

theorem removeBoat_wellFormed (boats : List Boat) (input : Option (List Char))
    (h : ∀ b ∈ boats, b.amountOwed.wellFormed) :
    ∀ b ∈ (removeBoat boats input).2, b.amountOwed.wellFormed := by
  unfold removeBoat
  repeat' split
  all_goals first
    | exact h
    | (intro b hb
       rw [sortBoats_mem] at hb
       exact h b (List.mem_of_mem_eraseIdx hb))

theorem acceptPayment_wellFormed (boats : List Boat) (input : Option (List Char))
    (amount : Option Double) (h : ∀ b ∈ boats, b.amountOwed.wellFormed) :
    ∀ b ∈ (acceptPayment boats input amount).2, b.amountOwed.wellFormed := by
  unfold acceptPayment
  repeat' split
  all_goals first
    | exact h
    | (intro b hmem
       rcases List.mem_or_eq_of_mem_set hmem with hmem | hmem
       · exact h b hmem
       · subst hmem
         exact sub_wellFormed _ _)

theorem monthlyCharge_wellFormed (b : Boat) (h : b.amountOwed.wellFormed) :
    (monthlyCharge b).amountOwed.wellFormed := by
  unfold monthlyCharge
  split
  · exact add_wellFormed _ _
  · exact add_wellFormed _ _
  · exact add_wellFormed _ _
  · exact add_wellFormed _ _
  · exact h

theorem step_wellFormed (boats : List Boat) (op : Op)
    (h : ∀ b ∈ boats, b.amountOwed.wellFormed) :
    ∀ b ∈ step boats op, b.amountOwed.wellFormed := by
  cases op with
  | load file =>
    cases file with
    | none => exact h
    | some content =>
      intro b hb
      simp only [step, loadData, sortBoats_mem] at hb
      exact loadLines_wellFormed _ boats h b hb
  | add input => exact addBoat_wellFormed boats input h
  | remove input => exact removeBoat_wellFormed boats input h
  | payment input amount => exact acceptPayment_wellFormed boats input amount h
  | month =>
    intro b hb
    simp only [step, updateMonthlyCharges, List.mem_map] at hb
    obtain ⟨a, ha, rfl⟩ := hb
    exact monthlyCharge_wellFormed a (h a ha)

theorem run_wellFormed (boats : List Boat) (ops : List Op)
    (h : ∀ b ∈ boats, b.amountOwed.wellFormed) :
    ∀ b ∈ run boats ops, b.amountOwed.wellFormed := by
  induction ops generalizing boats with
  | nil => exact h
  | cons op ops ih => exact ih (step boats op) (step_wellFormed boats op h)

/-! ## C14: how the amount owed moves -/

theorem acceptPayment_getElem (boats : List Boat) (input : Option (List Char)) (amount : Double)
    (i : Nat) (b c : Boat) (hb : boats[i]? = some b)
    (hc : (acceptPayment boats input (some amount)).2[i]? = some c) :
    c = b ∨ c = ⟨b.name, b.length, b.place, b.info, Double.sub b.amountOwed amount⟩ := by
  unfold acceptPayment at hc
  split at hc
  · left
    rw [hb] at hc
    exact (Option.some.inj hc).symm
  · split_ifs at hc
    · left
      rw [hb] at hc
      exact (Option.some.inj hc).symm
    · split at hc
      · left
        rw [hb] at hc
        exact (Option.some.inj hc).symm
      · rename_i boat hboat
        dsimp only at hc
        split_ifs at hc
        · left
          rw [hb] at hc
          exact (Option.some.inj hc).symm
        · rw [List.getElem?_set] at hc
          split_ifs at hc with hidx hlt
          · right
            rw [hidx, hb] at hboat
            cases hboat
            exact (Option.some.inj hc).symm
          · left
            rw [hb] at hc
            exact (Option.some.inj hc).symm

theorem roundSigned_small (neg : Bool) (x : ℚ) (h0 : 0 ≤ x) (h1 : x ≤ 4096) :
    roundSigned neg x = Double.fin neg (roundMag x) ∧ 0 ≤ roundMag x := by
  have hm := roundMag_mono x 4096 h0 h1
  have hg : roundMag 4096 = 4096 := by
    have := roundMag_grid 1 12 (by norm_num) (by norm_num)
    have e : pow2 12 = 4096 := by rw [pow2_eq]; norm_num
    rw [e] at this
    simpa using this
  rw [hg] at hm
  unfold roundSigned
  rw [if_neg (not_le.2 (lt_of_le_of_lt hm pow2_1024_gt))]
  exact ⟨rfl, roundMag_nonneg x h0⟩

theorem charge_fin (b : Boat) (h : storedValid b) :
    ∃ m, 0 ≤ m ∧ Double.mul (Double.ofInt b.length) (Double.ofRat (ratePerFoot b.place)) =
      Double.fin false m := by
  obtain ⟨h1, h2, _, _⟩ := h
  have hl0 : (0 : ℚ) ≤ (b.length : ℚ) := by exact_mod_cast (by omega : (0 : Int) ≤ b.length)
  have hl100 : (b.length : ℚ) ≤ 100 := by exact_mod_cast h2
  have hr : ∃ r, 0 ≤ r ∧ r ≤ 25 ∧ Double.ofRat (ratePerFoot b.place) = Double.fin false r := by
    cases b.place with
    | slip => exact ⟨25 / 2, by norm_num, by norm_num, by decide!⟩
    | land => exact ⟨14, by norm_num, by norm_num, by decide!⟩
    | trailor => exact ⟨25, by norm_num, by norm_num, by decide!⟩
    | storage =>
      exact ⟨3152519739159347 / 281474976710656, by norm_num, by norm_num, by decide!⟩
    | no_place => exact ⟨0, by norm_num, by norm_num, by decide!⟩
  obtain ⟨r, hr0, hr25, hr⟩ := hr
  rw [ofInt_length b.length h1 h2, hr]
  simp only [Double.mul, Bool.xor_false]
  obtain ⟨e, hpos⟩ := roundSigned_small false ((b.length : ℚ) * r) (mul_nonneg hl0 hr0)
    (by nlinarith)
  exact ⟨_, hpos, e⟩

theorem monthlyCharge_owed_le (b : Boat) (h : storedValid b) (hw : b.amountOwed.wellFormed)
    (hn : b.amountOwed.isNumber = true) :
    Double.le b.amountOwed (monthlyCharge b).amountOwed = true := by
  rw [monthlyCharge_eq b h.2.2.1]
  obtain ⟨m, hm, e⟩ := charge_fin b h
  simp only
  rw [e]
  exact le_add_self b.amountOwed m hw hn hm

theorem addBoat_subperm (boats : List Boat) (input : Option (List Char)) :
    boats.Subperm (addBoat boats input).2 := by
  rcases h : addBoat boats input with ⟨out, boats'⟩
  by_cases ho : out = AddOutcome.added
  · subst ho
    obtain ⟨_, _, nb, _, _, _, _, _, _, _, _, _, hb⟩ := addBoat_added boats input boats' h
    simp only
    rw [hb]
    exact (List.sublist_append_left boats [nb]).subperm.trans (sortBoats_perm _).symm.subperm
  · have := (addBoat_unchanged_or_added boats input).resolve_left (by rw [h]; exact ho)
    rw [h] at this
    simp only at this ⊢
    rw [this]

theorem removeBoat_subperm (boats : List Boat) (input : Option (List Char)) :
    (removeBoat boats input).2.Subperm boats := by
  unfold removeBoat
  repeat' split
  all_goals first
    | exact List.Subperm.refl _
    | exact (sortBoats_perm _).subperm.trans (List.eraseIdx_sublist _ _).subperm

theorem loadData_subperm (boats : List Boat) (file : Option (List Char)) :
    boats.Subperm (loadData boats file) := by
  cases file with
  | none => exact List.Subperm.refl _
  | some content =>
    simp only [loadData, loadLines_eq_filterMap]
    exact (List.sublist_append_left boats _).subperm.trans (sortBoats_perm _).symm.subperm

/-- C14 (as amended): in every collection reached from the empty one, a payment of a
finite amount that is not negative leaves every record whose amount owed is a number
(not a NaN) owing at most what it owed; monthly charges leave every such record
owing at least what it owed; and load, add and remove do not touch the records they
keep: every record stored before a load or an add is still there unchanged, and
every record left by a remove was there before. -/
theorem owed_monotone (ops : List Op) (input : Option (List Char)) (amount : Double)
    (file : Option (List Char)) :
    (amount.isFinite = true → Double.le 0 amount = true →
      ∀ (i : Nat) (b c : Boat), (run [] ops)[i]? = some b →
        (acceptPayment (run [] ops) input (some amount)).2[i]? = some c →
        b.amountOwed.isNumber = true → Double.le c.amountOwed b.amountOwed = true) ∧
    (∀ (i : Nat) (b c : Boat), (run [] ops)[i]? = some b →
      (updateMonthlyCharges (run [] ops))[i]? = some c →
      b.amountOwed.isNumber = true → Double.le b.amountOwed c.amountOwed = true) ∧
    (run [] ops).Subperm (loadData (run [] ops) file) ∧
    (run [] ops).Subperm (addBoat (run [] ops) input).2 ∧
    (removeBoat (run [] ops) input).2.Subperm (run [] ops) := by
  have hnil : ∀ b ∈ ([] : List Boat), b.amountOwed.wellFormed :=
    fun _ h => absurd h (List.not_mem_nil _)
  refine ⟨?_, ?_, loadData_subperm _ file, addBoat_subperm _ input, removeBoat_subperm _ input⟩
  · intro hf h0 i b c hb hc hn
    have hw := run_wellFormed [] ops hnil b (List.getElem?_mem hb)
    rcases acceptPayment_getElem _ input amount i b c hb hc with h | h
    · rw [h]
      exact le_self_of_isNumber _ hn
    · rw [h]
      exact sub_le_self b.amountOwed amount hw hn hf h0
  · intro i b c hb hc hn
    simp only [updateMonthlyCharges, List.getElem?_map, hb, Option.map_some',
      Option.some.injEq] at hc
    rw [← hc]
    exact monthlyCharge_owed_le b
      (run_storedValid [] ops (fun _ h => absurd h (List.not_mem_nil _)) b (List.getElem?_mem hb))
      (run_wellFormed [] ops hnil b (List.getElem?_mem hb)) hn

/-- C14 (witness): after adding `Jolly,20,slip,10,50.00`, a payment of 20 leaves
`Jolly` owing 30, which is at most 50. -/
theorem owed_monotone_witness :
    (20 : Double).isFinite = true ∧ Double.le 0 20 = true ∧
      (run [] [Op.add (some jollyLine)])[0]? = some jolly ∧
      (acceptPayment (run [] [Op.add (some jollyLine)]) (some ['J', 'o', 'l', 'l', 'y'])
        (some 20)).2[0]? =
        some ⟨['J', 'o', 'l', 'l', 'y'], 20, PlaceType.slip, PlaceInfo.slipNumber 10, 30⟩ ∧
      jolly.amountOwed.isNumber = true ∧ Double.le 30 jolly.amountOwed = true :=
  ⟨by decide!, by decide!, by decide!, by decide!, by decide!,
    (owed_monotone [Op.add (some jollyLine)] (some ['J', 'o', 'l', 'l', 'y']) 20 none).1
      (by decide!) (by decide!) 0 jolly
      ⟨['J', 'o', 'l', 'l', 'y'], 20, PlaceType.slip, PlaceInfo.slipNumber 10, 30⟩
      (by decide!) (by decide!) (by decide!)⟩

/-- C14 (counterexample): after adding `Jolly,20,slip,10,50.00`, a payment of -10 is
accepted and `Jolly` owes 60 instead of 50.  After adding `Jolly,20,slip,10,nan` the
amount owed is a NaN: a payment of 5 is accepted and a month of charges applied, and
each time the amount owed is a NaN again, neither at most nor at least what it was.
After adding `Jolly,20,slip,10,inf` a payment of `inf` is accepted and leaves a NaN. -/
theorem accepted_payment_raises_owed :
    (run [] [Op.add (some jollyLine)] = [jolly] ∧
      acceptPayment (run [] [Op.add (some jollyLine)]) (some ['J', 'o', 'l', 'l', 'y'])
          (some (-10)) =
        (PaymentOutcome.accepted,
          [⟨['J', 'o', 'l', 'l', 'y'], 20, PlaceType.slip, PlaceInfo.slipNumber 10, 60⟩]) ∧
      jolly.amountOwed = 50 ∧ Double.le 60 50 = false) ∧
    (run [] [Op.add (some nanLine)] =
        [⟨['J', 'o', 'l', 'l', 'y'], 20, PlaceType.slip, PlaceInfo.slipNumber 10,
          Double.nan false⟩] ∧
      acceptPayment (run [] [Op.add (some nanLine)]) (some ['J', 'o', 'l', 'l', 'y'])
          (some 5) =
        (PaymentOutcome.accepted,
          [⟨['J', 'o', 'l', 'l', 'y'], 20, PlaceType.slip, PlaceInfo.slipNumber 10,
            Double.nan false⟩]) ∧
      updateMonthlyCharges (run [] [Op.add (some nanLine)]) =
        [⟨['J', 'o', 'l', 'l', 'y'], 20, PlaceType.slip, PlaceInfo.slipNumber 10,
          Double.nan false⟩] ∧
      Double.le (Double.nan false) (Double.nan false) = false) ∧
    (run [] [Op.add (some infLine)] =
        [⟨['J', 'o', 'l', 'l', 'y'], 20, PlaceType.slip, PlaceInfo.slipNumber 10,
          Double.inf false⟩] ∧
      acceptPayment (run [] [Op.add (some infLine)]) (some ['J', 'o', 'l', 'l', 'y'])
          (some (Double.inf false)) =
        (PaymentOutcome.accepted,
          [⟨['J', 'o', 'l', 'l', 'y'], 20, PlaceType.slip, PlaceInfo.slipNumber 10,
            Double.nan true⟩]) ∧
      Double.le (Double.nan true) (Double.inf false) = false) :=
  ⟨⟨by decide!, by decide!, rfl, by decide!⟩,
    ⟨by decide!, by decide!, by decide!, rfl⟩,
    ⟨by decide!, by decide!, rfl⟩⟩

/-! ## C15: the names of the kinds -/

theorem tolower_eq_zero (n : Nat) : tolower n = 0 ↔ n = 0 := by
  unfold tolower
  split_ifs with h
  · exact ⟨fun h0 => h0.elim, fun h0 => by omega⟩
  · exact Iff.rfl

theorem toNat_eq_zero (c : Char) : c.toNat = 0 ↔ c = NUL := by
  constructor
  · intro h
    have := Char.ofNat_toNat c
    rw [h] at this
    exact this.symm
  · intro h
    rw [h]
    rfl

theorem caseFold_nil : caseFold [] = [] := rfl

theorem caseFold_cons (c : Char) (s : List Char) :
    caseFold (c :: s) = if c.toNat = 0 then [] else tolower c.toNat :: caseFold s := by
  unfold caseFold cstr
  by_cases h : c.toNat = 0
  · have : c = NUL := (toNat_eq_zero c).1 h
    subst this
    simp [h]
  · have : c ≠ NUL := fun hc => h ((toNat_eq_zero c).2 hc)
    simp [h, this]

theorem strcasecmp_eq_zero_iff (a b : List Char) :
    strcasecmp a b = 0 ↔ caseFold a = caseFold b := by
  induction a generalizing b with
  | nil =>
    cases b with
    | nil => simp [strcasecmp]
    | cons c2 s2 =>
      have := tolower_eq_zero c2.toNat
      simp only [strcasecmp, caseFold_nil, caseFold_cons]
      split_ifs with h
      · simp only [iff_true]
        omega
      · simp only [List.nil_eq, reduceCtorEq, iff_false]
        omega
  | cons c1 s1 ih =>
    have h1 := tolower_eq_zero c1.toNat
    cases b with
    | nil =>
      simp only [strcasecmp, caseFold_nil, caseFold_cons]
      split_ifs with h
      · simp only [iff_true]
        omega
      · simp only [reduceCtorEq, iff_false]
        omega
    | cons c2 s2 =>
      have h2 := tolower_eq_zero c2.toNat
      simp only [strcasecmp, caseFold_cons]
      by_cases ha : c1.toNat = 0
      · have ha' : tolower c1.toNat = 0 := h1.2 ha
        rw [if_pos ha', if_pos ha]
        by_cases hb : c2.toNat = 0
        · have hb' : tolower c2.toNat = 0 := h2.2 hb
          rw [if_pos hb, hb']
          simp
        · have hb' : tolower c2.toNat ≠ 0 := fun h => hb (h2.1 h)
          rw [if_neg hb]
          exact ⟨fun h => by omega, fun h => by cases h⟩
      · have ha' : tolower c1.toNat ≠ 0 := fun h => ha (h1.1 h)
        rw [if_neg ha', if_neg ha]
        by_cases hb : c2.toNat = 0
        · have hb' : tolower c2.toNat = 0 := h2.2 hb
          have hne : tolower c1.toNat ≠ tolower c2.toNat := by omega
          rw [if_neg hne, if_pos hb]
          exact ⟨fun h => by omega, fun h => by cases h⟩
        · rw [if_neg hb]
          by_cases he : tolower c1.toNat = tolower c2.toNat
          · rw [if_pos he, ih s2, he]
            simp
          · rw [if_neg he]
            refine ⟨fun h => by omega, fun h => ?_⟩
            simp only [List.cons.injEq] at h
            exact absurd h.1 he

theorem caseFold_slip : caseFold ['s', 'l', 'i', 'p'] = [115, 108, 105, 112] := by decide

theorem caseFold_land : caseFold ['l', 'a', 'n', 'd'] = [108, 97, 110, 100] := by decide

theorem caseFold_trailor :
    caseFold ['t', 'r', 'a', 'i', 'l', 'o', 'r'] = [116, 114, 97, 105, 108, 111, 114] := by
  decide

theorem caseFold_storage :
    caseFold ['s', 't', 'o', 'r', 'a', 'g', 'e'] = [115, 116, 111, 114, 97, 103, 101] := by
  decide

theorem stringToPlaceType_iff (s : List Char) :
    (stringToPlaceType s = PlaceType.slip ↔ caseFold s = [115, 108, 105, 112]) ∧
      (stringToPlaceType s = PlaceType.land ↔ caseFold s = [108, 97, 110, 100]) ∧
      (stringToPlaceType s = PlaceType.trailor ↔
        caseFold s = [116, 114, 97, 105, 108, 111, 114]) ∧
      (stringToPlaceType s = PlaceType.storage ↔
        caseFold s = [115, 116, 111, 114, 97, 103, 101]) ∧
      (stringToPlaceType s = PlaceType.no_place ↔
        caseFold s ≠ [115, 108, 105, 112] ∧ caseFold s ≠ [108, 97, 110, 100] ∧
          caseFold s ≠ [116, 114, 97, 105, 108, 111, 114] ∧
          caseFold s ≠ [115, 116, 111, 114, 97, 103, 101]) := by
  unfold stringToPlaceType
  simp only [strcasecmp_eq_zero_iff, caseFold_slip, caseFold_land, caseFold_trailor,
    caseFold_storage]
  split_ifs with h1 h2 h3 h4 <;> simp_all

theorem addBoat_no_place (boats : List Boat) (line : List Char) (f : ScannedLine)
    (hf : sscanfBoat line = some f) (hp : stringToPlaceType f.placeString = PlaceType.no_place) :
    (addBoat boats (some line)).1 ≠ AddOutcome.added ∧ (addBoat boats (some line)).2 = boats := by
  unfold addBoat
  simp only [hf, hp]
  split_ifs <;> simp

theorem loadLine_no_place (line : List Char) (f : ScannedLine)
    (hf : sscanfBoat line = some f) (hp : stringToPlaceType f.placeString = PlaceType.no_place)
    (b : Boat) : loadLine line ≠ Except.ok b := by
  intro h
  obtain ⟨g, hg, hb, hv⟩ := (loadLine_eq_build line b).1 h
  rw [hf] at hg
  cases hg
  rw [hb] at hv
  exact hv.2.2.1 hp

/-- C15: `stringToPlaceType` returns `slip`, `land`, `trailor` or `storage` exactly
when its argument, with upper-case letters folded to lower case, is that word, and
`no_place` exactly when it is none of the four; and a line whose kind field gives
`no_place` is stored neither by `loadData` nor by `addBoat`. -/
theorem kind_name_matching (s line : List Char) (f : ScannedLine) (boats : List Boat) :
    (stringToPlaceType s = PlaceType.slip ↔ caseFold s = caseFold ['s', 'l', 'i', 'p']) ∧
      (stringToPlaceType s = PlaceType.land ↔ caseFold s = caseFold ['l', 'a', 'n', 'd']) ∧
      (stringToPlaceType s = PlaceType.trailor ↔
        caseFold s = caseFold ['t', 'r', 'a', 'i', 'l', 'o', 'r']) ∧
      (stringToPlaceType s = PlaceType.storage ↔
        caseFold s = caseFold ['s', 't', 'o', 'r', 'a', 'g', 'e']) ∧
      (stringToPlaceType s = PlaceType.no_place ↔
        caseFold s ≠ caseFold ['s', 'l', 'i', 'p'] ∧ caseFold s ≠ caseFold ['l', 'a', 'n', 'd'] ∧
          caseFold s ≠ caseFold ['t', 'r', 'a', 'i', 'l', 'o', 'r'] ∧
          caseFold s ≠ caseFold ['s', 't', 'o', 'r', 'a', 'g', 'e']) ∧
      (sscanfBoat line = some f → stringToPlaceType f.placeString = PlaceType.no_place →
        (∀ b, loadLine line ≠ Except.ok b) ∧ loadLines boats [line] = boats ∧
          (addBoat boats (some line)).1 ≠ AddOutcome.added ∧
          (addBoat boats (some line)).2 = boats) := by
  rw [caseFold_slip, caseFold_land, caseFold_trailor, caseFold_storage]
  obtain ⟨h1, h2, h3, h4, h5⟩ := stringToPlaceType_iff s
  refine ⟨h1, h2, h3, h4, h5, ?_⟩
  intro hf hp
  have hl := loadLine_no_place line f hf hp
  refine ⟨hl, ?_, addBoat_no_place boats line f hf hp⟩
  unfold loadLines
  cases h : loadLine line with
  | ok b => exact absurd h (hl b)
  | error e => simp [loadLines]

/-- C15 (witness): the line `Jolly,20,dock,10,50.00` on the empty collection. -/
theorem kind_name_matching_witness :
    sscanfBoat dockLine =
        some ⟨['J', 'o', 'l', 'l', 'y'], 20, ['d', 'o', 'c', 'k'], ['1', '0'], 50⟩ ∧
      stringToPlaceType ['d', 'o', 'c', 'k'] = PlaceType.no_place ∧
      ((∀ b, loadLine dockLine ≠ Except.ok b) ∧ loadLines [] [dockLine] = [] ∧
        (addBoat [] (some dockLine)).1 ≠ AddOutcome.added ∧
        (addBoat [] (some dockLine)).2 = []) :=
  ⟨by decide!, by decide,
    (kind_name_matching [] dockLine
      ⟨['J', 'o', 'l', 'l', 'y'], 20, ['d', 'o', 'c', 'k'], ['1', '0'], 50⟩ []).2.2.2.2.2
      (by decide!) (by decide)⟩

/-! ## C16: negative payments -/

theorem acceptPayment_found (boats : List Boat) (name : List Char) (amount : Double)
    (h : findBoatByName boats name ≠ -1) :
    ∃ (i : Nat) (r : Boat), findBoatByName boats name = (i : Int) ∧ boats[i]? = some r ∧
      acceptPayment boats (some name) (some amount) =
        if Double.gt amount r.amountOwed = true then (PaymentOutcome.exceedsOwed, boats)
        else (PaymentOutcome.accepted,
          boats.set i ⟨r.name, r.length, r.place, r.info, Double.sub r.amountOwed amount⟩) := by
  obtain ⟨i, r, h1, h2, _, _⟩ := findBoatByName_found boats name h
  have hidx : (findBoatByName boats name).toNat = i := by
    rw [h1]
    simp
  refine ⟨i, r, h1, h2, ?_⟩
  simp only [acceptPayment, h, hidx, h2, if_false]

theorem negative_not_gt (amount owed : Double) (hneg : Double.lt amount 0 = true)
    (h0 : Double.le 0 owed = true) : Double.gt amount owed = false := by
  rw [zero_double] at hneg h0
  cases amount <;> cases owed <;>
    simp only [Double.gt, Double.lt, Double.le, decide_eq_true_eq, decide_eq_false_iff_not,
      Bool.not_eq_true', Bool.not_eq_false', not_lt] at hneg h0 ⊢ <;>
    first
      | linarith
      | simp_all

theorem lt_sub_of_rel (owed amount : Double) (hw : owed.wellFormed) (hwa : amount.wellFormed)
    (hneg : Double.lt amount 0 = true) (hfa : amount.isFinite = true)
    (hfo : owed.isFinite = true) (hrel : owed.mag * pow2 (-52) ≤ amount.mag) :
    Double.lt owed (Double.sub owed amount) = true := by
  rw [zero_double] at hneg
  cases amount with
  | inf t => simp [Double.isFinite] at hfa
  | nan t => simp [Double.isFinite] at hfa
  | fin t b =>
    cases owed with
    | inf s => simp [Double.isFinite] at hfo
    | nan s => simp [Double.isFinite] at hfo
    | fin s a =>
      simp only [Double.lt, decide_eq_true_eq, signedValue_zero] at hneg
      have ht : t = true := by
        cases t
        · simp only [signedValue, Bool.false_eq_true, if_false] at hneg
          exact absurd hwa.1 (not_le.2 hneg)
        · rfl
      subst ht
      simp only [signedValue, if_true] at hneg
      exact lt_sub_negative s a b hw hwa (by linarith) hrel

/-- C16 (as amended): when the name is found at a record `r` and the amount paid is
negative and finite, the payment is accepted unless the amount exceeds
`r.amountOwed`, which cannot happen when `r.amountOwed` is zero or more; `r` then
owes the difference `r.amountOwed - amount` of doubles, which is at least what it
owed when that was a number, and strictly more when that was finite and the amount
is, in magnitude, at least `2 ^ (-52)` times it (a smaller amount may be lost to
rounding); a negative amount that exceeds a negative amount owed is refused and
nothing changes. -/
theorem negative_payment (boats : List Boat) (name : List Char) (amount : Double)
    (hneg : Double.lt amount 0 = true) (hfin : amount.isFinite = true)
    (hwa : amount.wellFormed) (hwb : ∀ b ∈ boats, b.amountOwed.wellFormed)
    (h : findBoatByName boats name ≠ -1) :
    ∃ (i : Nat) (r : Boat), findBoatByName boats name = (i : Int) ∧ boats[i]? = some r ∧
      (Double.le 0 r.amountOwed = true → Double.gt amount r.amountOwed = false) ∧
      (Double.gt amount r.amountOwed = false →
        ∃ boats' r', acceptPayment boats (some name) (some amount) =
            (PaymentOutcome.accepted, boats') ∧
          boats'[i]? = some r' ∧ r'.amountOwed = Double.sub r.amountOwed amount ∧
          (r.amountOwed.isNumber = true → Double.le r.amountOwed r'.amountOwed = true) ∧
          (r.amountOwed.isFinite = true → r.amountOwed.mag * pow2 (-52) ≤ amount.mag →
            Double.lt r.amountOwed r'.amountOwed = true)) ∧
      (Double.gt amount r.amountOwed = true →
        acceptPayment boats (some name) (some amount) = (PaymentOutcome.exceedsOwed, boats)) := by
  obtain ⟨i, r, h1, h2, h3⟩ := acceptPayment_found boats name amount h
  have hi : i < boats.length := (List.getElem?_eq_some.1 h2).1
  have hw := hwb r (List.getElem?_mem h2)
  have hle0 : Double.le amount 0 = true := by
    rw [zero_double] at hneg ⊢
    cases amount with
    | inf t => simp [Double.isFinite] at hfin
    | nan t => simp [Double.isFinite] at hfin
    | fin t b =>
      simp only [Double.lt, Double.le, decide_eq_true_eq] at hneg ⊢
      exact le_of_lt hneg
  refine ⟨i, r, h1, h2, negative_not_gt amount r.amountOwed hneg, ?_, ?_⟩
  · intro hle
    rw [if_neg (by simp [hle])] at h3
    refine ⟨_, ⟨r.name, r.length, r.place, r.info, Double.sub r.amountOwed amount⟩, h3, ?_, rfl,
      ?_, ?_⟩
    · simp [hi]
    · intro hn
      exact self_le_sub r.amountOwed amount hw hn hfin hle0
    · intro hfo hrel
      exact lt_sub_of_rel r.amountOwed amount hw hwa hneg hfin hfo hrel
  · intro hgt
    rw [if_pos hgt] at h3
    exact h3

/-- C16 (witness): a payment of -10 for `jolly`, who owes 50, is accepted and leaves 60. -/
theorem negative_payment_witness :
    Double.lt (-10) 0 = true ∧ (-10 : Double).isFinite = true ∧ (-10 : Double).wellFormed ∧
      (∀ b ∈ [jolly], b.amountOwed.wellFormed) ∧
      findBoatByName [jolly] ['J', 'o', 'l', 'l', 'y'] ≠ -1 ∧
      acceptPayment [jolly] (some ['J', 'o', 'l', 'l', 'y']) (some (-10)) =
        (PaymentOutcome.accepted,
          [⟨['J', 'o', 'l', 'l', 'y'], 20, PlaceType.slip, PlaceInfo.slipNumber 10, 60⟩]) ∧
      Double.lt 50 60 = true ∧
      ∃ (i : Nat) (r : Boat), findBoatByName [jolly] ['J', 'o', 'l', 'l', 'y'] = (i : Int) ∧
        [jolly][i]? = some r ∧
        (Double.le 0 r.amountOwed = true → Double.gt (-10) r.amountOwed = false) ∧
        (Double.gt (-10) r.amountOwed = false →
          ∃ boats' r', acceptPayment [jolly] (some ['J', 'o', 'l', 'l', 'y']) (some (-10)) =
              (PaymentOutcome.accepted, boats') ∧
            boats'[i]? = some r' ∧ r'.amountOwed = Double.sub r.amountOwed (-10) ∧
            (r.amountOwed.isNumber = true → Double.le r.amountOwed r'.amountOwed = true) ∧
            (r.amountOwed.isFinite = true →
              r.amountOwed.mag * pow2 (-52) ≤ (-10 : Double).mag →
              Double.lt r.amountOwed r'.amountOwed = true)) ∧
        (Double.gt (-10) r.amountOwed = true →
          acceptPayment [jolly] (some ['J', 'o', 'l', 'l', 'y']) (some (-10)) =
            (PaymentOutcome.exceedsOwed, [jolly])) :=
  ⟨by decide!, by decide!, by decide!, by simp only [List.mem_singleton, forall_eq]; decide!,
    by decide, by decide!, by decide!,
    negative_payment [jolly] ['J', 'o', 'l', 'l', 'y'] (-10) (by decide!) (by decide!)
      (by decide!) (by simp only [List.mem_singleton, forall_eq]; decide!) (by decide)⟩

/-- C16 (counterexample): after adding `Jolly,20,slip,10,-100.00` the record is
stored owing -100, and a payment of -10 for it is refused.  After adding
`Jolly,20,slip,10,50.00` a payment of -1e-20 is accepted and the record owes 50 as
before, not more. -/
theorem payment_above_credit_refused :
    (run [] [Op.add (some creditLine)] =
        [⟨['J', 'o', 'l', 'l', 'y'], 20, PlaceType.slip, PlaceInfo.slipNumber 10, -100⟩] ∧
      Double.lt (-10) 0 = true ∧
      acceptPayment (run [] [Op.add (some creditLine)]) (some ['J', 'o', 'l', 'l', 'y'])
          (some (-10)) =
        (PaymentOutcome.exceedsOwed,
          [⟨['J', 'o', 'l', 'l', 'y'], 20, PlaceType.slip, PlaceInfo.slipNumber 10, -100⟩])) ∧
    (run [] [Op.add (some jollyLine)] = [jolly] ∧
      scanDouble ['-', '1', 'e', '-', '2', '0'] =
        some (Double.ofRat (-(1 / 100000000000000000000))) ∧
      Double.lt (Double.ofRat (-(1 / 100000000000000000000))) 0 = true ∧
      acceptPayment (run [] [Op.add (some jollyLine)]) (some ['J', 'o', 'l', 'l', 'y'])
          (some (Double.ofRat (-(1 / 100000000000000000000)))) =
        (PaymentOutcome.accepted, [jolly]) ∧
      jolly.amountOwed = 50 ∧ Double.lt 50 50 = false) := by
  decide!

/-! ## C17: `loadData` and `addBoat` accept the same lines -/

theorem addBoat_empty_eq_build (line : List Char) (b : Boat) :
    addBoat [] (some line) = (AddOutcome.added, [b]) ↔
      ∃ f, sscanfBoat line = some f ∧ b = buildBoat f ∧ storedValid b := by
  rw [← loadLine_eq_build]
  cases hf : sscanfBoat line with
  | none => simp [addBoat, loadLine, hf, MAX_BOATS]
  | some f =>
    by_cases hlen : validateLength f.length = false
    · simp [addBoat, loadLine, hf, hlen, MAX_BOATS]
    · cases hp : stringToPlaceType f.placeString <;>
        simp [addBoat, loadLine, hf, hlen, hp, MAX_BOATS, findBoatByName, findBoatByNameFrom,
          sortBoats_singleton, validateBoatInfo]
      all_goals (split_ifs with h1 h2 <;> first | (exfalso; omega) | simp [eq_comm])

/-- C17: for every line, the loop of `loadData` stores a record for the line exactly
when `addBoat` on the empty collection succeeds on it, and then both store the same
record: the one the five fields describe, with a length in [1,100], a known kind and
a location detail in range. -/
theorem load_add_same_validation (line : List Char) (b : Boat) :
    (loadLine line = Except.ok b ↔ addBoat [] (some line) = (AddOutcome.added, [b])) ∧
      ((∃ c, loadLine line = Except.ok c) ↔
        (addBoat [] (some line)).1 = AddOutcome.added) ∧
      (loadLine line = Except.ok b ↔
        ∃ f, sscanfBoat line = some f ∧ b = buildBoat f ∧ storedValid b) := by
  have h1 : loadLine line = Except.ok b ↔ addBoat [] (some line) = (AddOutcome.added, [b]) := by
    rw [addBoat_empty_eq_build, loadLine_eq_build]
  refine ⟨h1, ?_, loadLine_eq_build line b⟩
  constructor
  · rintro ⟨c, hc⟩
    rw [(addBoat_empty_eq_build line c).2 ((loadLine_eq_build line c).1 hc)]
  · intro h
    rcases hadd : addBoat [] (some line) with ⟨out, boats'⟩
    rw [hadd] at h
    simp only at h
    subst h
    obtain ⟨l, f, nb, hin, hf, _, _, _, _, _, _, _, hb⟩ := addBoat_added [] (some line) boats' hadd
    rw [List.nil_append, sortBoats_singleton] at hb
    subst hb
    exact ⟨nb, (loadLine_eq_build line nb).2 ((addBoat_empty_eq_build line nb).1 hadd)⟩

/-! ## C18: `findBoatByName` returns the first match -/

/-- C18: `findBoatByName` returns -1 exactly when no record of the collection has a
name equal to the given one once upper-case letters are folded to lower case;
otherwise it returns an index `i` with `0 ≤ i < count` whose record has such a name,
and no record at a smaller index has one. -/
theorem find_first_match (boats : List Boat) (name : List Char) :
    (findBoatByName boats name = -1 ↔ ∀ b ∈ boats, caseFold b.name ≠ caseFold name) ∧
      (findBoatByName boats name ≠ -1 →
        ∃ (i : Nat) (b : Boat), findBoatByName boats name = (i : Int) ∧
          0 ≤ findBoatByName boats name ∧ i < boats.length ∧ boats[i]? = some b ∧
          caseFold b.name = caseFold name ∧
          ∀ (j : Nat) (c : Boat), j < i → boats[j]? = some c →
            caseFold c.name ≠ caseFold name) := by
  constructor
  · rw [findBoatByName_eq_neg_one]
    simp only [ne_eq, strcasecmp_eq_zero_iff]
  · intro h
    obtain ⟨i, b, h1, h2, h3, h4⟩ := findBoatByName_found boats name h
    refine ⟨i, b, h1, by rw [h1]; exact Int.natCast_nonneg i, (List.getElem?_eq_some.1 h2).1,
      h2, (strcasecmp_eq_zero_iff _ _).1 h3, ?_⟩
    intro j c hj hc hfold
    exact h4 j c hj hc ((strcasecmp_eq_zero_iff _ _).2 hfold)

/-- C18 (witness): looking for `JOLLY` where `Molly` and `Jolly` are stored. -/
theorem find_first_match_witness :
    findBoatByName [molly, jolly] ['J', 'O', 'L', 'L', 'Y'] ≠ -1 ∧
      ∃ (i : Nat) (b : Boat),
        findBoatByName [molly, jolly] ['J', 'O', 'L', 'L', 'Y'] = (i : Int) ∧
          0 ≤ findBoatByName [molly, jolly] ['J', 'O', 'L', 'L', 'Y'] ∧
          i < [molly, jolly].length ∧ [molly, jolly][i]? = some b ∧
          caseFold b.name = caseFold ['J', 'O', 'L', 'L', 'Y'] ∧
          ∀ (j : Nat) (c : Boat), j < i → [molly, jolly][j]? = some c →
            caseFold c.name ≠ caseFold ['J', 'O', 'L', 'L', 'Y'] :=
  ⟨by decide, (find_first_match [molly, jolly] ['J', 'O', 'L', 'L', 'Y']).2 (by decide)⟩

/-! ## C19: a remove only deletes -/

theorem sorted_perm_unique {α : Type} (r : α → α → Prop) (l m : List α) (hp : l.Perm m)
    (hl : l.Pairwise r) (hm : m.Pairwise r)
    (hanti : ∀ a ∈ m, ∀ b ∈ m, r a b → r b a → a = b) : l = m := by
  induction l generalizing m with
  | nil => exact (List.Perm.nil_eq hp)
  | cons a l ih =>
    cases m with
    | nil => exact absurd hp.length_eq (by simp)
    | cons b m =>
      rw [List.pairwise_cons] at hl hm
      have ha : a ∈ b :: m := hp.subset (List.mem_cons_self a l)
      have hb : b ∈ a :: l := hp.symm.subset (List.mem_cons_self b m)
      have hab : a = b := by
        rcases List.mem_cons.1 ha with h | h
        · exact h
        · rcases List.mem_cons.1 hb with h' | h'
          · exact h'.symm
          · exact hanti a ha b (List.mem_cons_self b m) (hl.1 b h') (hm.1 a h)
      subst hab
      rw [ih m (List.Perm.cons_inv hp) hl.2 hm.2
        (fun x hx y hy => hanti x (List.mem_cons_of_mem _ hx) y (List.mem_cons_of_mem _ hy))]

theorem namesDistinct_eq (m : List Boat) (hd : namesDistinct m) (a b : Boat) (ha : a ∈ m)
    (hb : b ∈ m) (h : strcasecmp a.name b.name = 0) : a = b := by
  by_contra hne
  have hsymm : Symmetric (fun a b : Boat => strcasecmp a.name b.name ≠ 0) := by
    intro x y hxy hyx
    have := strcasecmp_swap x.name y.name
    omega
  exact List.Pairwise.forall hsymm hd ha hb hne h

theorem erase_sorted (boats : List Boat) (i : Nat) (hs : List.Sorted boatLe boats) :
    sortBoats (boats.eraseIdx i) = boats.eraseIdx i :=
  List.Sorted.insertionSort_eq (List.Pairwise.sublist (List.eraseIdx_sublist boats i) hs)

/-- C19: on a collection in ascending order of `strcasecmp` on the names, removing a
name that is found returns exactly the collection with the record at the index
found erased, the others as they were and in the order they were (the stable sort
that follows changes nothing); and when no two names are equal under `strcasecmp`
every list that holds the same records in ascending order is that list, so any
correct sort would change nothing. -/
theorem remove_pure_deletion (boats : List Boat) (name : List Char)
    (hs : List.Pairwise (fun a b => strcasecmp a.name b.name ≤ 0) boats)
    (hf : findBoatByName boats name ≠ -1) :
    ∃ (i : Nat), findBoatByName boats name = (i : Int) ∧ i < boats.length ∧
      removeBoat boats (some name) = (RemoveOutcome.removed, boats.eraseIdx i) ∧
      sortBoats (boats.eraseIdx i) = boats.eraseIdx i ∧
      (namesDistinct boats → ∀ l : List Boat, l.Perm (boats.eraseIdx i) →
        List.Pairwise (fun a b => strcasecmp a.name b.name ≤ 0) l → l = boats.eraseIdx i) := by
  obtain ⟨i, b, h1, h2, _, _⟩ := findBoatByName_found boats name hf
  have hidx : (findBoatByName boats name).toNat = i := by
    rw [h1]
    simp
  have hsub : (boats.eraseIdx i).Pairwise (fun a b => strcasecmp a.name b.name ≤ 0) :=
    List.Pairwise.sublist (List.eraseIdx_sublist boats i) hs
  refine ⟨i, h1, (List.getElem?_eq_some.1 h2).1, ?_, erase_sorted boats i hs, ?_⟩
  · simp only [removeBoat, hf, hidx, if_false, erase_sorted boats i hs]
  · intro hd l hp hl
    have hd' : namesDistinct (boats.eraseIdx i) :=
      List.Pairwise.sublist (List.eraseIdx_sublist boats i) hd
    apply sorted_perm_unique _ l _ hp hl hsub
    intro x hx y hy hxy hyx
    have := strcasecmp_swap x.name y.name
    exact namesDistinct_eq _ hd' x y hx hy (by omega)

/-- C19 (witness): removing `molly` from the collection holding `Jolly` and `Molly`. -/
theorem remove_pure_deletion_witness :
    List.Pairwise (fun a b => strcasecmp a.name b.name ≤ 0) [jolly, molly] ∧
      removeBoat [jolly, molly] (some ['m', 'o', 'l', 'l', 'y']) =
        (RemoveOutcome.removed, [jolly]) ∧
      ∃ (i : Nat), findBoatByName [jolly, molly] ['m', 'o', 'l', 'l', 'y'] = (i : Int) ∧
        i < [jolly, molly].length ∧
        removeBoat [jolly, molly] (some ['m', 'o', 'l', 'l', 'y']) =
          (RemoveOutcome.removed, [jolly, molly].eraseIdx i) ∧
        sortBoats ([jolly, molly].eraseIdx i) = [jolly, molly].eraseIdx i ∧
        (namesDistinct [jolly, molly] → ∀ l : List Boat,
          l.Perm ([jolly, molly].eraseIdx i) →
          List.Pairwise (fun a b => strcasecmp a.name b.name ≤ 0) l →
          l = [jolly, molly].eraseIdx i) :=
  ⟨by decide, by decide!,
    remove_pure_deletion [jolly, molly] ['m', 'o', 'l', 'l', 'y'] (by decide) (by decide)⟩

/-! ## C20: an add keeps the records that were there -/

theorem addBoat_added_build (boats : List Boat) (input : Option (List Char))
    (boats' : List Boat) (h : addBoat boats input = (AddOutcome.added, boats')) :
    ∃ line f, input = some line ∧ sscanfBoat line = some f ∧
      boats' = sortBoats (boats ++ [buildBoat f]) := by
  cases input with
  | none =>
    unfold addBoat at h
    split_ifs at h <;> simp at h
  | some line =>
    by_cases hcap : boats.length ≥ MAX_BOATS
    · simp [addBoat, hcap] at h
    · cases hf : sscanfBoat line with
      | none => simp [addBoat, hcap, hf] at h
      | some f =>
        by_cases hlen : validateLength f.length = false
        · simp [addBoat, hcap, hf, hlen] at h
        · by_cases hdup : findBoatByName boats f.name ≠ -1
          · simp [addBoat, hcap, hf, hlen, hdup] at h
          · cases hp : stringToPlaceType f.placeString <;>
              simp only [addBoat, hcap, hf, hlen, hdup, hp, if_false] at h
            all_goals try split_ifs at h
            all_goals simp only [Prod.mk.injEq, reduceCtorEq, false_and, true_and] at h
            all_goals
              (refine ⟨line, f, rfl, hf, ?_⟩
               rw [← h]
               simp only [buildBoat, hp])

/-- C20: when `addBoat` reports success, the collection returned is a permutation of
the collection given with one record appended, the record that the line read
describes; every record stored before is still there with all its fields, as many
times as before, and every record there now was stored before or is the new one. -/
theorem add_keeps_records (boats : List Boat) (input : Option (List Char)) (boats' : List Boat)
    (h : addBoat boats input = (AddOutcome.added, boats')) :
    ∃ line f, input = some line ∧ sscanfBoat line = some f ∧
      boats'.Perm (boats ++ [buildBoat f]) ∧ (∀ b ∈ boats, b ∈ boats') ∧
      (∀ b ∈ boats', b ∈ boats ∨ b = buildBoat f) ∧
      (∀ b : Boat, boats'.count b = boats.count b + if b = buildBoat f then 1 else 0) := by
  obtain ⟨line, f, hin, hf, hb⟩ := addBoat_added_build boats input boats' h
  have hp : boats'.Perm (boats ++ [buildBoat f]) := by
    rw [hb]
    exact sortBoats_perm _
  refine ⟨line, f, hin, hf, hp, ?_, ?_, ?_⟩
  · intro b hbm
    exact hp.symm.subset (List.mem_append_left _ hbm)
  · intro b hbm
    have := hp.subset hbm
    simpa using this
  · intro b
    rw [hp.count_eq, List.count_append, List.count_singleton]
    by_cases hbn : b = buildBoat f
    · simp [hbn]
    · have : ¬ (buildBoat f == b) = true := by
        simp only [beq_iff_eq]
        exact fun h => hbn h.symm
      simp [hbn, this]

/-- C20 (witness): adding `Jolly,20,slip,10,50.00` where `Molly` is stored. -/
theorem add_keeps_records_witness :
    ∃ line f, some jollyLine = some line ∧ sscanfBoat line = some f ∧
      [jolly, molly].Perm ([molly] ++ [buildBoat f]) ∧ (∀ b ∈ [molly], b ∈ [jolly, molly]) ∧
      (∀ b ∈ [jolly, molly], b ∈ [molly] ∨ b = buildBoat f) ∧
      (∀ b : Boat, [jolly, molly].count b = [molly].count b + if b = buildBoat f then 1 else 0) :=
  add_keeps_records [molly] (some jollyLine) [jolly, molly] (by decide!)

end BoatManagement
